import Mathlib

/-! # Hierarchical resource manager (`rcmgr.go`)

A shallow embedding of `src/rcmgr.go`: the resource manager with its three
registries, the typed scopes, the factory operations `OpenConnection` /
`OpenStream`, the edge migrations `SetPeer` / `SetProtocol` / `SetService`,
the view operations and the reclaimer pass `gc`.

Go pointers are addresses (natural numbers) into an object store that
is threaded through every operation.  The store is field-indexed: every field
of the scope structs is a map from the address of the object to the value of
the field.  The generic resource scope (`resourceScope`, its counter and its
methods) is not part of `rcmgr.go`; it is modelled from the specification, and
every such definition says so.
-/

namespace Rcmgr

/-! ## Resource vectors -/

/-- Direction of a connection or stream (`network.Direction`), the two values
the specification names. -/
inductive Direction where
  | DirInbound
  | DirOutbound
deriving DecidableEq, Repr

/-- Modelled from the spec: the resource vector of section 3, a fixed-shape
tuple `{memory, conns_in, conns_out, streams_in, streams_out, fd}`.  The Go
fields are signed (`int64`, `int`), so the components are integers; the
arithmetic is componentwise. -/
@[ext]
structure ScopeStat where
  memory : Int
  conns_in : Int
  conns_out : Int
  streams_in : Int
  streams_out : Int
  fd : Int
deriving DecidableEq, Repr

/-- Modelled from the spec: a limit is a resource vector of per-dimension
upper bounds. -/
abbrev Limit := ScopeStat

namespace ScopeStat

instance : Zero ScopeStat := ⟨⟨0, 0, 0, 0, 0, 0⟩⟩

instance : Add ScopeStat :=
  ⟨fun a b => ⟨a.memory + b.memory, a.conns_in + b.conns_in, a.conns_out + b.conns_out,
    a.streams_in + b.streams_in, a.streams_out + b.streams_out, a.fd + b.fd⟩⟩

instance : Neg ScopeStat :=
  ⟨fun a => ⟨-a.memory, -a.conns_in, -a.conns_out, -a.streams_in, -a.streams_out, -a.fd⟩⟩

instance : Sub ScopeStat :=
  ⟨fun a b => ⟨a.memory - b.memory, a.conns_in - b.conns_in, a.conns_out - b.conns_out,
    a.streams_in - b.streams_in, a.streams_out - b.streams_out, a.fd - b.fd⟩⟩

/-- Componentwise comparison of two resource vectors. -/
def le (a b : ScopeStat) : Prop :=
  a.memory ≤ b.memory ∧ a.conns_in ≤ b.conns_in ∧ a.conns_out ≤ b.conns_out ∧
    a.streams_in ≤ b.streams_in ∧ a.streams_out ≤ b.streams_out ∧ a.fd ≤ b.fd

instance : LE ScopeStat := ⟨le⟩

instance (a b : ScopeStat) : Decidable (a ≤ b) :=
  inferInstanceAs (Decidable (a.memory ≤ b.memory ∧ a.conns_in ≤ b.conns_in ∧
    a.conns_out ≤ b.conns_out ∧ a.streams_in ≤ b.streams_in ∧
    a.streams_out ≤ b.streams_out ∧ a.fd ≤ b.fd))

instance : AddCommGroup ScopeStat where
  add_assoc a b c :=
    ScopeStat.ext (Int.add_assoc _ _ _) (Int.add_assoc _ _ _) (Int.add_assoc _ _ _)
      (Int.add_assoc _ _ _) (Int.add_assoc _ _ _) (Int.add_assoc _ _ _)
  zero_add a :=
    ScopeStat.ext (Int.zero_add _) (Int.zero_add _) (Int.zero_add _) (Int.zero_add _)
      (Int.zero_add _) (Int.zero_add _)
  add_zero a :=
    ScopeStat.ext (Int.add_zero _) (Int.add_zero _) (Int.add_zero _) (Int.add_zero _)
      (Int.add_zero _) (Int.add_zero _)
  nsmul := nsmulRec
  zsmul := zsmulRec
  neg_add_cancel a :=
    ScopeStat.ext (Int.add_left_neg _) (Int.add_left_neg _) (Int.add_left_neg _)
      (Int.add_left_neg _) (Int.add_left_neg _) (Int.add_left_neg _)
  add_comm a b :=
    ScopeStat.ext (Int.add_comm _ _) (Int.add_comm _ _) (Int.add_comm _ _) (Int.add_comm _ _)
      (Int.add_comm _ _) (Int.add_comm _ _)
  sub_eq_add_neg a b :=
    ScopeStat.ext (Int.sub_eq_add_neg) (Int.sub_eq_add_neg) (Int.sub_eq_add_neg)
      (Int.sub_eq_add_neg) (Int.sub_eq_add_neg) (Int.sub_eq_add_neg)

end ScopeStat

/-! ## Object store -/

/-! A Go pointer to a scope is the address of the object in the store, a
natural number. -/

/-- Error values.  `AlreadyAttached` and `NotAttachedToProtocol` are the
`fmt.Errorf` results of `SetPeer` / `SetProtocol` / `SetService`;
`LimitExceeded` and `ScopeClosed` are the failures of the resource scope
primitive (section 7 of the specification); `NilPointerDereference` stands
for the run-time panic of `s.peer.resourceScope` on a nil `s.peer`, which no
stream built by `newStreamScope` can raise. -/
inductive Error where
  | LimitExceeded
  | ScopeClosed
  | AlreadyAttached
  | NotAttachedToProtocol
  | NilPointerDereference
deriving DecidableEq, Repr

/-- The seven typed scopes of `rcmgr.go` with their immutable identity
fields: `serviceScope.name`, `protocolScope.proto`, `peerScope.peer`,
`connectionScope.dir` / `usefd`, `streamScope.dir`. -/
inductive ScopeKind where
  | systemScope
  | transientScope
  | serviceScope (name : String)
  | protocolScope (proto : String)
  | peerScope (peer : String)
  | connectionScope (dir : Direction) (usefd : Bool)
  | streamScope (dir : Direction)
deriving DecidableEq, Repr

/-- The `Limiter` interface consumed by the manager (section 6 of the
specification); it is an external collaborator and a parameter here. -/
structure Limiter where
  GetSystemLimits : Limit
  GetTransientLimits : Limit
  GetServiceLimits : String → Limit
  GetProtocolLimits : String → Limit
  GetPeerLimits : String → Limit
  GetConnLimits : Limit
  GetStreamLimits : String → Limit

/-- One query of the `Limiter`, recorded in the order the manager makes them. -/
inductive LimiterCall where
  | GetSystemLimits
  | GetTransientLimits
  | GetServiceLimits (svc : String)
  | GetProtocolLimits (proto : String)
  | GetPeerLimits (p : String)
  | GetConnLimits
  | GetStreamLimits (p : String)
deriving DecidableEq, Repr

/-- The `resourceManager` struct together with the object store its pointers
refer to.

* `limits`, `system`, `transient` and the three registry maps `svc`, `proto`,
  `peer` (association lists with at most one entry per key) are the fields of
  the Go struct.  The mutex, the cancellation context and the wait group only
  serve the background goroutine and are not represented.
* `next` is the allocation pointer of the store.  A typed scope and the
  `resourceScope` it embeds are allocated together and share their address.
* `kind` is the dynamic type of the object with its identity fields.
* `done`, `refCnt`, `limit`, `used`, `constraints` are the fields of the
  embedded resource scope of section 3 (done flag, reference count, the
  counter's limit and used vector, constraint list).
* `s_peer`, `s_svc`, `s_proto` are the cross-links `connectionScope.peer`,
  `streamScope.peer`, `streamScope.svc`, `streamScope.proto`; `none` is nil.
* `limiterLog` records the calls made to `limits`. -/
structure resourceManager where
  limits : Limiter
  system : Nat
  transient : Nat
  svc : List (String × Nat)
  proto : List (String × Nat)
  peer : List (String × Nat)
  next : Nat
  kind : Nat → ScopeKind
  done : Nat → Bool
  refCnt : Nat → Int
  limit : Nat → Limit
  used : Nat → ScopeStat
  constraints : Nat → List Nat
  s_peer : Nat → Option Nat
  s_svc : Nat → Option Nat
  s_proto : Nat → Option Nat
  limiterLog : List LimiterCall

/-- Map lookup `s, ok := m[k]`. -/
def mapGet (m : List (String × Nat)) (k : String) : Option Nat :=
  match m with
  | [] => none
  | (k', r) :: rest => if k' = k then some r else mapGet rest k

/-- Map insertion `m[k] = r` for a key that is absent (the only use in
`rcmgr.go`). -/
def mapSet (m : List (String × Nat)) (k : String) (r : Nat) : List (String × Nat) :=
  m ++ [(k, r)]

/-- Map deletion `delete(m, k)`. -/
def mapDelete (m : List (String × Nat)) (k : String) : List (String × Nat) :=
  m.filter (fun e => decide (e.1 ≠ k))

/-! ## The resource scope primitive -/

/-- Modelled from the spec: `IncRef` of the resource scope (not in `rcmgr.go`),
section 4.2: mutates `refs`. -/
def IncRef (r : Nat) (st : resourceManager) : resourceManager :=
  { st with refCnt := Function.update st.refCnt r (st.refCnt r + 1) }

/-- Modelled from the spec: `DecRef` of the resource scope (not in `rcmgr.go`),
section 4.2: mutates `refs`. -/
def DecRef (r : Nat) (st : resourceManager) : resourceManager :=
  { st with refCnt := Function.update st.refCnt r (st.refCnt r - 1) }

/-- Modelled from the spec: `rc.stat()`, the snapshot of `used` (section 4.1). -/
def stat (r : Nat) (st : resourceManager) : ScopeStat :=
  st.used r

/-- Modelled from the spec: `ReserveForChild` of the resource scope (not in
`rcmgr.go`), sections 4.1 and 4.2: the done flag is checked first
(`ScopeClosed`); then the counter admits `delta` iff `used + delta ≤ limit`
componentwise, and otherwise leaves `used` unchanged (`LimitExceeded`).  The
parents are not charged. -/
def ReserveForChild (r : Nat) (delta : ScopeStat) (st : resourceManager) :
    resourceManager × Option Error :=
  if st.done r then (st, some Error.ScopeClosed)
  else if st.used r + delta ≤ st.limit r then
    ({ st with used := Function.update st.used r (st.used r + delta) }, none)
  else (st, some Error.LimitExceeded)

/-- Modelled from the spec: `ReleaseForChild` of the resource scope (not in
`rcmgr.go`), sections 4.1 and 4.2: subtracts `delta` from the counter of this
scope only; a done scope rejects the operation, which has no result to report
it in. -/
def ReleaseForChild (r : Nat) (delta : ScopeStat) (st : resourceManager) : resourceManager :=
  if st.done r then st
  else { st with used := Function.update st.used r (st.used r - delta) }

/-- Modelled from the spec: the walk of `Reserve` over the constraint list
(section 4.2): left to right, each parent's counter is charged; when a parent
fails, every parent charged before it is released and the failure is returned
unchanged. -/
def reserveForConstraints (cs : List Nat) (delta : ScopeStat) (st : resourceManager) :
    resourceManager × Option Error :=
  match cs with
  | [] => (st, none)
  | c :: rest =>
    match ReserveForChild c delta st with
    | (_, some e) => (st, some e)
    | (st1, none) =>
      match reserveForConstraints rest delta st1 with
      | (st2, none) => (st2, none)
      | (st2, some e) => (ReleaseForChild c delta st2, some e)

/-- Modelled from the spec: the release of `delta` from every parent of the
constraint list (section 4.2). -/
def releaseForConstraints (cs : List Nat) (delta : ScopeStat) (st : resourceManager) :
    resourceManager :=
  match cs with
  | [] => st
  | c :: rest => releaseForConstraints rest delta (ReleaseForChild c delta st)

/-- Modelled from the spec: `Reserve` of the resource scope (not in
`rcmgr.go`), section 4.2: the done flag is checked first; every parent of the
constraint list must admit `delta`; only then the scope charges its own
counter, and if that fails every parent is unrolled.  All or nothing. -/
def Reserve (r : Nat) (delta : ScopeStat) (st : resourceManager) :
    resourceManager × Option Error :=
  if st.done r then (st, some Error.ScopeClosed)
  else
    match reserveForConstraints (st.constraints r) delta st with
    | (st1, some e) => (st1, some e)
    | (st1, none) =>
      if st1.used r + delta ≤ st1.limit r then
        ({ st1 with used := Function.update st1.used r (st1.used r + delta) }, none)
      else (releaseForConstraints (st.constraints r) delta st1, some Error.LimitExceeded)

/-- Modelled from the spec: `Release` of the resource scope (not in
`rcmgr.go`), section 4.2: subtracts `delta` from the scope and from every
parent; a done scope rejects the operation. -/
def Release (r : Nat) (delta : ScopeStat) (st : resourceManager) : resourceManager :=
  if st.done r then st
  else
    releaseForConstraints (st.constraints r) delta
      { st with used := Function.update st.used r (st.used r - delta) }

/-- Modelled from the spec: the delta of `AddConn(dir, usefd)` (section 4.2 and
scenario E1): one connection in direction `dir`, one file descriptor iff
`usefd`. -/
def connDelta (dir : Direction) (usefd : Bool) : ScopeStat :=
  { memory := 0
    conns_in := if dir = Direction.DirInbound then 1 else 0
    conns_out := if dir = Direction.DirInbound then 0 else 1
    streams_in := 0
    streams_out := 0
    fd := if usefd then 1 else 0 }

/-- Modelled from the spec: the delta of `AddStream(dir)` (section 4.2 and
scenario E3): one stream in direction `dir`. -/
def streamDelta (dir : Direction) : ScopeStat :=
  { memory := 0
    conns_in := 0
    conns_out := 0
    streams_in := if dir = Direction.DirInbound then 1 else 0
    streams_out := if dir = Direction.DirInbound then 0 else 1
    fd := 0 }

/-- Modelled from the spec: the delta of the memory-only fast path. -/
def memDelta (n : Nat) : ScopeStat :=
  { memory := n, conns_in := 0, conns_out := 0, streams_in := 0, streams_out := 0, fd := 0 }

/-- Modelled from the spec: `AddConn` of the resource scope (not in
`rcmgr.go`): builds the delta and calls `Reserve`. -/
def AddConn (r : Nat) (dir : Direction) (usefd : Bool) (st : resourceManager) :
    resourceManager × Option Error :=
  Reserve r (connDelta dir usefd) st

/-- Modelled from the spec: `AddStream` of the resource scope (not in
`rcmgr.go`): builds the delta and calls `Reserve`. -/
def AddStream (r : Nat) (dir : Direction) (st : resourceManager) :
    resourceManager × Option Error :=
  Reserve r (streamDelta dir) st

/-- Modelled from the spec: `ReserveMemory` of the resource scope (not in
`rcmgr.go`): `Reserve` of a memory-only delta. -/
def ReserveMemory (r : Nat) (n : Nat) (st : resourceManager) :
    resourceManager × Option Error :=
  Reserve r (memDelta n) st

/-- Modelled from the spec: `ReleaseMemory` of the resource scope (not in
`rcmgr.go`): `Release` of a memory-only delta. -/
def ReleaseMemory (r : Nat) (n : Nat) (st : resourceManager) : resourceManager :=
  Release r (memDelta n) st

/-- Modelled from the spec: `IsUnused` of the resource scope (not in
`rcmgr.go`), section 4.2: `refs = 0 ∧ used = 0 ∧ ¬done`. -/
def IsUnused (r : Nat) (st : resourceManager) : Bool :=
  decide (st.refCnt r = 0) && decide (st.used r = 0) && !st.done r

/-- Modelled from the spec: the part of `Done` that detaches a scope from its
parents: the scope's `used` is released from every parent, and the reference
the constraint list holds on the parent is dropped.  The reference is the one
`rcmgr.go` speaks of at `OpenStream` ("we have the reference in constraints")
and at `SetPeer` / `SetProtocol` ("removed from constraints"). -/
def doneConstraints (cs : List Nat) (used : ScopeStat) (st : resourceManager) :
    resourceManager :=
  match cs with
  | [] => st
  | c :: rest => doneConstraints rest used (DecRef c (ReleaseForChild c used st))

/-- Modelled from the spec: `Done` of the resource scope (not in `rcmgr.go`),
section 4.2: a no-op after the first call; otherwise sets `done`, releases the
scope's current `used` from every parent (dropping the constraint list's
reference on it), then zeros `used`. -/
def Done (r : Nat) (st : resourceManager) : resourceManager :=
  if st.done r then st
  else
    let st1 := doneConstraints (st.constraints r) (st.used r) st
    { st1 with
      done := Function.update st1.done r true
      used := Function.update st1.used r 0 }

/-- Modelled from the spec: the reference each scope of a constraint list
receives when a scope is constructed over it. -/
def incRefAll (cs : List Nat) (st : resourceManager) : resourceManager :=
  match cs with
  | [] => st
  | c :: rest => incRefAll rest (IncRef c st)

/-- Modelled from the spec: `newResourceScope(limit, constraints)` (not in
`rcmgr.go`), section 3: a fresh object with the given limit, `used = 0`,
`refs = 0`, not done, and the given constraint list; each constraint receives
the reference that `rcmgr.go` later drops when it removes a scope from a
constraint list.  The typed wrapper (`kind` and the `peer` link a stream is
born with) is allocated with it.  Returns the new object's address. -/
def newResourceScope (kind : ScopeKind) (limit : Limit) (constraints : List Nat)
    (peer : Option Nat) (st : resourceManager) : Nat × resourceManager :=
  let st1 := incRefAll constraints st
  (st1.next,
    { st1 with
      next := st1.next + 1
      kind := Function.update st1.kind st1.next kind
      done := Function.update st1.done st1.next false
      refCnt := Function.update st1.refCnt st1.next 0
      limit := Function.update st1.limit st1.next limit
      used := Function.update st1.used st1.next 0
      constraints := Function.update st1.constraints st1.next constraints
      s_peer := Function.update st1.s_peer st1.next peer
      s_svc := Function.update st1.s_svc st1.next none
      s_proto := Function.update st1.s_proto st1.next none })

/-! ## Typed scope constructors (`rcmgr.go`, lines 258-311) -/

/-- Source `newSystemScope`: no constraints. -/
def newSystemScope (limit : Limit) (st : resourceManager) : Nat × resourceManager :=
  newResourceScope ScopeKind.systemScope limit [] none st

/-- Source `newTransientScope`: constraints `[system]`. -/
def newTransientScope (limit : Limit) (system : Nat) (st : resourceManager) :
    Nat × resourceManager :=
  newResourceScope ScopeKind.transientScope limit [system] none st

/-- Source `newServiceScope`: constraints `[system]`. -/
def newServiceScope (name : String) (limit : Limit) (system : Nat) (st : resourceManager) :
    Nat × resourceManager :=
  newResourceScope (ScopeKind.serviceScope name) limit [system] none st

/-- Source `newProtocolScope`: constraints `[system]`. -/
def newProtocolScope (proto : String) (limit : Limit) (system : Nat) (st : resourceManager) :
    Nat × resourceManager :=
  newResourceScope (ScopeKind.protocolScope proto) limit [system] none st

/-- Source `newPeerScope`: constraints `[rcmgr.system]`. -/
def newPeerScope (p : String) (limit : Limit) (st : resourceManager) : Nat × resourceManager :=
  newResourceScope (ScopeKind.peerScope p) limit [st.system] none st

/-- Source `newConnectionScope`: constraints `[rcmgr.transient, rcmgr.system]`,
no peer. -/
def newConnectionScope (dir : Direction) (usefd : Bool) (limit : Limit) (st : resourceManager) :
    Nat × resourceManager :=
  newResourceScope (ScopeKind.connectionScope dir usefd) limit [st.transient, st.system] none st

/-- Source `newStreamScope`: constraints `[peer, transient, system]`, the
`peer` link set. -/
def newStreamScope (dir : Direction) (limit : Limit) (peer : Nat) (st : resourceManager) :
    Nat × resourceManager :=
  newResourceScope (ScopeKind.streamScope dir) limit [peer, st.transient, st.system]
    (some peer) st

/-! ## The resource manager (`rcmgr.go`, lines 98-256) -/

/-- Records one call to the limiter. -/
def resourceManager.logCall (st : resourceManager) (c : LimiterCall) : resourceManager :=
  { st with limiterLog := st.limiterLog ++ [c] }

/-- The manager before `NewResourceManager` has allocated anything: empty
registries and an empty store (the fields of unallocated addresses hold
arbitrary values). -/
def emptyManager (limits : Limiter) : resourceManager :=
  { limits := limits, system := 0, transient := 0, svc := [], proto := [], peer := [],
    next := 0, kind := fun _ => ScopeKind.systemScope, done := fun _ => true,
    refCnt := fun _ => 0, limit := fun _ => 0, used := fun _ => 0,
    constraints := fun _ => [], s_peer := fun _ => none, s_svc := fun _ => none,
    s_proto := fun _ => none, limiterLog := [] }

/-- Source `NewResourceManager`: empty registries, the system scope and the
transient scope, each with the manager's own reference.  The background
goroutine is started by the source and is represented by `gc` steps. -/
def NewResourceManager (limits : Limiter) : resourceManager :=
  let r := emptyManager limits
  let (system, r1) := newSystemScope limits.GetSystemLimits (r.logCall LimiterCall.GetSystemLimits)
  let r2 := IncRef system { r1 with system := system }
  let (transient, r3) :=
    newTransientScope limits.GetTransientLimits r2.system
      (r2.logCall LimiterCall.GetTransientLimits)
  IncRef transient { r3 with transient := transient }

/-- A view callback: a function on the scope it is handed and the state. -/
abbrev Callback := Nat → resourceManager → resourceManager × Option Error

/-- Source `ViewSystem`. -/
def ViewSystem (f : Callback) (r : resourceManager) : resourceManager × Option Error :=
  f r.system r

/-- Source `ViewTransient`. -/
def ViewTransient (f : Callback) (r : resourceManager) : resourceManager × Option Error :=
  f r.transient r

/-- Source `getServiceScope`: look up; if absent ask the limiter, construct
and insert; `IncRef`; return. -/
def getServiceScope (svc : String) (r : resourceManager) : Nat × resourceManager :=
  match mapGet r.svc svc with
  | some s => (s, IncRef s r)
  | none =>
    let (s, r1) :=
      newServiceScope svc (r.limits.GetServiceLimits svc) r.system
        (r.logCall (LimiterCall.GetServiceLimits svc))
    (s, IncRef s { r1 with svc := mapSet r1.svc svc s })

/-- Source `getProtocolScope`. -/
def getProtocolScope (proto : String) (r : resourceManager) : Nat × resourceManager :=
  match mapGet r.proto proto with
  | some s => (s, IncRef s r)
  | none =>
    let (s, r1) :=
      newProtocolScope proto (r.limits.GetProtocolLimits proto) r.system
        (r.logCall (LimiterCall.GetProtocolLimits proto))
    (s, IncRef s { r1 with proto := mapSet r1.proto proto s })

/-- Source `getPeerScope`. -/
def getPeerScope (p : String) (r : resourceManager) : Nat × resourceManager :=
  match mapGet r.peer p with
  | some s => (s, IncRef s r)
  | none =>
    let (s, r1) :=
      newPeerScope p (r.limits.GetPeerLimits p) (r.logCall (LimiterCall.GetPeerLimits p))
    (s, IncRef s { r1 with peer := mapSet r1.peer p s })

/-- Source `ViewService`: the deferred `DecRef` runs after the callback. -/
def ViewService (srv : String) (f : Callback) (r : resourceManager) :
    resourceManager × Option Error :=
  let (s, r1) := getServiceScope srv r
  let (r2, err) := f s r1
  (DecRef s r2, err)

/-- Source `ViewProtocol`. -/
def ViewProtocol (proto : String) (f : Callback) (r : resourceManager) :
    resourceManager × Option Error :=
  let (s, r1) := getProtocolScope proto r
  let (r2, err) := f s r1
  (DecRef s r2, err)

/-- Source `ViewPeer`. -/
def ViewPeer (p : String) (f : Callback) (r : resourceManager) :
    resourceManager × Option Error :=
  let (s, r1) := getPeerScope p r
  let (r2, err) := f s r1
  (DecRef s r2, err)

/-- Source `OpenConnection`: on failure of `AddConn` the scope is closed and
the error returned without a scope. -/
def OpenConnection (dir : Direction) (usefd : Bool) (r : resourceManager) :
    resourceManager × Except Error Nat :=
  let (conn, r1) :=
    newConnectionScope dir usefd r.limits.GetConnLimits (r.logCall LimiterCall.GetConnLimits)
  match AddConn conn dir usefd r1 with
  | (r2, some err) => (Done conn r2, Except.error err)
  | (r2, none) => (r2, Except.ok conn)

/-- Source `OpenStream`. -/
def OpenStream (p : String) (dir : Direction) (r : resourceManager) :
    resourceManager × Except Error Nat :=
  let (peer, r1) := getPeerScope p r
  let (stream, r2) :=
    newStreamScope dir (r1.limits.GetStreamLimits p) peer
      (r1.logCall (LimiterCall.GetStreamLimits p))
  let r3 := DecRef peer r2
  match AddStream stream dir r3 with
  | (r4, some err) => (Done stream r4, Except.error err)
  | (r4, none) => (r4, Except.ok stream)

/-- Source `gc`, first loop: every protocol entry whose scope `IsUnused` is
sent `Done` and deleted.  The entries are visited in the order of the list
(Go leaves the order of a map iteration open). -/
def gcProto (entries : List (String × Nat)) (r : resourceManager) : resourceManager :=
  match entries with
  | [] => r
  | (proto, s) :: rest =>
    if IsUnused s r then
      gcProto rest { Done s r with proto := mapDelete (Done s r).proto proto }
    else gcProto rest r

/-- Source `gc`, second loop: the same over the peer registry. -/
def gcPeer (entries : List (String × Nat)) (r : resourceManager) : resourceManager :=
  match entries with
  | [] => r
  | (p, s) :: rest =>
    if IsUnused s r then
      gcPeer rest { Done s r with peer := mapDelete (Done s r).peer p }
    else gcPeer rest r

/-- Source `gc`: one reclaimer pass. -/
def gc (r : resourceManager) : resourceManager :=
  let r1 := gcProto r.proto r
  gcPeer r1.peer r1

/-! ## Connection and stream scopes (`rcmgr.go`, lines 325-441) -/

/-- A value of one of the Go interface types `network.PeerScope`,
`network.ProtocolScope` and `network.ServiceScope`: the nil interface, or an
interface value that holds a scope pointer, which may be the nil pointer.
Only the nil interface compares equal to `nil` in Go; a method call on an
interface value that holds the nil pointer dereferences it. -/
inductive ScopeIface where
  | nil
  | ofPtr (p : Option Nat)
deriving DecidableEq, Repr

/-- Source `connectionScope.PeerScope` and `streamScope.PeerScope`:
`return s.peer` converts the pointer field to the interface type, so the
result holds the pointer whether it is set or nil. -/
def PeerScope (s : Nat) (r : resourceManager) : ScopeIface :=
  ScopeIface.ofPtr (r.s_peer s)

/-- Source `streamScope.ProtocolScope`: `return s.proto`, converted to the
interface type. -/
def ProtocolScope (s : Nat) (r : resourceManager) : ScopeIface :=
  ScopeIface.ofPtr (r.s_proto s)

/-- Source `streamScope.ServiceScope`: `return s.svc`, converted to the
interface type. -/
def ServiceScope (s : Nat) (r : resourceManager) : ScopeIface :=
  ScopeIface.ofPtr (r.s_svc s)

/-- Source `connectionScope.SetPeer`. -/
def SetPeer (s : Nat) (p : String) (r : resourceManager) : resourceManager × Option Error :=
  if r.s_peer s ≠ none then (r, some Error.AlreadyAttached)
  else
    let (peer, r1) := getPeerScope p r
    let r2 := { r1 with s_peer := Function.update r1.s_peer s (some peer) }
    -- juggle resources from transient scope to peer scope
    let stat := stat s r2
    match ReserveForChild peer stat r2 with
    | (r3, some err) =>
      let r4 := DecRef peer r3
      ({ r4 with s_peer := Function.update r4.s_peer s none }, some err)
    | (r3, none) =>
      let r4 := ReleaseForChild r3.transient stat r3
      let r5 := DecRef r4.transient r4 -- removed from constraints
      -- update constraints
      ({ r5 with constraints := Function.update r5.constraints s [peer, r5.system] }, none)

/-- Source `streamScope.SetProtocol`. -/
def SetProtocol (s : Nat) (proto : String) (r : resourceManager) :
    resourceManager × Option Error :=
  if r.s_proto s ≠ none then (r, some Error.AlreadyAttached)
  else
    let (ps, r1) := getProtocolScope proto r
    let r2 := { r1 with s_proto := Function.update r1.s_proto s (some ps) }
    -- juggle resources from transient scope to protocol scope
    let stat := stat s r2
    match ReserveForChild ps stat r2 with
    | (r3, some err) =>
      let r4 := DecRef ps r3
      ({ r4 with s_proto := Function.update r4.s_proto s none }, some err)
    | (r3, none) =>
      let r4 := ReleaseForChild r3.transient stat r3
      let r5 := DecRef r4.transient r4 -- removed from constraints
      -- update constraints
      match r5.s_peer s with
      | none => (r5, some Error.NilPointerDereference)
      | some peer =>
        ({ r5 with constraints := Function.update r5.constraints s [peer, ps, r5.system] }, none)

/-- Source `streamScope.SetService`. -/
def SetService (s : Nat) (svc : String) (r : resourceManager) :
    resourceManager × Option Error :=
  if r.s_proto s = none then (r, some Error.NotAttachedToProtocol)
  else if r.s_svc s ≠ none then (r, some Error.AlreadyAttached)
  else
    let (ss, r1) := getServiceScope svc r
    let r2 := { r1 with s_svc := Function.update r1.s_svc s (some ss) }
    -- reserve resources in service
    match ReserveForChild ss (stat s r2) r2 with
    | (r3, some err) =>
      let r4 := DecRef ss r3
      ({ r4 with s_svc := Function.update r4.s_svc s none }, some err)
    | (r3, none) =>
      -- update constraints
      match r3.s_peer s, r3.s_proto s with
      | some peer, some proto =>
        ({ r3 with constraints := Function.update r3.constraints s [peer, proto, ss, r3.system] },
          none)
      | _, _ => (r3, some Error.NilPointerDereference)

/-! ## Well-formed and reachable states -/

/-- Whether a scope is a service scope. -/
def ScopeKind.isService : ScopeKind → Bool
  | ScopeKind.serviceScope _ => true
  | _ => false

/-- Whether a scope is a protocol scope. -/
def ScopeKind.isProtocol : ScopeKind → Bool
  | ScopeKind.protocolScope _ => true
  | _ => false

/-- Whether a scope is a peer scope. -/
def ScopeKind.isPeer : ScopeKind → Bool
  | ScopeKind.peerScope _ => true
  | _ => false

/-- Whether a scope is a connection scope. -/
def ScopeKind.isConn : ScopeKind → Bool
  | ScopeKind.connectionScope _ _ => true
  | _ => false

/-- Whether a scope is a stream scope. -/
def ScopeKind.isStream : ScopeKind → Bool
  | ScopeKind.streamScope _ => true
  | _ => false

/-- The scopes whose constraint list is `[system]` for life: transient,
service, protocol and peer scopes. -/
def ScopeKind.isShared : ScopeKind → Bool
  | ScopeKind.transientScope => true
  | ScopeKind.serviceScope _ => true
  | ScopeKind.protocolScope _ => true
  | ScopeKind.peerScope _ => true
  | _ => false

/-- The constraint list of a connection scope is determined by its peer link. -/
def ConnOK (r : resourceManager) (x : Nat) : Prop :=
  match r.s_peer x with
  | none => r.constraints x = [r.transient, r.system]
  | some p => r.constraints x = [p, r.system] ∧ p < r.next ∧ (r.kind p).isPeer = true

/-- The constraint list of a stream scope is determined by its peer, protocol
and service links. -/
def StreamOK (r : resourceManager) (x : Nat) : Prop :=
  ∃ p, r.s_peer x = some p ∧ p < r.next ∧ (r.kind p).isPeer = true ∧
    match r.s_proto x, r.s_svc x with
    | none, none => r.constraints x = [p, r.transient, r.system]
    | none, some _ => False
    | some q, none =>
      r.constraints x = [p, q, r.system] ∧ q < r.next ∧ (r.kind q).isProtocol = true
    | some q, some v =>
      r.constraints x = [p, q, v, r.system] ∧ q < r.next ∧ (r.kind q).isProtocol = true ∧
        v < r.next ∧ (r.kind v).isService = true

/-- Well-formedness of a manager state: the store is well typed.  It holds in
the state `NewResourceManager` returns and is preserved by every operation. -/
structure WF (r : resourceManager) : Prop where
  system_lt : r.system < r.next
  transient_lt : r.transient < r.next
  system_kind : r.kind r.system = ScopeKind.systemScope
  transient_kind : r.kind r.transient = ScopeKind.transientScope
  system_live : r.done r.system = false
  transient_live : r.done r.transient = false
  svc_keys : (r.svc.map Prod.fst).Nodup
  proto_keys : (r.proto.map Prod.fst).Nodup
  peer_keys : (r.peer.map Prod.fst).Nodup
  svc_ok : ∀ k s, (k, s) ∈ r.svc →
    s < r.next ∧ r.kind s = ScopeKind.serviceScope k ∧ r.done s = false
  proto_ok : ∀ k s, (k, s) ∈ r.proto →
    s < r.next ∧ r.kind s = ScopeKind.protocolScope k ∧ r.done s = false
  peer_ok : ∀ k s, (k, s) ∈ r.peer →
    s < r.next ∧ r.kind s = ScopeKind.peerScope k ∧ r.done s = false
  shared_ok : ∀ x, x < r.next → (r.kind x).isShared = true → r.constraints x = [r.system]
  conn_ok : ∀ x, x < r.next → (r.kind x).isConn = true → ConnOK r x
  stream_ok : ∀ x, x < r.next → (r.kind x).isStream = true → StreamOK r x

/-- The part of the state that the counters do not touch: two states have the
same shape when they agree on everything but `used` and `refCnt`. -/
structure SameShape (r r' : resourceManager) : Prop where
  limits : r'.limits = r.limits
  system : r'.system = r.system
  transient : r'.transient = r.transient
  svc : r'.svc = r.svc
  proto : r'.proto = r.proto
  peer : r'.peer = r.peer
  next : r'.next = r.next
  kind : r'.kind = r.kind
  done : r'.done = r.done
  limit : r'.limit = r.limit
  constraints : r'.constraints = r.constraints
  s_peer : r'.s_peer = r.s_peer
  s_svc : r'.s_svc = r.s_svc
  s_proto : r'.s_proto = r.s_proto
  limiterLog : r'.limiterLog = r.limiterLog

/-- The state `r'` extends `r`: objects may have been allocated and reference
counts may have moved, but every object of `r` keeps its fields. -/
structure Extends (r r' : resourceManager) : Prop where
  limits : r'.limits = r.limits
  system : r'.system = r.system
  transient : r'.transient = r.transient
  next : r.next ≤ r'.next
  kind : ∀ x, x < r.next → r'.kind x = r.kind x
  done : ∀ x, x < r.next → r'.done x = r.done x
  limit : ∀ x, x < r.next → r'.limit x = r.limit x
  used : ∀ x, x < r.next → r'.used x = r.used x
  constraints : ∀ x, x < r.next → r'.constraints x = r.constraints x
  s_peer : ∀ x, x < r.next → r'.s_peer x = r.s_peer x
  s_svc : ∀ x, x < r.next → r'.s_svc x = r.s_svc x
  s_proto : ∀ x, x < r.next → r'.s_proto x = r.s_proto x

/-- What a view callback may do with the scope it is handed (section 4.4 of
the specification): reserve and release memory on it. -/
inductive MemOp where
  | reserve (n : Nat)
  | release (n : Nat)
deriving DecidableEq, Repr

/-- The effect of a sequence of memory operations on the scope `s`. -/
def runMemOps (ops : List MemOp) (s : Nat) (r : resourceManager) : resourceManager :=
  match ops with
  | [] => r
  | MemOp.reserve n :: rest => runMemOps rest s (ReserveMemory s n r).1
  | MemOp.release n :: rest => runMemOps rest s (ReleaseMemory s n r)

/-- A callback that performs the memory operations `ops` on the scope it is
handed and returns `result`. -/
def memCallback (ops : List MemOp) (result : Option Error) : Callback :=
  fun s r => (runMemOps ops s r, result)

/-- The states a manager built by `NewResourceManager limits` can be in: any
sequence of the exposed operations, of the operations of the connection and
stream scopes it handed out (`SetPeer`, `SetProtocol`, `SetService`, `Done`,
`ReserveMemory`, `ReleaseMemory`), and of reclaimer passes. -/
inductive Reachable (limits : Limiter) : resourceManager → Prop where
  | init : Reachable limits (NewResourceManager limits)
  | openConnection {r : resourceManager} (dir : Direction) (usefd : Bool) :
      Reachable limits r → Reachable limits (OpenConnection dir usefd r).1
  | openStream {r : resourceManager} (p : String) (dir : Direction) :
      Reachable limits r → Reachable limits (OpenStream p dir r).1
  | setPeer {r : resourceManager} (s : Nat) (p : String) :
      Reachable limits r → s < r.next → (r.kind s).isConn = true →
      Reachable limits (SetPeer s p r).1
  | setProtocol {r : resourceManager} (s : Nat) (proto : String) :
      Reachable limits r → s < r.next → (r.kind s).isStream = true →
      Reachable limits (SetProtocol s proto r).1
  | setService {r : resourceManager} (s : Nat) (svc : String) :
      Reachable limits r → s < r.next → (r.kind s).isStream = true →
      Reachable limits (SetService s svc r).1
  | done {r : resourceManager} (s : Nat) :
      Reachable limits r → s < r.next →
      ((r.kind s).isConn = true ∨ (r.kind s).isStream = true) →
      Reachable limits (Done s r)
  | reserveMemory {r : resourceManager} (s n : Nat) :
      Reachable limits r → s < r.next →
      ((r.kind s).isConn = true ∨ (r.kind s).isStream = true) →
      Reachable limits (ReserveMemory s n r).1
  | releaseMemory {r : resourceManager} (s n : Nat) :
      Reachable limits r → s < r.next →
      ((r.kind s).isConn = true ∨ (r.kind s).isStream = true) →
      Reachable limits (ReleaseMemory s n r)
  | viewSystem {r : resourceManager} (ops : List MemOp) (res : Option Error) :
      Reachable limits r → Reachable limits (ViewSystem (memCallback ops res) r).1
  | viewTransient {r : resourceManager} (ops : List MemOp) (res : Option Error) :
      Reachable limits r → Reachable limits (ViewTransient (memCallback ops res) r).1
  | viewService {r : resourceManager} (srv : String) (ops : List MemOp) (res : Option Error) :
      Reachable limits r → Reachable limits (ViewService srv (memCallback ops res) r).1
  | viewProtocol {r : resourceManager} (proto : String) (ops : List MemOp)
      (res : Option Error) :
      Reachable limits r → Reachable limits (ViewProtocol proto (memCallback ops res) r).1
  | viewPeer {r : resourceManager} (p : String) (ops : List MemOp) (res : Option Error) :
      Reachable limits r → Reachable limits (ViewPeer p (memCallback ops res) r).1
  | gc {r : resourceManager} : Reachable limits r → Reachable limits (gc r)

/-! ## Vocabulary of the claims -/

/-- The used vector of the scope a registry holds for `k`; zero when the
registry has no scope for `k` (a scope is born with `used = 0`). -/
def regUsed (m : List (String × Nat)) (k : String) (r : resourceManager) : ScopeStat :=
  match mapGet m k with
  | some q => r.used q
  | none => 0

/-- The reference count of the scope a registry holds for `k`; zero when the
registry has no scope for `k` (a scope is born with `refs = 0`). -/
def regRefs (m : List (String × Nat)) (k : String) (r : resourceManager) : Int :=
  match mapGet m k with
  | some q => r.refCnt q
  | none => 0

/-! ## Example limits and states (scenarios E1 to E3 of the specification) -/

/-- A limiter in the style of scenario E1: system memory 1000, transient
memory 500; the peer memory limit and the stream limits of protocol and
service scopes are parameters. -/
def limitsWith (peerMem protoStreams svcStreams : Int) : Limiter :=
  { GetSystemLimits := ⟨1000, 10, 10, 10, 10, 10⟩
    GetTransientLimits := ⟨500, 10, 10, 10, 10, 10⟩
    GetServiceLimits := fun _ => ⟨500, 10, 10, svcStreams, svcStreams, 10⟩
    GetProtocolLimits := fun _ => ⟨500, 10, 10, protoStreams, protoStreams, 10⟩
    GetPeerLimits := fun _ => ⟨peerMem, 10, 10, 10, 10, 10⟩
    GetConnLimits := ⟨300, 1, 1, 0, 0, 1⟩
    GetStreamLimits := fun _ => ⟨100, 0, 0, 1, 1, 0⟩ }

/-- Scenario E1 before `SetPeer`: an inbound connection with a file descriptor
(object 2) that has reserved 150 bytes. -/
def connReserved (limits : Limiter) : resourceManager :=
  (ReserveMemory 2 150 (OpenConnection Direction.DirInbound true
    (NewResourceManager limits)).1).1

/-- Scenario E3 after `OpenStream(P, Outbound)`: the peer scope is object 2,
the stream is object 3. -/
def streamOpened (limits : Limiter) : resourceManager :=
  (OpenStream "P" Direction.DirOutbound (NewResourceManager limits)).1

/-- Scenario E3 after `SetProtocol(Q)`: the protocol scope is object 4. -/
def streamWithProtocol (limits : Limiter) : resourceManager :=
  (SetProtocol 3 "Q" (streamOpened limits)).1

/-- Scenario E3 after `SetService("bitswap")`: the service scope is object 5. -/
def streamWithService (limits : Limiter) : resourceManager :=
  (SetService 3 "bitswap" (streamWithProtocol limits)).1

/-! ## Liveness of the scopes a connection or stream hangs on -/

/-- The scopes the registries hold: service, protocol and peer scopes. -/
def ScopeKind.isRegistered : ScopeKind → Bool
  | ScopeKind.serviceScope _ => true
  | ScopeKind.protocolScope _ => true
  | ScopeKind.peerScope _ => true
  | _ => false

/-- A connection or stream scope that has been allocated and on which `Done`
has not been called.  (A scope whose `OpenConnection` / `OpenStream` failed is
done when the call returns.) -/
def isLive (r : resourceManager) (x : Nat) : Bool :=
  ((r.kind x).isConn || (r.kind x).isStream) && !r.done x

/-- The live connection or stream `x` has `q` in its constraint list. -/
def holds (r : resourceManager) (q x : Nat) : Bool :=
  isLive r x && decide (q ∈ r.constraints x)

/-- The number of live connection and stream scopes that have `q` in their
constraint list. -/
def holders (r : resourceManager) (q : Nat) : Nat :=
  (List.range r.next).countP (holds r q)

/-- Every registered scope has at least as many references as live
connections and streams hang on it, with `n` references to spare at `q`. -/
def RefSlack (r : resourceManager) (q : Nat) (n : Int) : Prop :=
  ∀ y, y < r.next → (r.kind y).isRegistered = true →
    (holders r y : Int) + (if y = q then n else 0) ≤ r.refCnt y

/-- Scenario E1: peer memory limit 200, the connection (object 2) has reserved
150 bytes and has no peer yet. -/
def scenarioE1 : resourceManager := connReserved (limitsWith 200 10 10)

/-- Scenario E2: as E1 with peer memory limit 100, so that `SetPeer` is
rejected. -/
def scenarioE2 : resourceManager := connReserved (limitsWith 100 10 10)

/-- Scenario E1 after `SetPeer(P)`: the connection is attached to object 3. -/
def scenarioE1Attached : resourceManager := (SetPeer 2 "P" scenarioE1).1

/-- The limits of scenario E3. -/
def limitsE3 : Limiter := limitsWith 200 10 10

/-- A stream (object 3) opened under limits that admit no stream on a protocol
scope. -/
def streamNoProtocolRoom : resourceManager := streamOpened (limitsWith 200 0 10)

/-- A stream (object 3) with a protocol under limits that admit no stream on a
service scope. -/
def streamNoServiceRoom : resourceManager := streamWithProtocol (limitsWith 200 10 0)

/-- Scenario E4 before the reclaimer tick: the stream of scenario E3 after
`Done`. -/
def streamClosed : resourceManager := Done 3 (streamWithService limitsE3)

/-- Scenario E1 ended early: the connection (object 2) is closed by `Done`
before any peer is set. -/
def connClosed : resourceManager := Done 2 scenarioE1

/-- Scenario E4: the stream of scenario E3 (object 3, peer scope object 2) is
closed by `Done` right after `OpenStream`. -/
def streamDone : resourceManager := Done 3 (streamOpened limitsE3)

/-- A fresh manager under the limits of scenario E3. -/
def managerE3 : resourceManager := NewResourceManager limitsE3

/-- The life of a connection under the limits of scenario E3: opened (object
2), attached to the peer `P` (object 3, created by `SetPeer`), closed. -/
def connLifecycle : resourceManager :=
  Done 2 (SetPeer 2 "P" (OpenConnection Direction.DirInbound true managerE3).1).1

/-- A manager whose system scope admits no connection: every `OpenConnection`
and every `OpenStream` fails. -/
def managerFull : resourceManager :=
  NewResourceManager
    { limitsE3 with GetSystemLimits := ⟨1000, 0, 0, 0, 0, 0⟩ }

/-! # Theorems -/

/-! ## Resource vectors -/

namespace ScopeStat

@[simp] theorem zero_memory : (0 : ScopeStat).memory = 0 := rfl
@[simp] theorem zero_conns_in : (0 : ScopeStat).conns_in = 0 := rfl
@[simp] theorem zero_conns_out : (0 : ScopeStat).conns_out = 0 := rfl
@[simp] theorem zero_streams_in : (0 : ScopeStat).streams_in = 0 := rfl
@[simp] theorem zero_streams_out : (0 : ScopeStat).streams_out = 0 := rfl
@[simp] theorem zero_fd : (0 : ScopeStat).fd = 0 := rfl

@[simp] theorem add_memory (a b : ScopeStat) : (a + b).memory = a.memory + b.memory := rfl
@[simp] theorem add_conns_in (a b : ScopeStat) : (a + b).conns_in = a.conns_in + b.conns_in := rfl
@[simp] theorem add_conns_out (a b : ScopeStat) :
    (a + b).conns_out = a.conns_out + b.conns_out := rfl
@[simp] theorem add_streams_in (a b : ScopeStat) :
    (a + b).streams_in = a.streams_in + b.streams_in := rfl
@[simp] theorem add_streams_out (a b : ScopeStat) :
    (a + b).streams_out = a.streams_out + b.streams_out := rfl
@[simp] theorem add_fd (a b : ScopeStat) : (a + b).fd = a.fd + b.fd := rfl

@[simp] theorem neg_memory (a : ScopeStat) : (-a).memory = -a.memory := rfl
@[simp] theorem neg_conns_in (a : ScopeStat) : (-a).conns_in = -a.conns_in := rfl
@[simp] theorem neg_conns_out (a : ScopeStat) : (-a).conns_out = -a.conns_out := rfl
@[simp] theorem neg_streams_in (a : ScopeStat) : (-a).streams_in = -a.streams_in := rfl
@[simp] theorem neg_streams_out (a : ScopeStat) : (-a).streams_out = -a.streams_out := rfl
@[simp] theorem neg_fd (a : ScopeStat) : (-a).fd = -a.fd := rfl

@[simp] theorem sub_memory (a b : ScopeStat) : (a - b).memory = a.memory - b.memory := rfl
@[simp] theorem sub_conns_in (a b : ScopeStat) : (a - b).conns_in = a.conns_in - b.conns_in := rfl
@[simp] theorem sub_conns_out (a b : ScopeStat) :
    (a - b).conns_out = a.conns_out - b.conns_out := rfl
@[simp] theorem sub_streams_in (a b : ScopeStat) :
    (a - b).streams_in = a.streams_in - b.streams_in := rfl
@[simp] theorem sub_streams_out (a b : ScopeStat) :
    (a - b).streams_out = a.streams_out - b.streams_out := rfl
@[simp] theorem sub_fd (a b : ScopeStat) : (a - b).fd = a.fd - b.fd := rfl

end ScopeStat

/-! ## Shape preservation and well-formedness -/

theorem SameShape.rfl' (r : resourceManager) : SameShape r r :=
  ⟨rfl, rfl, rfl, rfl, rfl, rfl, rfl, rfl, rfl, rfl, rfl, rfl, rfl, rfl, rfl⟩

theorem SameShape.trans {a b c : resourceManager} (h1 : SameShape a b) (h2 : SameShape b c) :
    SameShape a c :=
  ⟨h2.limits.trans h1.limits, h2.system.trans h1.system, h2.transient.trans h1.transient,
    h2.svc.trans h1.svc, h2.proto.trans h1.proto, h2.peer.trans h1.peer, h2.next.trans h1.next,
    h2.kind.trans h1.kind, h2.done.trans h1.done, h2.limit.trans h1.limit,
    h2.constraints.trans h1.constraints, h2.s_peer.trans h1.s_peer, h2.s_svc.trans h1.s_svc,
    h2.s_proto.trans h1.s_proto, h2.limiterLog.trans h1.limiterLog⟩

theorem SameShape.wf {r r' : resourceManager} (h : SameShape r r') (hw : WF r) : WF r' := by
  obtain ⟨h1, h2, h3, h4, h5, h6, h7, h8, h9, h10, h11, h12, h13, h14, h15⟩ := h
  constructor
  all_goals simp only [h1, h2, h3, h4, h5, h6, h7, h8, h9, h10, h11, h12, h13, h14, h15, ConnOK, StreamOK]
  · exact hw.system_lt
  · exact hw.transient_lt
  · exact hw.system_kind
  · exact hw.transient_kind
  · exact hw.system_live
  · exact hw.transient_live
  · exact hw.svc_keys
  · exact hw.proto_keys
  · exact hw.peer_keys
  · exact hw.svc_ok
  · exact hw.proto_ok
  · exact hw.peer_ok
  · exact hw.shared_ok
  · exact hw.conn_ok
  · exact hw.stream_ok

theorem sameShape_IncRef (x : Nat) (st : resourceManager) : SameShape st (IncRef x st) :=
  ⟨rfl, rfl, rfl, rfl, rfl, rfl, rfl, rfl, rfl, rfl, rfl, rfl, rfl, rfl, rfl⟩

theorem sameShape_DecRef (x : Nat) (st : resourceManager) : SameShape st (DecRef x st) :=
  ⟨rfl, rfl, rfl, rfl, rfl, rfl, rfl, rfl, rfl, rfl, rfl, rfl, rfl, rfl, rfl⟩

theorem sameShape_ReserveForChild (x : Nat) (d : ScopeStat) (st : resourceManager) :
    SameShape st (ReserveForChild x d st).1 := by
  unfold ReserveForChild
  split_ifs
  · exact SameShape.rfl' st
  · exact ⟨rfl, rfl, rfl, rfl, rfl, rfl, rfl, rfl, rfl, rfl, rfl, rfl, rfl, rfl, rfl⟩
  · exact SameShape.rfl' st

theorem sameShape_ReleaseForChild (x : Nat) (d : ScopeStat) (st : resourceManager) :
    SameShape st (ReleaseForChild x d st) := by
  unfold ReleaseForChild
  split_ifs
  · exact SameShape.rfl' st
  · exact ⟨rfl, rfl, rfl, rfl, rfl, rfl, rfl, rfl, rfl, rfl, rfl, rfl, rfl, rfl, rfl⟩

theorem refCnt_ReserveForChild (x : Nat) (d : ScopeStat) (st : resourceManager) :
    (ReserveForChild x d st).1.refCnt = st.refCnt := by
  unfold ReserveForChild
  split_ifs <;> rfl

theorem refCnt_ReleaseForChild (x : Nat) (d : ScopeStat) (st : resourceManager) :
    (ReleaseForChild x d st).refCnt = st.refCnt := by
  unfold ReleaseForChild
  split_ifs <;> rfl

theorem sameShape_reserveForConstraints (cs : List Nat) (d : ScopeStat) (st : resourceManager) :
    SameShape st (reserveForConstraints cs d st).1 := by
  induction cs generalizing st with
  | nil => exact SameShape.rfl' st
  | cons c rest ih =>
    unfold reserveForConstraints
    have h1 := sameShape_ReserveForChild c d st
    generalize ReserveForChild c d st = res at h1
    obtain ⟨st1, e⟩ := res
    cases e with
    | some e => exact SameShape.rfl' st
    | none =>
      dsimp only
      have h2 := ih st1
      generalize reserveForConstraints rest d st1 = res2 at h2
      obtain ⟨st2, e2⟩ := res2
      cases e2 with
      | none => exact h1.trans h2
      | some e => exact (h1.trans h2).trans (sameShape_ReleaseForChild c d st2)

theorem refCnt_reserveForConstraints (cs : List Nat) (d : ScopeStat) (st : resourceManager) :
    (reserveForConstraints cs d st).1.refCnt = st.refCnt := by
  induction cs generalizing st with
  | nil => rfl
  | cons c rest ih =>
    unfold reserveForConstraints
    have h1 := refCnt_ReserveForChild c d st
    generalize ReserveForChild c d st = res at h1
    obtain ⟨st1, e⟩ := res
    cases e with
    | some e => rfl
    | none =>
      dsimp only
      have h2 := ih st1
      generalize reserveForConstraints rest d st1 = res2 at h2
      obtain ⟨st2, e2⟩ := res2
      cases e2 with
      | none => exact h2.trans h1
      | some e => exact (refCnt_ReleaseForChild c d st2).trans (h2.trans h1)

theorem sameShape_releaseForConstraints (cs : List Nat) (d : ScopeStat) (st : resourceManager) :
    SameShape st (releaseForConstraints cs d st) := by
  induction cs generalizing st with
  | nil => exact SameShape.rfl' st
  | cons c rest ih =>
    unfold releaseForConstraints
    exact (sameShape_ReleaseForChild c d st).trans (ih _)

theorem refCnt_releaseForConstraints (cs : List Nat) (d : ScopeStat) (st : resourceManager) :
    (releaseForConstraints cs d st).refCnt = st.refCnt := by
  induction cs generalizing st with
  | nil => rfl
  | cons c rest ih =>
    unfold releaseForConstraints
    exact (ih _).trans (refCnt_ReleaseForChild c d st)

theorem sameShape_Reserve (x : Nat) (d : ScopeStat) (st : resourceManager) :
    SameShape st (Reserve x d st).1 := by
  unfold Reserve
  split_ifs
  · exact SameShape.rfl' st
  · have h1 := sameShape_reserveForConstraints (st.constraints x) d st
    generalize reserveForConstraints (st.constraints x) d st = res at h1
    obtain ⟨st1, e⟩ := res
    cases e with
    | some e => exact h1
    | none =>
      dsimp only
      split_ifs
      · exact h1.trans ⟨rfl, rfl, rfl, rfl, rfl, rfl, rfl, rfl, rfl, rfl, rfl, rfl, rfl, rfl, rfl⟩
      · exact h1.trans (sameShape_releaseForConstraints _ d st1)

theorem refCnt_Reserve (x : Nat) (d : ScopeStat) (st : resourceManager) :
    (Reserve x d st).1.refCnt = st.refCnt := by
  unfold Reserve
  split_ifs
  · rfl
  · have h1 := refCnt_reserveForConstraints (st.constraints x) d st
    generalize reserveForConstraints (st.constraints x) d st = res at h1
    obtain ⟨st1, e⟩ := res
    cases e with
    | some e => exact h1
    | none =>
      dsimp only
      split_ifs
      · exact h1
      · exact (refCnt_releaseForConstraints _ d st1).trans h1

theorem sameShape_Release (x : Nat) (d : ScopeStat) (st : resourceManager) :
    SameShape st (Release x d st) := by
  unfold Release
  split_ifs
  · exact SameShape.rfl' st
  · have h1 : SameShape st { st with used := Function.update st.used x (st.used x - d) } :=
      ⟨rfl, rfl, rfl, rfl, rfl, rfl, rfl, rfl, rfl, rfl, rfl, rfl, rfl, rfl, rfl⟩
    exact h1.trans (sameShape_releaseForConstraints _ d _)

theorem refCnt_Release (x : Nat) (d : ScopeStat) (st : resourceManager) :
    (Release x d st).refCnt = st.refCnt := by
  unfold Release
  split_ifs
  · rfl
  · exact refCnt_releaseForConstraints _ d _

theorem sameShape_doneConstraints (cs : List Nat) (u : ScopeStat) (st : resourceManager) :
    SameShape st (doneConstraints cs u st) := by
  induction cs generalizing st with
  | nil => exact SameShape.rfl' st
  | cons c rest ih =>
    unfold doneConstraints
    exact ((sameShape_ReleaseForChild c u st).trans (sameShape_DecRef c _)).trans (ih _)

theorem sameShape_incRefAll (cs : List Nat) (st : resourceManager) :
    SameShape st (incRefAll cs st) := by
  induction cs generalizing st with
  | nil => exact SameShape.rfl' st
  | cons c rest ih =>
    unfold incRefAll
    exact (sameShape_IncRef c st).trans (ih _)

theorem used_incRefAll (cs : List Nat) (st : resourceManager) :
    (incRefAll cs st).used = st.used := by
  induction cs generalizing st with
  | nil => rfl
  | cons c rest ih =>
    unfold incRefAll
    exact ih _

theorem wf_newResourceScope {st : resourceManager} (h : WF st) (kind : ScopeKind) (limit : Limit)
    (cs : List Nat) (peer : Option Nat)
    (hshared : kind.isShared = true → cs = [st.system])
    (hconn : kind.isConn = true → peer = none ∧ cs = [st.transient, st.system])
    (hstream : kind.isStream = true → ∃ p, peer = some p ∧ p < st.next ∧
      (st.kind p).isPeer = true ∧ cs = [p, st.transient, st.system]) :
    WF (newResourceScope kind limit cs peer st).2 := by
  have hs := sameShape_incRefAll cs st
  have h1 : WF (incRefAll cs st) := hs.wf h
  rw [← hs.system] at hshared hconn hstream
  rw [← hs.transient] at hconn hstream
  rw [← hs.next, ← hs.kind] at hstream
  simp only [newResourceScope]
  generalize incRefAll cs st = st1 at h1 hshared hconn hstream ⊢
  have hne : ∀ x, x < st1.next → x ≠ st1.next := fun x hx => Nat.ne_of_lt hx
  constructor
  · exact Nat.lt_succ_of_lt h1.system_lt
  · exact Nat.lt_succ_of_lt h1.transient_lt
  · simp [Function.update_apply, hne _ h1.system_lt, h1.system_kind]
  · simp [Function.update_apply, hne _ h1.transient_lt, h1.transient_kind]
  · simp [Function.update_apply, hne _ h1.system_lt, h1.system_live]
  · simp [Function.update_apply, hne _ h1.transient_lt, h1.transient_live]
  · exact h1.svc_keys
  · exact h1.proto_keys
  · exact h1.peer_keys
  · intro k s hks
    obtain ⟨a, b, c⟩ := h1.svc_ok k s hks
    simp [Function.update_apply, hne _ a, b, c, Nat.lt_succ_of_lt a]
  · intro k s hks
    obtain ⟨a, b, c⟩ := h1.proto_ok k s hks
    simp [Function.update_apply, hne _ a, b, c, Nat.lt_succ_of_lt a]
  · intro k s hks
    obtain ⟨a, b, c⟩ := h1.peer_ok k s hks
    simp [Function.update_apply, hne _ a, b, c, Nat.lt_succ_of_lt a]
  · intro x hx hk
    have hx' : x < st1.next + 1 := hx
    simp only [Function.update_apply] at hk ⊢
    split_ifs at hk ⊢ with hxn
    · exact hshared hk
    · exact h1.shared_ok x (by omega) hk
  · intro x hx hk
    have hx' : x < st1.next + 1 := hx
    simp only [Function.update_apply] at hk ⊢
    simp only [ConnOK, Function.update_apply]
    split_ifs at hk ⊢ with hxn
    · obtain ⟨a, b⟩ := hconn hk
      subst a
      simpa using b
    · have := h1.conn_ok x (by omega) hk
      simp only [ConnOK] at this
      cases hp : st1.s_peer x with
      | none => simpa [hp] using this
      | some p =>
        simp only [hp] at this ⊢
        obtain ⟨a, b, c⟩ := this
        simp [a, hne _ b, c, Nat.lt_succ_of_lt b]
  · intro x hx hk
    have hx' : x < st1.next + 1 := hx
    simp only [Function.update_apply] at hk ⊢
    simp only [StreamOK, Function.update_apply]
    split_ifs at hk ⊢ with hxn
    · obtain ⟨p, a, b, c, d⟩ := hstream hk
      refine ⟨p, a, Nat.lt_succ_of_lt b, ?_, ?_⟩
      · simp [hne _ b, c]
      · simpa using d
    · obtain ⟨p, a, b, c, d⟩ := h1.stream_ok x (by omega) hk
      refine ⟨p, a, Nat.lt_succ_of_lt b, ?_, ?_⟩
      · simp [hne _ b, c]
      · cases hq : st1.s_proto x with
        | none =>
          cases hv : st1.s_svc x with
          | none => simpa [hq, hv] using d
          | some v => simp [hq, hv] at d
        | some q =>
          cases hv : st1.s_svc x with
          | none =>
            simp only [hq, hv] at d ⊢
            obtain ⟨d1, d2, d3⟩ := d
            simp [d1, hne _ d2, d3, Nat.lt_succ_of_lt d2]
          | some v =>
            simp only [hq, hv] at d ⊢
            obtain ⟨d1, d2, d3, d4, d5⟩ := d
            simp [d1, hne _ d2, d3, Nat.lt_succ_of_lt d2, hne _ d4, d5, Nat.lt_succ_of_lt d4]

theorem mapGet_mem {m : List (String × Nat)} {k : String} {s : Nat} (h : mapGet m k = some s) :
    (k, s) ∈ m := by
  induction m with
  | nil => simp [mapGet] at h
  | cons e rest ih =>
    obtain ⟨k', r⟩ := e
    simp only [mapGet] at h
    split_ifs at h with hk
    · simp at h; subst h; subst hk; simp
    · exact List.mem_cons_of_mem _ (ih h)

theorem mapGet_none {m : List (String × Nat)} {k : String} (h : mapGet m k = none) :
    k ∉ m.map Prod.fst := by
  induction m with
  | nil => simp
  | cons e rest ih =>
    obtain ⟨k', r⟩ := e
    simp only [mapGet] at h
    split_ifs at h with hk
    simp only [List.map_cons, List.mem_cons, not_or]
    exact ⟨fun h' => hk h'.symm, ih h⟩

theorem mapGet_of_mem {m : List (String × Nat)} {k : String} {s : Nat}
    (hn : (m.map Prod.fst).Nodup) (h : (k, s) ∈ m) : mapGet m k = some s := by
  induction m with
  | nil => simp at h
  | cons e rest ih =>
    obtain ⟨k', r⟩ := e
    simp only [List.map_cons, List.nodup_cons] at hn
    simp only [mapGet]
    rcases List.mem_cons.mp h with h1 | h1
    · simp at h1; simp [h1.1, h1.2]
    · have : k' ≠ k := by
        rintro rfl
        exact hn.1 (List.mem_map.mpr ⟨(k', s), h1, rfl⟩)
      simp [this, ih hn.2 h1]

theorem mapGet_mapSet {m : List (String × Nat)} {k : String} (s : Nat) (k' : String)
    (h : mapGet m k = none) :
    mapGet (mapSet m k s) k' = if k' = k then some s else mapGet m k' := by
  induction m with
  | nil =>
    simp only [mapSet, List.nil_append, mapGet]
    by_cases hk : k = k'
    · simp [hk]
    · simp [hk, Ne.symm hk]
  | cons e rest ih =>
    obtain ⟨k0, r⟩ := e
    simp only [mapGet] at h
    split_ifs at h with hk
    simp only [mapSet, List.cons_append, mapGet] at ih ⊢
    by_cases hk' : k0 = k'
    · have : ¬ k' = k := fun h' => hk (hk'.trans h')
      simp [hk', this]
    · simp [hk', ih h]

theorem keys_mapSet {m : List (String × Nat)} {k : String} (s : Nat)
    (hn : (m.map Prod.fst).Nodup) (h : mapGet m k = none) :
    ((mapSet m k s).map Prod.fst).Nodup := by
  simp only [mapSet, List.map_append, List.map_cons, List.map_nil]
  refine List.Nodup.append hn (List.nodup_singleton k) ?_
  intro a ha hb
  simp only [List.mem_singleton] at hb
  subst hb
  exact mapGet_none h ha

theorem mem_mapSet {m : List (String × Nat)} {k k' : String} {s s' : Nat} :
    (k', s') ∈ mapSet m k s ↔ (k', s') ∈ m ∨ (k' = k ∧ s' = s) := by
  simp [mapSet]

theorem mapDelete_keys {m : List (String × Nat)} (k : String)
    (hn : (m.map Prod.fst).Nodup) : ((mapDelete m k).map Prod.fst).Nodup := by
  unfold mapDelete
  exact (List.Nodup.sublist ((List.filter_sublist m).map Prod.fst) hn)

theorem mem_mapDelete {m : List (String × Nat)} {k k' : String} {s' : Nat} :
    (k', s') ∈ mapDelete m k ↔ (k', s') ∈ m ∧ k' ≠ k := by
  simp [mapDelete]

theorem wf_logCall {r : resourceManager} (h : WF r) (c : LimiterCall) : WF (r.logCall c) :=
  ⟨h.1, h.2, h.3, h.4, h.5, h.6, h.7, h.8, h.9, h.10, h.11, h.12, h.13, h.14, h.15⟩

/-- What `getPeerScope` guarantees about the scope it returns. -/
theorem getPeerScope_spec {r : resourceManager} (h : WF r) (p : String) :
    WF (getPeerScope p r).2 ∧ mapGet (getPeerScope p r).2.peer p = some (getPeerScope p r).1 ∧
      (getPeerScope p r).2.system = r.system ∧ (getPeerScope p r).2.transient = r.transient ∧
      r.next ≤ (getPeerScope p r).2.next ∧
      (∀ x, x < r.next → (getPeerScope p r).2.kind x = r.kind x) := by
  unfold getPeerScope
  cases hg : mapGet r.peer p with
  | some s =>
    exact ⟨(sameShape_IncRef s r).wf h, hg, rfl, rfl, Nat.le_refl _, fun _ _ => rfl⟩
  | none =>
    simp only [newPeerScope]
    have h1 := wf_newResourceScope (wf_logCall h (LimiterCall.GetPeerLimits p))
      (ScopeKind.peerScope p) (r.limits.GetPeerLimits p) [r.system] none (fun _ => rfl)
      (by simp [ScopeKind.isConn]) (by simp [ScopeKind.isStream])
    simp only [resourceManager.logCall] at h1 ⊢
    have hs := sameShape_incRefAll [r.system]
      { r with limiterLog := r.limiterLog ++ [LimiterCall.GetPeerLimits p] }
    simp only [newResourceScope] at h1 ⊢
    generalize incRefAll [r.system]
      { r with limiterLog := r.limiterLog ++ [LimiterCall.GetPeerLimits p] } = st1 at h1 hs ⊢
    have hnext : st1.next = r.next := hs.next
    have hpeer : st1.peer = r.peer := hs.peer
    refine ⟨?_, ?_, hs.system, hs.transient, ?_, ?_⟩
    · apply (sameShape_IncRef _ _).wf
      exact
        { h1 with
          peer_keys := keys_mapSet _ h1.peer_keys (by simpa [hpeer] using hg)
          peer_ok := by
            intro k s hks
            rcases mem_mapSet.mp hks with hm | ⟨rfl, rfl⟩
            · exact h1.peer_ok k s hm
            · simp }
    · simp only [IncRef]
      rw [mapGet_mapSet _ _ (by simpa [hpeer] using hg)]
      simp
    · simp only [IncRef, hnext]
      exact Nat.le_succ _
    · intro x hx
      simp only [IncRef]
      rw [Function.update_noteq (by omega), hs.kind]

/-- What `getProtocolScope` guarantees about the scope it returns. -/
theorem getProtocolScope_spec {r : resourceManager} (h : WF r) (p : String) :
    WF (getProtocolScope p r).2 ∧ mapGet (getProtocolScope p r).2.proto p = some (getProtocolScope p r).1 ∧
      (getProtocolScope p r).2.system = r.system ∧ (getProtocolScope p r).2.transient = r.transient ∧
      r.next ≤ (getProtocolScope p r).2.next ∧
      (∀ x, x < r.next → (getProtocolScope p r).2.kind x = r.kind x) := by
  unfold getProtocolScope
  cases hg : mapGet r.proto p with
  | some s =>
    exact ⟨(sameShape_IncRef s r).wf h, hg, rfl, rfl, Nat.le_refl _, fun _ _ => rfl⟩
  | none =>
    simp only [newProtocolScope]
    have h1 := wf_newResourceScope (wf_logCall h (LimiterCall.GetProtocolLimits p))
      (ScopeKind.protocolScope p) (r.limits.GetProtocolLimits p) [r.system] none (fun _ => rfl)
      (by simp [ScopeKind.isConn]) (by simp [ScopeKind.isStream])
    simp only [resourceManager.logCall] at h1 ⊢
    have hs := sameShape_incRefAll [r.system]
      { r with limiterLog := r.limiterLog ++ [LimiterCall.GetProtocolLimits p] }
    simp only [newResourceScope] at h1 ⊢
    generalize incRefAll [r.system]
      { r with limiterLog := r.limiterLog ++ [LimiterCall.GetProtocolLimits p] } = st1 at h1 hs ⊢
    have hnext : st1.next = r.next := hs.next
    have hproto : st1.proto = r.proto := hs.proto
    refine ⟨?_, ?_, hs.system, hs.transient, ?_, ?_⟩
    · apply (sameShape_IncRef _ _).wf
      exact
        { h1 with
          proto_keys := keys_mapSet _ h1.proto_keys (by simpa [hproto] using hg)
          proto_ok := by
            intro k s hks
            rcases mem_mapSet.mp hks with hm | ⟨rfl, rfl⟩
            · exact h1.proto_ok k s hm
            · simp }
    · simp only [IncRef]
      rw [mapGet_mapSet _ _ (by simpa [hproto] using hg)]
      simp
    · simp only [IncRef, hnext]
      exact Nat.le_succ _
    · intro x hx
      simp only [IncRef]
      rw [Function.update_noteq (by omega), hs.kind]

/-- What `getServiceScope` guarantees about the scope it returns. -/
theorem getServiceScope_spec {r : resourceManager} (h : WF r) (p : String) :
    WF (getServiceScope p r).2 ∧ mapGet (getServiceScope p r).2.svc p = some (getServiceScope p r).1 ∧
      (getServiceScope p r).2.system = r.system ∧ (getServiceScope p r).2.transient = r.transient ∧
      r.next ≤ (getServiceScope p r).2.next ∧
      (∀ x, x < r.next → (getServiceScope p r).2.kind x = r.kind x) := by
  unfold getServiceScope
  cases hg : mapGet r.svc p with
  | some s =>
    exact ⟨(sameShape_IncRef s r).wf h, hg, rfl, rfl, Nat.le_refl _, fun _ _ => rfl⟩
  | none =>
    simp only [newServiceScope]
    have h1 := wf_newResourceScope (wf_logCall h (LimiterCall.GetServiceLimits p))
      (ScopeKind.serviceScope p) (r.limits.GetServiceLimits p) [r.system] none (fun _ => rfl)
      (by simp [ScopeKind.isConn]) (by simp [ScopeKind.isStream])
    simp only [resourceManager.logCall] at h1 ⊢
    have hs := sameShape_incRefAll [r.system]
      { r with limiterLog := r.limiterLog ++ [LimiterCall.GetServiceLimits p] }
    simp only [newResourceScope] at h1 ⊢
    generalize incRefAll [r.system]
      { r with limiterLog := r.limiterLog ++ [LimiterCall.GetServiceLimits p] } = st1 at h1 hs ⊢
    have hnext : st1.next = r.next := hs.next
    have hsvc : st1.svc = r.svc := hs.svc
    refine ⟨?_, ?_, hs.system, hs.transient, ?_, ?_⟩
    · apply (sameShape_IncRef _ _).wf
      exact
        { h1 with
          svc_keys := keys_mapSet _ h1.svc_keys (by simpa [hsvc] using hg)
          svc_ok := by
            intro k s hks
            rcases mem_mapSet.mp hks with hm | ⟨rfl, rfl⟩
            · exact h1.svc_ok k s hm
            · simp }
    · simp only [IncRef]
      rw [mapGet_mapSet _ _ (by simpa [hsvc] using hg)]
      simp
    · simp only [IncRef, hnext]
      exact Nat.le_succ _
    · intro x hx
      simp only [IncRef]
      rw [Function.update_noteq (by omega), hs.kind]

theorem wf_Done {st : resourceManager} (h : WF st) (x : Nat)
    (hx : (st.kind x).isConn = true ∨ (st.kind x).isStream = true) : WF (Done x st) := by
  unfold Done
  split_ifs with hd
  · exact h
  · have hs := sameShape_doneConstraints (st.constraints x) (st.used x) st
    have h1 : WF (doneConstraints (st.constraints x) (st.used x) st) := hs.wf h
    rw [← hs.kind] at hx
    dsimp only
    generalize doneConstraints (st.constraints x) (st.used x) st = st1 at h1 hx ⊢
    have hne : ∀ y k, st1.kind y = k → k.isConn = false → k.isStream = false → y ≠ x := by
      rintro y k hk h1 h2 rfl
      rw [hk] at hx
      simp [h1, h2] at hx
    exact
      { h1 with
        system_live := by
          show Function.update st1.done x true st1.system = false
          rw [Function.update_noteq (hne _ _ h1.system_kind rfl rfl)]
          exact h1.system_live
        transient_live := by
          show Function.update st1.done x true st1.transient = false
          rw [Function.update_noteq (hne _ _ h1.transient_kind rfl rfl)]
          exact h1.transient_live
        svc_ok := by
          intro k s hks
          obtain ⟨a, b, c⟩ := h1.svc_ok k s hks
          refine ⟨a, b, ?_⟩
          show Function.update st1.done x true s = false
          rw [Function.update_noteq (hne _ _ b rfl rfl)]
          exact c
        proto_ok := by
          intro k s hks
          obtain ⟨a, b, c⟩ := h1.proto_ok k s hks
          refine ⟨a, b, ?_⟩
          show Function.update st1.done x true s = false
          rw [Function.update_noteq (hne _ _ b rfl rfl)]
          exact c
        peer_ok := by
          intro k s hks
          obtain ⟨a, b, c⟩ := h1.peer_ok k s hks
          refine ⟨a, b, ?_⟩
          show Function.update st1.done x true s = false
          rw [Function.update_noteq (hne _ _ b rfl rfl)]
          exact c }

theorem wf_OpenConnection {r : resourceManager} (h : WF r) (dir : Direction) (usefd : Bool) :
    WF (OpenConnection dir usefd r).1 := by
  unfold OpenConnection
  simp only [newConnectionScope]
  have h1 := wf_newResourceScope (wf_logCall h LimiterCall.GetConnLimits)
    (ScopeKind.connectionScope dir usefd) r.limits.GetConnLimits [r.transient, r.system] none
    (by simp [ScopeKind.isShared]) (fun _ => ⟨rfl, rfl⟩) (by simp [ScopeKind.isStream])
  have hk : (newResourceScope (ScopeKind.connectionScope dir usefd) r.limits.GetConnLimits
      [r.transient, r.system] none (r.logCall LimiterCall.GetConnLimits)).2.kind
      (newResourceScope (ScopeKind.connectionScope dir usefd) r.limits.GetConnLimits
      [r.transient, r.system] none (r.logCall LimiterCall.GetConnLimits)).1 =
      ScopeKind.connectionScope dir usefd := by
    simp [newResourceScope]
  simp only [resourceManager.logCall] at h1 hk ⊢
  generalize newResourceScope (ScopeKind.connectionScope dir usefd) r.limits.GetConnLimits
    [r.transient, r.system] none _ = res at h1 hk ⊢
  obtain ⟨conn, r1⟩ := res
  dsimp only at h1 hk ⊢
  have h2 := sameShape_Reserve conn (connDelta dir usefd) r1
  unfold AddConn
  generalize Reserve conn (connDelta dir usefd) r1 = res2 at h2 ⊢
  obtain ⟨r2, e⟩ := res2
  cases e with
  | none => exact h2.wf h1
  | some e =>
    refine wf_Done (h2.wf h1) conn (Or.inl ?_)
    rw [h2.kind, hk]
    rfl

theorem newResourceScope_fst (kind : ScopeKind) (limit : Limit) (cs : List Nat)
    (peer : Option Nat) (st : resourceManager) :
    (newResourceScope kind limit cs peer st).1 = st.next :=
  (sameShape_incRefAll cs st).next

theorem newResourceScope_kind (kind : ScopeKind) (limit : Limit) (cs : List Nat)
    (peer : Option Nat) (st : resourceManager) :
    (newResourceScope kind limit cs peer st).2.kind (newResourceScope kind limit cs peer st).1 =
      kind := by
  simp [newResourceScope]

theorem wf_OpenStream {r : resourceManager} (h : WF r) (p : String) (dir : Direction) :
    WF (OpenStream p dir r).1 := by
  unfold OpenStream
  obtain ⟨h1, hg, -, -, -, -⟩ := getPeerScope_spec h p
  generalize getPeerScope p r = res at h1 hg ⊢
  obtain ⟨peer, r1⟩ := res
  dsimp only at h1 hg ⊢
  obtain ⟨hlt, hkind, -⟩ := h1.peer_ok p peer (mapGet_mem hg)
  simp only [newStreamScope]
  have h2 := wf_newResourceScope (wf_logCall h1 (LimiterCall.GetStreamLimits p))
    (ScopeKind.streamScope dir) (r1.limits.GetStreamLimits p) [peer, r1.transient, r1.system]
    (some peer) (by simp [ScopeKind.isShared]) (by simp [ScopeKind.isConn])
    (fun _ => ⟨peer, rfl, hlt, by simp [resourceManager.logCall, hkind, ScopeKind.isPeer], rfl⟩)
  have hk := newResourceScope_kind (ScopeKind.streamScope dir) (r1.limits.GetStreamLimits p)
    [peer, r1.transient, r1.system] (some peer) (r1.logCall (LimiterCall.GetStreamLimits p))
  simp only [resourceManager.logCall] at h2 hk ⊢
  generalize newResourceScope (ScopeKind.streamScope dir) (r1.limits.GetStreamLimits p)
    [peer, r1.transient, r1.system] (some peer) _ = res at h2 hk ⊢
  obtain ⟨stream, r2⟩ := res
  dsimp only at h2 hk ⊢
  have h3 : WF (DecRef peer r2) := (sameShape_DecRef peer r2).wf h2
  have hk3 : (DecRef peer r2).kind stream = ScopeKind.streamScope dir := hk
  generalize DecRef peer r2 = r3 at h3 hk3 ⊢
  have h4 := sameShape_Reserve stream (streamDelta dir) r3
  unfold AddStream
  generalize Reserve stream (streamDelta dir) r3 = res2 at h4 ⊢
  obtain ⟨r4, e⟩ := res2
  cases e with
  | none => exact h4.wf h3
  | some e =>
    refine wf_Done (h4.wf h3) stream (Or.inr ?_)
    rw [h4.kind, hk3]
    rfl

theorem wf_ReserveMemory {r : resourceManager} (h : WF r) (x n : Nat) :
    WF (ReserveMemory x n r).1 :=
  (sameShape_Reserve x (memDelta n) r).wf h

theorem wf_ReleaseMemory {r : resourceManager} (h : WF r) (x n : Nat) :
    WF (ReleaseMemory x n r) :=
  (sameShape_Release x (memDelta n) r).wf h

theorem isShared_ne {r : resourceManager} {x s : Nat} (hx : (r.kind x).isShared = true)
    (hs : (r.kind s).isConn = true ∨ (r.kind s).isStream = true) : x ≠ s := by
  rintro rfl
  cases hk : r.kind x <;> simp [hk, ScopeKind.isShared, ScopeKind.isConn, ScopeKind.isStream] at hx hs

theorem isConn_ne {r : resourceManager} {x s : Nat} (hx : (r.kind x).isConn = true)
    (hs : (r.kind s).isStream = true) : x ≠ s := by
  rintro rfl
  cases hk : r.kind x <;> simp [hk, ScopeKind.isConn, ScopeKind.isStream] at hx hs

/-- Attaching a peer to a connection: the link and the constraint list move
together. -/
theorem wf_attachPeer {r : resourceManager} (h : WF r) {s peer : Nat}
    (hk : (r.kind s).isConn = true) (hp : peer < r.next) (hpk : (r.kind peer).isPeer = true) :
    WF { r with
      s_peer := Function.update r.s_peer s (some peer)
      constraints := Function.update r.constraints s [peer, r.system] } :=
  { h with
    shared_ok := by
      intro x hx hxk
      show Function.update r.constraints s [peer, r.system] x = [r.system]
      rw [Function.update_noteq (isShared_ne hxk (Or.inl hk))]
      exact h.shared_ok x hx hxk
    conn_ok := by
      intro x hx hxk
      have := h.conn_ok x hx hxk
      simp only [ConnOK, Function.update_apply] at this ⊢
      by_cases hxs : x = s
      · simp [hxs, hp, hpk]
      · simpa [hxs] using this
    stream_ok := by
      intro x hx hxk
      have := h.stream_ok x hx hxk
      have hxs : x ≠ s := (isConn_ne hk hxk).symm
      simp only [StreamOK, Function.update_apply] at this ⊢
      simpa [hxs] using this }

/-- Attaching a protocol to a stream that has none. -/
theorem wf_attachProtocol {r : resourceManager} (h : WF r) {s p q : Nat}
    (hk : (r.kind s).isStream = true) (hsp : r.s_peer s = some p) (hsv : r.s_svc s = none)
    (hq : q < r.next) (hqk : (r.kind q).isProtocol = true) :
    WF { r with
      s_proto := Function.update r.s_proto s (some q)
      constraints := Function.update r.constraints s [p, q, r.system] } :=
  { h with
    shared_ok := by
      intro x hx hxk
      show Function.update r.constraints s [p, q, r.system] x = [r.system]
      rw [Function.update_noteq (isShared_ne hxk (Or.inr hk))]
      exact h.shared_ok x hx hxk
    conn_ok := by
      intro x hx hxk
      have := h.conn_ok x hx hxk
      have hxs : x ≠ s := isConn_ne hxk hk
      simp only [ConnOK, Function.update_apply] at this ⊢
      simpa [hxs] using this
    stream_ok := by
      intro x hx hxk
      obtain ⟨p', a, b, c, d⟩ := h.stream_ok x hx hxk
      by_cases hxs : x = s
      · subst hxs
        rw [hsp] at a
        cases a
        refine ⟨p, hsp, b, c, ?_⟩
        simp [hsv, hq, hqk]
      · refine ⟨p', a, b, c, ?_⟩
        simpa [Function.update_apply, hxs] using d }

/-- Attaching a service to a stream that has a protocol and no service. -/
theorem wf_attachService {r : resourceManager} (h : WF r) {s p q v : Nat}
    (hk : (r.kind s).isStream = true) (hsp : r.s_peer s = some p) (hsq : r.s_proto s = some q)
    (hv : v < r.next) (hvk : (r.kind v).isService = true) :
    WF { r with
      s_svc := Function.update r.s_svc s (some v)
      constraints := Function.update r.constraints s [p, q, v, r.system] } :=
  { h with
    shared_ok := by
      intro x hx hxk
      show Function.update r.constraints s [p, q, v, r.system] x = [r.system]
      rw [Function.update_noteq (isShared_ne hxk (Or.inr hk))]
      exact h.shared_ok x hx hxk
    conn_ok := by
      intro x hx hxk
      have := h.conn_ok x hx hxk
      have hxs : x ≠ s := isConn_ne hxk hk
      simp only [ConnOK, Function.update_apply] at this ⊢
      simpa [hxs] using this
    stream_ok := by
      intro x hx hxk
      obtain ⟨p', a, b, c, d⟩ := h.stream_ok x hx hxk
      by_cases hxs : x = s
      · subst hxs
        rw [hsp] at a
        cases a
        refine ⟨p, hsp, b, c, ?_⟩
        cases hv0 : r.s_svc x with
        | none =>
          simp only [hsq, hv0] at d
          simp [hsq, hv, hvk, d.2.1, d.2.2]
        | some v0 =>
          simp only [hsq, hv0] at d
          simp [hsq, hv, hvk, d.2.1, d.2.2.1]
      · refine ⟨p', a, b, c, ?_⟩
        simpa [Function.update_apply, hxs] using d }

theorem extends_newResourceScope (kind : ScopeKind) (limit : Limit) (cs : List Nat)
    (peer : Option Nat) (st : resourceManager) :
    Extends st (newResourceScope kind limit cs peer st).2 := by
  have hs := sameShape_incRefAll cs st
  have hu := used_incRefAll cs st
  simp only [newResourceScope]
  generalize incRefAll cs st = st1 at hs hu ⊢
  have hn := hs.next
  constructor
  · exact hs.limits
  · exact hs.system
  · exact hs.transient
  · show st.next ≤ st1.next + 1
    omega
  all_goals
    intro x hx
    have hne : x ≠ st1.next := by omega
    simp only [Function.update_noteq hne]
  · rw [hs.kind]
  · rw [hs.done]
  · rw [hs.limit]
  · rw [hu]
  · rw [hs.constraints]
  · rw [hs.s_peer]
  · rw [hs.s_svc]
  · rw [hs.s_proto]

theorem extends_getPeerScope (p : String) (r : resourceManager) :
    Extends r (getPeerScope p r).2 := by
  unfold getPeerScope
  cases mapGet r.peer p with
  | some s => exact ⟨rfl, rfl, rfl, Nat.le_refl _, fun _ _ => rfl, fun _ _ => rfl, fun _ _ => rfl,
      fun _ _ => rfl, fun _ _ => rfl, fun _ _ => rfl, fun _ _ => rfl, fun _ _ => rfl⟩
  | none =>
    have h := extends_newResourceScope (ScopeKind.peerScope p) (r.limits.GetPeerLimits p)
      [r.system] none (r.logCall (LimiterCall.GetPeerLimits p))
    exact ⟨h.limits, h.system, h.transient, h.next, h.kind, h.done, h.limit, h.used,
      h.constraints, h.s_peer, h.s_svc, h.s_proto⟩

theorem extends_getProtocolScope (p : String) (r : resourceManager) :
    Extends r (getProtocolScope p r).2 := by
  unfold getProtocolScope
  cases mapGet r.proto p with
  | some s => exact ⟨rfl, rfl, rfl, Nat.le_refl _, fun _ _ => rfl, fun _ _ => rfl, fun _ _ => rfl,
      fun _ _ => rfl, fun _ _ => rfl, fun _ _ => rfl, fun _ _ => rfl, fun _ _ => rfl⟩
  | none =>
    have h := extends_newResourceScope (ScopeKind.protocolScope p) (r.limits.GetProtocolLimits p)
      [r.system] none (r.logCall (LimiterCall.GetProtocolLimits p))
    exact ⟨h.limits, h.system, h.transient, h.next, h.kind, h.done, h.limit, h.used,
      h.constraints, h.s_peer, h.s_svc, h.s_proto⟩

theorem extends_getServiceScope (p : String) (r : resourceManager) :
    Extends r (getServiceScope p r).2 := by
  unfold getServiceScope
  cases mapGet r.svc p with
  | some s => exact ⟨rfl, rfl, rfl, Nat.le_refl _, fun _ _ => rfl, fun _ _ => rfl, fun _ _ => rfl,
      fun _ _ => rfl, fun _ _ => rfl, fun _ _ => rfl, fun _ _ => rfl, fun _ _ => rfl⟩
  | none =>
    have h := extends_newResourceScope (ScopeKind.serviceScope p) (r.limits.GetServiceLimits p)
      [r.system] none (r.logCall (LimiterCall.GetServiceLimits p))
    exact ⟨h.limits, h.system, h.transient, h.next, h.kind, h.done, h.limit, h.used,
      h.constraints, h.s_peer, h.s_svc, h.s_proto⟩

theorem sameShape_setConstraints {a b : resourceManager} (h : SameShape a b) (c : List Nat)
    (s : Nat) :
    SameShape { a with constraints := Function.update a.constraints s c }
      { b with constraints := Function.update b.constraints s c } :=
  ⟨h.limits, h.system, h.transient, h.svc, h.proto, h.peer, h.next, h.kind, h.done, h.limit,
    by show Function.update b.constraints s c = Function.update a.constraints s c
       rw [h.constraints],
    h.s_peer, h.s_svc, h.s_proto, h.limiterLog⟩

theorem wf_SetPeer {r : resourceManager} (h : WF r) {s : Nat} (hs : s < r.next)
    (hk : (r.kind s).isConn = true) (p : String) : WF (SetPeer s p r).1 := by
  unfold SetPeer
  split_ifs with hnp
  · exact h
  · simp only [not_not] at hnp
    obtain ⟨h1, hg, -⟩ := getPeerScope_spec h p
    have he := extends_getPeerScope p r
    generalize getPeerScope p r = res at h1 hg he ⊢
    obtain ⟨peer, r1⟩ := res
    dsimp only at h1 hg he ⊢
    obtain ⟨hlt, hkind, -⟩ := h1.peer_ok p peer (mapGet_mem hg)
    have hk1 : (r1.kind s).isConn = true := by rw [he.kind s hs]; exact hk
    have hnp1 : r1.s_peer s = none := by rw [he.s_peer s hs]; exact hnp
    have hatt := wf_attachPeer h1 hk1 hlt (by rw [hkind]; rfl)
    rcases hres : ReserveForChild peer
      (stat s { r1 with s_peer := Function.update r1.s_peer s (some peer) })
      { r1 with s_peer := Function.update r1.s_peer s (some peer) } with ⟨r3, _ | err⟩
    · dsimp only
      have h3 := sameShape_ReserveForChild peer
        (stat s { r1 with s_peer := Function.update r1.s_peer s (some peer) })
        { r1 with s_peer := Function.update r1.s_peer s (some peer) }
      rw [hres] at h3
      have h5 : SameShape { r1 with s_peer := Function.update r1.s_peer s (some peer) }
          (DecRef (ReleaseForChild r3.transient
            (stat s { r1 with s_peer := Function.update r1.s_peer s (some peer) }) r3).transient
            (ReleaseForChild r3.transient
            (stat s { r1 with s_peer := Function.update r1.s_peer s (some peer) }) r3)) :=
        (h3.trans (sameShape_ReleaseForChild _ _ _)).trans (sameShape_DecRef _ _)
      have h6 := sameShape_setConstraints h5 [peer, r1.system] s
      have := h6.wf hatt
      rw [← h5.system] at this
      exact this
    · dsimp only
      have h3 := sameShape_ReserveForChild peer
        (stat s { r1 with s_peer := Function.update r1.s_peer s (some peer) })
        { r1 with s_peer := Function.update r1.s_peer s (some peer) }
      rw [hres] at h3
      have h4 := h3.trans (sameShape_DecRef peer r3)
      refine SameShape.wf ?_ h1
      exact ⟨h4.limits, h4.system, h4.transient, h4.svc, h4.proto, h4.peer, h4.next, h4.kind,
        h4.done, h4.limit, h4.constraints,
        by show Function.update (DecRef peer r3).s_peer s none = r1.s_peer
           rw [h4.s_peer]
           show Function.update (Function.update r1.s_peer s (some peer)) s none = r1.s_peer
           rw [Function.update_idem, ← hnp1, Function.update_eq_self],
        h4.s_svc, h4.s_proto, h4.limiterLog⟩

theorem wf_SetProtocol {r : resourceManager} (h : WF r) {s : Nat} (hs : s < r.next)
    (hk : (r.kind s).isStream = true) (proto : String) : WF (SetProtocol s proto r).1 := by
  unfold SetProtocol
  split_ifs with hnp
  · exact h
  · simp only [not_not] at hnp
    obtain ⟨h1, hg, -⟩ := getProtocolScope_spec h proto
    have he := extends_getProtocolScope proto r
    generalize getProtocolScope proto r = res at h1 hg he ⊢
    obtain ⟨ps, r1⟩ := res
    dsimp only at h1 hg he ⊢
    obtain ⟨hlt, hkind, -⟩ := h1.proto_ok proto ps (mapGet_mem hg)
    have hk1 : (r1.kind s).isStream = true := by rw [he.kind s hs]; exact hk
    have hnp1 : r1.s_proto s = none := by rw [he.s_proto s hs]; exact hnp
    obtain ⟨pr, hpr, -, -, hrest⟩ := h1.stream_ok s (Nat.lt_of_lt_of_le hs he.next) hk1
    have hsv : r1.s_svc s = none := by
      cases hv : r1.s_svc s with
      | none => rfl
      | some v => simp [hnp1, hv] at hrest
    have hatt := wf_attachProtocol h1 hk1 hpr hsv hlt (by rw [hkind]; rfl)
    rcases hres : ReserveForChild ps
      (stat s { r1 with s_proto := Function.update r1.s_proto s (some ps) })
      { r1 with s_proto := Function.update r1.s_proto s (some ps) } with ⟨r3, _ | err⟩
    · dsimp only
      have h3 := sameShape_ReserveForChild ps
        (stat s { r1 with s_proto := Function.update r1.s_proto s (some ps) })
        { r1 with s_proto := Function.update r1.s_proto s (some ps) }
      rw [hres] at h3
      have h5 : SameShape { r1 with s_proto := Function.update r1.s_proto s (some ps) }
          (DecRef (ReleaseForChild r3.transient
            (stat s { r1 with s_proto := Function.update r1.s_proto s (some ps) }) r3).transient
            (ReleaseForChild r3.transient
            (stat s { r1 with s_proto := Function.update r1.s_proto s (some ps) }) r3)) :=
        (h3.trans (sameShape_ReleaseForChild _ _ _)).trans (sameShape_DecRef _ _)
      have hp5 : (DecRef (ReleaseForChild r3.transient
            (stat s { r1 with s_proto := Function.update r1.s_proto s (some ps) }) r3).transient
            (ReleaseForChild r3.transient
            (stat s { r1 with s_proto := Function.update r1.s_proto s (some ps) }) r3)).s_peer s =
            some pr := by
        rw [h5.s_peer]; exact hpr
      rw [hp5]
      dsimp only
      have h6 := sameShape_setConstraints h5 [pr, ps, r1.system] s
      have := h6.wf hatt
      rw [← h5.system] at this
      exact this
    · dsimp only
      have h3 := sameShape_ReserveForChild ps
        (stat s { r1 with s_proto := Function.update r1.s_proto s (some ps) })
        { r1 with s_proto := Function.update r1.s_proto s (some ps) }
      rw [hres] at h3
      have h4 := h3.trans (sameShape_DecRef ps r3)
      refine SameShape.wf ?_ h1
      exact ⟨h4.limits, h4.system, h4.transient, h4.svc, h4.proto, h4.peer, h4.next, h4.kind,
        h4.done, h4.limit, h4.constraints, h4.s_peer, h4.s_svc,
        by show Function.update (DecRef ps r3).s_proto s none = r1.s_proto
           rw [h4.s_proto]
           show Function.update (Function.update r1.s_proto s (some ps)) s none = r1.s_proto
           rw [Function.update_idem, ← hnp1, Function.update_eq_self],
        h4.limiterLog⟩

theorem wf_SetService {r : resourceManager} (h : WF r) {s : Nat} (hs : s < r.next)
    (hk : (r.kind s).isStream = true) (svc : String) : WF (SetService s svc r).1 := by
  unfold SetService
  split_ifs with hnq hnv
  · exact h
  · exact h
  · simp only [not_not] at hnv
    obtain ⟨h1, hg, -⟩ := getServiceScope_spec h svc
    have he := extends_getServiceScope svc r
    generalize getServiceScope svc r = res at h1 hg he ⊢
    obtain ⟨ss, r1⟩ := res
    dsimp only at h1 hg he ⊢
    obtain ⟨hlt, hkind, -⟩ := h1.svc_ok svc ss (mapGet_mem hg)
    have hk1 : (r1.kind s).isStream = true := by rw [he.kind s hs]; exact hk
    have hnv1 : r1.s_svc s = none := by rw [he.s_svc s hs]; exact hnv
    obtain ⟨pr, hpr, -, -, -⟩ := h1.stream_ok s (Nat.lt_of_lt_of_le hs he.next) hk1
    obtain ⟨q, hq⟩ : ∃ q, r1.s_proto s = some q := by
      rw [he.s_proto s hs]
      exact Option.ne_none_iff_exists'.mp hnq
    have hatt := wf_attachService h1 hk1 hpr hq hlt (by rw [hkind]; rfl)
    rcases hres : ReserveForChild ss
      (stat s { r1 with s_svc := Function.update r1.s_svc s (some ss) })
      { r1 with s_svc := Function.update r1.s_svc s (some ss) } with ⟨r3, _ | err⟩
    · dsimp only
      have h3 := sameShape_ReserveForChild ss
        (stat s { r1 with s_svc := Function.update r1.s_svc s (some ss) })
        { r1 with s_svc := Function.update r1.s_svc s (some ss) }
      rw [hres] at h3
      have hp3 : r3.s_peer s = some pr := by rw [h3.s_peer]; exact hpr
      have hq3 : r3.s_proto s = some q := by rw [h3.s_proto]; exact hq
      rw [hp3, hq3]
      dsimp only
      have h6 := sameShape_setConstraints h3 [pr, q, ss, r1.system] s
      have := h6.wf hatt
      rw [← h3.system] at this
      exact this
    · dsimp only
      have h3 := sameShape_ReserveForChild ss
        (stat s { r1 with s_svc := Function.update r1.s_svc s (some ss) })
        { r1 with s_svc := Function.update r1.s_svc s (some ss) }
      rw [hres] at h3
      have h4 := h3.trans (sameShape_DecRef ss r3)
      refine SameShape.wf ?_ h1
      exact ⟨h4.limits, h4.system, h4.transient, h4.svc, h4.proto, h4.peer, h4.next, h4.kind,
        h4.done, h4.limit, h4.constraints, h4.s_peer,
        by show Function.update (DecRef ss r3).s_svc s none = r1.s_svc
           rw [h4.s_svc]
           show Function.update (Function.update r1.s_svc s (some ss)) s none = r1.s_svc
           rw [Function.update_idem, ← hnv1, Function.update_eq_self],
        h4.s_proto, h4.limiterLog⟩

theorem IsUnused_iff (x : Nat) (r : resourceManager) :
    IsUnused x r = true ↔ r.refCnt x = 0 ∧ r.used x = 0 ∧ r.done x = false := by
  simp [IsUnused, and_assoc]

/-- `Done` on an unused scope whose only constraint is the system scope: the
scope is marked done and the system scope loses one reference; no counter
moves. -/
theorem Done_unused {r : resourceManager} {s : Nat} (hc : r.constraints s = [r.system])
    (hsys : r.done r.system = false) (hu : IsUnused s r = true) :
    Done s r = { r with
      done := Function.update r.done s true
      refCnt := Function.update r.refCnt r.system (r.refCnt r.system - 1) } := by
  obtain ⟨-, hu0, hd⟩ := (IsUnused_iff s r).mp hu
  have e1 : Function.update r.used r.system (r.used r.system) = r.used :=
    Function.update_eq_self _ _
  have e2 : Function.update r.used s 0 = r.used := by
    rw [← hu0]; exact Function.update_eq_self _ _
  simp [Done, hd, hc, doneConstraints, ReleaseForChild, hsys, DecRef, hu0, e1, e2]

theorem wf_gcStepProto {r : resourceManager} (h : WF r) {k : String} {s : Nat}
    (hm : (k, s) ∈ r.proto) (n : Int) :
    WF { r with
      done := Function.update r.done s true
      refCnt := Function.update r.refCnt r.system n
      proto := mapDelete r.proto k } := by
  obtain ⟨-, hks, -⟩ := h.proto_ok k s hm
  have hne : ∀ y kd, r.kind y = kd → kd.isProtocol = false → y ≠ s := by
    rintro y kd hk h1 rfl
    rw [hks] at hk
    subst hk
    simp [ScopeKind.isProtocol] at h1
  exact
    { h with
      system_live := by
        show Function.update r.done s true r.system = false
        rw [Function.update_noteq (hne _ _ h.system_kind rfl)]
        exact h.system_live
      transient_live := by
        show Function.update r.done s true r.transient = false
        rw [Function.update_noteq (hne _ _ h.transient_kind rfl)]
        exact h.transient_live
      proto_keys := mapDelete_keys k h.proto_keys
      svc_ok := by
        intro k' s' hks'
        obtain ⟨a, b, c⟩ := h.svc_ok k' s' hks'
        refine ⟨a, b, ?_⟩
        show Function.update r.done s true s' = false
        rw [Function.update_noteq (hne _ _ b rfl)]
        exact c
      peer_ok := by
        intro k' s' hks'
        obtain ⟨a, b, c⟩ := h.peer_ok k' s' hks'
        refine ⟨a, b, ?_⟩
        show Function.update r.done s true s' = false
        rw [Function.update_noteq (hne _ _ b rfl)]
        exact c
      proto_ok := by
        intro k' s' hks'
        obtain ⟨hm', hkk⟩ := mem_mapDelete.mp hks'
        obtain ⟨a, b, c⟩ := h.proto_ok k' s' hm'
        refine ⟨a, b, ?_⟩
        show Function.update r.done s true s' = false
        have : s' ≠ s := by
          rintro rfl
          rw [hks] at b
          cases b
          exact hkk rfl
        rw [Function.update_noteq this]
        exact c }

/-- Everything one loop of `gc` does, for a snapshot `es` of entries of the
protocol registry. -/
theorem gcProto_spec (es : List (String × Nat)) :
    ∀ r : resourceManager, WF r → (es.map Prod.fst).Nodup → (∀ e ∈ es, e ∈ r.proto) →
      WF (gcProto es r) ∧
      (gcProto es r).proto =
        r.proto.filter (fun e => !(decide (e ∈ es) && IsUnused e.2 r)) ∧
      (gcProto es r).peer = r.peer ∧ (gcProto es r).svc = r.svc ∧
      (gcProto es r).used = r.used ∧
      (∀ y, (gcProto es r).done y =
        (r.done y || es.any (fun e => decide (e.2 = y) && IsUnused y r))) ∧
      (∀ y, y ≠ r.system → (gcProto es r).refCnt y = r.refCnt y) ∧
      (gcProto es r).system = r.system ∧ (gcProto es r).transient = r.transient ∧
      (gcProto es r).next = r.next ∧ (gcProto es r).kind = r.kind ∧
      (gcProto es r).constraints = r.constraints ∧ (gcProto es r).limit = r.limit ∧
      (gcProto es r).s_peer = r.s_peer ∧ (gcProto es r).s_svc = r.s_svc ∧
      (gcProto es r).s_proto = r.s_proto ∧ (gcProto es r).limits = r.limits ∧
      (gcProto es r).limiterLog = r.limiterLog := by
  induction es with
  | nil =>
    intro r h _ _
    simp [gcProto, h]
  | cons e rest ih =>
    intro r h hnd hsub
    obtain ⟨k, s⟩ := e
    have hm : (k, s) ∈ r.proto := hsub _ (List.mem_cons_self _ _)
    obtain ⟨hslt, hks, hsd⟩ := h.proto_ok k s hm
    simp only [List.map_cons, List.nodup_cons] at hnd
    have hrest : ∀ e ∈ rest, e ∈ r.proto := fun e he => hsub e (List.mem_cons_of_mem _ he)
    have hkrest : ∀ e ∈ rest, e.1 ≠ k := by
      intro e he hek
      exact hnd.1 (List.mem_map.mpr ⟨e, he, hek⟩)
    unfold gcProto
    by_cases hu : IsUnused s r = true
    · simp only [hu, if_true]
      have hc : r.constraints s = [r.system] :=
        h.shared_ok s hslt (by rw [hks]; rfl)
      rw [Done_unused hc h.system_live hu]
      dsimp only
      have hw1 := wf_gcStepProto h hm (r.refCnt r.system - 1)
      have hss : s ≠ r.system := by
        intro hss
        have := h.system_kind
        rw [← hss, hks] at this
        cases this
      have hsub1 : ∀ e ∈ rest, e ∈ mapDelete r.proto k := fun e he =>
        mem_mapDelete.mpr ⟨hrest e he, hkrest e he⟩
      obtain ⟨a1, a2, a3, a4, a5, a6, a7, a8, a9, a10, a11, a12, a13, a14, a15, a16, a17, a18⟩ :=
        ih _ hw1 hnd.2 hsub1
      -- unusedness of the other registered scopes is not affected
      have hstab : ∀ (y : Nat) (P : List (String × Nat)), y ≠ s → y ≠ r.system →
          IsUnused y { r with
            done := Function.update r.done s true
            refCnt := Function.update r.refCnt r.system (r.refCnt r.system - 1)
            proto := P } = IsUnused y r := by
        intro y P hy1 hy2
        simp [IsUnused, Function.update_noteq hy1, Function.update_noteq hy2]
      have hreg : ∀ e ∈ r.proto, e.1 ≠ k → e.2 ≠ s ∧ e.2 ≠ r.system := by
        intro e he hek
        obtain ⟨-, b, -⟩ := h.proto_ok e.1 e.2 he
        constructor
        · intro h2
          rw [h2, hks] at b
          cases b
          exact hek rfl
        · intro h2
          rw [h2, h.system_kind] at b
          cases b
      refine ⟨a1, ?_, a3, a4, a5, ?_, ?_, a8, a9, a10, a11, a12, a13, a14, a15, a16, a17, a18⟩
      · rw [a2]
        show List.filter _ (mapDelete r.proto k) = _
        unfold mapDelete
        rw [List.filter_filter]
        apply List.filter_congr
        intro e he
        by_cases hek : e.1 = k
        · have : e = (k, s) := by
            have h1 := mapGet_of_mem h.proto_keys hm
            have h2 := mapGet_of_mem h.proto_keys (show (e.1, e.2) ∈ r.proto from he)
            rw [hek, h1] at h2
            cases h2
            exact Prod.ext hek rfl
          subst this
          simp [hu]
        · obtain ⟨hes, hesys⟩ := hreg e he hek
          have hne : e ≠ (k, s) := fun h2 => hek (by rw [h2])
          simp [hek, hne, hstab e.2 _ hes hesys]
      · intro y
        rw [a6]
        by_cases hys : y = s
        · subst hys
          simp [hu]
        · have h1 : (Function.update r.done s true y) = r.done y := Function.update_noteq hys _ _
          have hys' : ¬ s = y := fun h2 => hys h2.symm
          simp only [h1, List.any_cons, hys', decide_False, Bool.false_and, Bool.false_or]
          by_cases hysys : y = r.system
          · subst hysys
            have e1 : (rest.any fun e => decide (e.2 = r.system) &&
                IsUnused r.system { r with
                  done := Function.update r.done s true
                  refCnt := Function.update r.refCnt r.system (r.refCnt r.system - 1)
                  proto := mapDelete r.proto k }) = false := by
              rw [List.any_eq_false]
              intro e he
              have := (hreg e (hrest e he) (hkrest e he)).2
              simp [this]
            have e2 : (rest.any fun e => decide (e.2 = r.system) && IsUnused r.system r) =
                false := by
              rw [List.any_eq_false]
              intro e he
              have := (hreg e (hrest e he) (hkrest e he)).2
              simp [this]
            rw [e1, e2]
          · rw [hstab y _ hys hysys]
      · intro y hy
        rw [a7 y hy]
        show Function.update r.refCnt r.system (r.refCnt r.system - 1) y = r.refCnt y
        exact Function.update_noteq hy _ _
    · simp only [Bool.not_eq_true] at hu
      simp only [hu, Bool.false_eq_true, if_false]
      obtain ⟨a1, a2, a3, a4, a5, a6, a7, a8⟩ := ih r h hnd.2 hrest
      refine ⟨a1, ?_, a3, a4, a5, ?_, a7, a8⟩
      · rw [a2]
        apply List.filter_congr
        intro e he
        by_cases hek : e = (k, s)
        · subst hek
          simp [hu]
        · simp [hek]
      · intro y
        rw [a6]
        by_cases hys : s = y
        · subst hys
          simp [hu]
        · simp [hys]

theorem wf_gcStepPeer {r : resourceManager} (h : WF r) {k : String} {s : Nat}
    (hm : (k, s) ∈ r.peer) (n : Int) :
    WF { r with
      done := Function.update r.done s true
      refCnt := Function.update r.refCnt r.system n
      peer := mapDelete r.peer k } := by
  obtain ⟨-, hks, -⟩ := h.peer_ok k s hm
  have hne : ∀ y kd, r.kind y = kd → kd.isPeer = false → y ≠ s := by
    rintro y kd hk h1 rfl
    rw [hks] at hk
    subst hk
    simp [ScopeKind.isPeer] at h1
  exact
    { h with
      system_live := by
        show Function.update r.done s true r.system = false
        rw [Function.update_noteq (hne _ _ h.system_kind rfl)]
        exact h.system_live
      transient_live := by
        show Function.update r.done s true r.transient = false
        rw [Function.update_noteq (hne _ _ h.transient_kind rfl)]
        exact h.transient_live
      peer_keys := mapDelete_keys k h.peer_keys
      svc_ok := by
        intro k' s' hks'
        obtain ⟨a, b, c⟩ := h.svc_ok k' s' hks'
        refine ⟨a, b, ?_⟩
        show Function.update r.done s true s' = false
        rw [Function.update_noteq (hne _ _ b rfl)]
        exact c
      proto_ok := by
        intro k' s' hks'
        obtain ⟨a, b, c⟩ := h.proto_ok k' s' hks'
        refine ⟨a, b, ?_⟩
        show Function.update r.done s true s' = false
        rw [Function.update_noteq (hne _ _ b rfl)]
        exact c
      peer_ok := by
        intro k' s' hks'
        obtain ⟨hm', hkk⟩ := mem_mapDelete.mp hks'
        obtain ⟨a, b, c⟩ := h.peer_ok k' s' hm'
        refine ⟨a, b, ?_⟩
        show Function.update r.done s true s' = false
        have : s' ≠ s := by
          rintro rfl
          rw [hks] at b
          cases b
          exact hkk rfl
        rw [Function.update_noteq this]
        exact c }

/-- Everything one loop of `gc` does, for a snapshot `es` of entries of the
peer registry. -/
theorem gcPeer_spec (es : List (String × Nat)) :
    ∀ r : resourceManager, WF r → (es.map Prod.fst).Nodup → (∀ e ∈ es, e ∈ r.peer) →
      WF (gcPeer es r) ∧
      (gcPeer es r).peer =
        r.peer.filter (fun e => !(decide (e ∈ es) && IsUnused e.2 r)) ∧
      (gcPeer es r).proto = r.proto ∧ (gcPeer es r).svc = r.svc ∧
      (gcPeer es r).used = r.used ∧
      (∀ y, (gcPeer es r).done y =
        (r.done y || es.any (fun e => decide (e.2 = y) && IsUnused y r))) ∧
      (∀ y, y ≠ r.system → (gcPeer es r).refCnt y = r.refCnt y) ∧
      (gcPeer es r).system = r.system ∧ (gcPeer es r).transient = r.transient ∧
      (gcPeer es r).next = r.next ∧ (gcPeer es r).kind = r.kind ∧
      (gcPeer es r).constraints = r.constraints ∧ (gcPeer es r).limit = r.limit ∧
      (gcPeer es r).s_peer = r.s_peer ∧ (gcPeer es r).s_svc = r.s_svc ∧
      (gcPeer es r).s_proto = r.s_proto ∧ (gcPeer es r).limits = r.limits ∧
      (gcPeer es r).limiterLog = r.limiterLog := by
  induction es with
  | nil =>
    intro r h _ _
    simp [gcPeer, h]
  | cons e rest ih =>
    intro r h hnd hsub
    obtain ⟨k, s⟩ := e
    have hm : (k, s) ∈ r.peer := hsub _ (List.mem_cons_self _ _)
    obtain ⟨hslt, hks, hsd⟩ := h.peer_ok k s hm
    simp only [List.map_cons, List.nodup_cons] at hnd
    have hrest : ∀ e ∈ rest, e ∈ r.peer := fun e he => hsub e (List.mem_cons_of_mem _ he)
    have hkrest : ∀ e ∈ rest, e.1 ≠ k := by
      intro e he hek
      exact hnd.1 (List.mem_map.mpr ⟨e, he, hek⟩)
    unfold gcPeer
    by_cases hu : IsUnused s r = true
    · simp only [hu, if_true]
      have hc : r.constraints s = [r.system] :=
        h.shared_ok s hslt (by rw [hks]; rfl)
      rw [Done_unused hc h.system_live hu]
      dsimp only
      have hw1 := wf_gcStepPeer h hm (r.refCnt r.system - 1)
      have hss : s ≠ r.system := by
        intro hss
        have := h.system_kind
        rw [← hss, hks] at this
        cases this
      have hsub1 : ∀ e ∈ rest, e ∈ mapDelete r.peer k := fun e he =>
        mem_mapDelete.mpr ⟨hrest e he, hkrest e he⟩
      obtain ⟨a1, a2, a3, a4, a5, a6, a7, a8, a9, a10, a11, a12, a13, a14, a15, a16, a17, a18⟩ :=
        ih _ hw1 hnd.2 hsub1
      -- unusedness of the other registered scopes is not affected
      have hstab : ∀ (y : Nat) (P : List (String × Nat)), y ≠ s → y ≠ r.system →
          IsUnused y { r with
            done := Function.update r.done s true
            refCnt := Function.update r.refCnt r.system (r.refCnt r.system - 1)
            peer := P } = IsUnused y r := by
        intro y P hy1 hy2
        simp [IsUnused, Function.update_noteq hy1, Function.update_noteq hy2]
      have hreg : ∀ e ∈ r.peer, e.1 ≠ k → e.2 ≠ s ∧ e.2 ≠ r.system := by
        intro e he hek
        obtain ⟨-, b, -⟩ := h.peer_ok e.1 e.2 he
        constructor
        · intro h2
          rw [h2, hks] at b
          cases b
          exact hek rfl
        · intro h2
          rw [h2, h.system_kind] at b
          cases b
      refine ⟨a1, ?_, a3, a4, a5, ?_, ?_, a8, a9, a10, a11, a12, a13, a14, a15, a16, a17, a18⟩
      · rw [a2]
        show List.filter _ (mapDelete r.peer k) = _
        unfold mapDelete
        rw [List.filter_filter]
        apply List.filter_congr
        intro e he
        by_cases hek : e.1 = k
        · have : e = (k, s) := by
            have h1 := mapGet_of_mem h.peer_keys hm
            have h2 := mapGet_of_mem h.peer_keys (show (e.1, e.2) ∈ r.peer from he)
            rw [hek, h1] at h2
            cases h2
            exact Prod.ext hek rfl
          subst this
          simp [hu]
        · obtain ⟨hes, hesys⟩ := hreg e he hek
          have hne : e ≠ (k, s) := fun h2 => hek (by rw [h2])
          simp [hek, hne, hstab e.2 _ hes hesys]
      · intro y
        rw [a6]
        by_cases hys : y = s
        · subst hys
          simp [hu]
        · have h1 : (Function.update r.done s true y) = r.done y := Function.update_noteq hys _ _
          have hys' : ¬ s = y := fun h2 => hys h2.symm
          simp only [h1, List.any_cons, hys', decide_False, Bool.false_and, Bool.false_or]
          by_cases hysys : y = r.system
          · subst hysys
            have e1 : (rest.any fun e => decide (e.2 = r.system) &&
                IsUnused r.system { r with
                  done := Function.update r.done s true
                  refCnt := Function.update r.refCnt r.system (r.refCnt r.system - 1)
                  peer := mapDelete r.peer k }) = false := by
              rw [List.any_eq_false]
              intro e he
              have := (hreg e (hrest e he) (hkrest e he)).2
              simp [this]
            have e2 : (rest.any fun e => decide (e.2 = r.system) && IsUnused r.system r) =
                false := by
              rw [List.any_eq_false]
              intro e he
              have := (hreg e (hrest e he) (hkrest e he)).2
              simp [this]
            rw [e1, e2]
          · rw [hstab y _ hys hysys]
      · intro y hy
        rw [a7 y hy]
        show Function.update r.refCnt r.system (r.refCnt r.system - 1) y = r.refCnt y
        exact Function.update_noteq hy _ _
    · simp only [Bool.not_eq_true] at hu
      simp only [hu, Bool.false_eq_true, if_false]
      obtain ⟨a1, a2, a3, a4, a5, a6, a7, a8⟩ := ih r h hnd.2 hrest
      refine ⟨a1, ?_, a3, a4, a5, ?_, a7, a8⟩
      · rw [a2]
        apply List.filter_congr
        intro e he
        by_cases hek : e = (k, s)
        · subst hek
          simp [hu]
        · simp [hek]
      · intro y
        rw [a6]
        by_cases hys : s = y
        · subst hys
          simp [hu]
        · simp [hys]

theorem IsUnused_congr {r r' : resourceManager} {y : Nat} (h1 : r'.refCnt y = r.refCnt y)
    (h2 : r'.used y = r.used y) (h3 : r'.done y = r.done y) : IsUnused y r' = IsUnused y r := by
  simp [IsUnused, h1, h2, h3]

/-- Everything one reclaimer pass does. -/
theorem gc_spec {r : resourceManager} (h : WF r) :
    WF (gc r) ∧ (gc r).svc = r.svc ∧
      (gc r).proto = r.proto.filter (fun e => !IsUnused e.2 r) ∧
      (gc r).peer = r.peer.filter (fun e => !IsUnused e.2 r) ∧
      (gc r).used = r.used ∧
      (∀ y, (gc r).done y =
        (r.done y || (r.proto ++ r.peer).any (fun e => decide (e.2 = y) && IsUnused y r))) ∧
      (∀ y, y ≠ r.system → (gc r).refCnt y = r.refCnt y) ∧
      (gc r).system = r.system ∧ (gc r).transient = r.transient ∧
      (gc r).next = r.next ∧ (gc r).kind = r.kind ∧
      (gc r).constraints = r.constraints ∧ (gc r).limit = r.limit ∧
      (gc r).s_peer = r.s_peer ∧ (gc r).s_svc = r.s_svc ∧
      (gc r).s_proto = r.s_proto ∧ (gc r).limits = r.limits ∧
      (gc r).limiterLog = r.limiterLog := by
  unfold gc
  obtain ⟨a1, a2, a3, a4, a5, a6, a7, a8, a9, a10, a11, a12, a13, a14, a15, a16, a17, a18⟩ :=
    gcProto_spec r.proto r h h.proto_keys (fun _ he => he)
  dsimp only
  generalize gcProto r.proto r = r1 at a1 a2 a3 a4 a5 a6 a7 a8 a9 a10 a11 a12 a13 a14 a15 a16 a17 a18 ⊢
  obtain ⟨b1, b2, b3, b4, b5, b6, b7, b8, b9, b10, b11, b12, b13, b14, b15, b16, b17, b18⟩ :=
    gcPeer_spec r1.peer r1 a1 a1.peer_keys (fun _ he => he)
  have hpeer : ∀ e ∈ r.peer, IsUnused e.2 r1 = IsUnused e.2 r := by
    intro e he
    obtain ⟨-, hk, -⟩ := h.peer_ok e.1 e.2 he
    have hsys : e.2 ≠ r.system := by
      intro h2
      rw [h2, h.system_kind] at hk
      cases hk
    apply IsUnused_congr (a7 _ hsys) (by rw [a5])
    rw [a6]
    have : (r.proto.any fun e' => decide (e'.2 = e.2) && IsUnused e.2 r) = false := by
      rw [List.any_eq_false]
      intro e' he'
      obtain ⟨-, hk', -⟩ := h.proto_ok e'.1 e'.2 he'
      have : e'.2 ≠ e.2 := by
        intro h2
        rw [h2, hk] at hk'
        cases hk'
      simp [this]
    rw [this, Bool.or_false]
  refine ⟨b1, b4.trans a4, ?_, ?_, b5.trans a5, ?_, ?_, b8.trans a8, b9.trans a9, b10.trans a10,
    b11.trans a11, b12.trans a12, b13.trans a13, b14.trans a14, b15.trans a15, b16.trans a16,
    b17.trans a17, b18.trans a18⟩
  · rw [b3, a2]
    apply List.filter_congr
    intro e he
    simp [he]
  · rw [b2, a3]
    apply List.filter_congr
    intro e he
    simp [he, hpeer e he]
  · intro y
    rw [b6, a6, a3, List.any_append, Bool.or_assoc]
    congr 1
    by_cases hy : r.proto.any (fun e => decide (e.2 = y) && IsUnused y r) = true
    · simp only [hy, Bool.true_or]
    · simp only [Bool.not_eq_true] at hy
      simp only [hy, Bool.false_or]
      by_cases hmem : ∃ e ∈ r.peer, e.2 = y
      · obtain ⟨e, he, rfl⟩ := hmem
        rw [hpeer e he]
      · have e1 : ∀ (P : Bool), (r.peer.any fun e => decide (e.2 = y) && P) = false := by
          intro P
          rw [List.any_eq_false]
          intro e he
          have : e.2 ≠ y := fun h2 => hmem ⟨e, he, h2⟩
          simp [this]
        rw [e1, e1]
  · intro y hy
    rw [b7 y (by rw [a8]; exact hy), a7 y hy]

theorem wf_gc {r : resourceManager} (h : WF r) : WF (gc r) := (gc_spec h).1

theorem sameShape_runMemOps (ops : List MemOp) (s : Nat) (r : resourceManager) :
    SameShape r (runMemOps ops s r) := by
  induction ops generalizing r with
  | nil => exact SameShape.rfl' r
  | cons op rest ih =>
    cases op with
    | reserve n =>
      unfold runMemOps
      exact (sameShape_Reserve s (memDelta n) r).trans (ih _)
    | release n =>
      unfold runMemOps
      exact (sameShape_Release s (memDelta n) r).trans (ih _)

theorem refCnt_runMemOps (ops : List MemOp) (s : Nat) (r : resourceManager) :
    (runMemOps ops s r).refCnt = r.refCnt := by
  induction ops generalizing r with
  | nil => rfl
  | cons op rest ih =>
    cases op with
    | reserve n =>
      unfold runMemOps
      exact (ih _).trans (refCnt_Reserve s (memDelta n) r)
    | release n =>
      unfold runMemOps
      exact (ih _).trans (refCnt_Release s (memDelta n) r)

theorem wf_NewResourceManager (limits : Limiter) : WF (NewResourceManager limits) := by
  constructor <;>
    simp [NewResourceManager, emptyManager, newSystemScope, newTransientScope, newResourceScope,
      incRefAll, IncRef, resourceManager.logCall, Function.update_apply, ConnOK, StreamOK]
  · intro x hx hk
    have : x = 0 ∨ x = 1 := by omega
    rcases this with rfl | rfl <;> simp [ScopeKind.isShared] at hk ⊢
  · intro x hx hk
    have : x = 0 ∨ x = 1 := by omega
    rcases this with rfl | rfl <;> simp [ScopeKind.isConn] at hk ⊢
  · intro x hx
    have : x = 0 ∨ x = 1 := by omega
    rcases this with rfl | rfl <;> simp [ScopeKind.isStream]

theorem wf_ViewService {r : resourceManager} (h : WF r) (srv : String) (ops : List MemOp)
    (res : Option Error) : WF (ViewService srv (memCallback ops res) r).1 := by
  unfold ViewService memCallback
  exact ((sameShape_runMemOps ops _ _).trans (sameShape_DecRef _ _)).wf (getServiceScope_spec h srv).1

theorem wf_ViewProtocol {r : resourceManager} (h : WF r) (proto : String) (ops : List MemOp)
    (res : Option Error) : WF (ViewProtocol proto (memCallback ops res) r).1 := by
  unfold ViewProtocol memCallback
  exact ((sameShape_runMemOps ops _ _).trans (sameShape_DecRef _ _)).wf
    (getProtocolScope_spec h proto).1

theorem wf_ViewPeer {r : resourceManager} (h : WF r) (p : String) (ops : List MemOp)
    (res : Option Error) : WF (ViewPeer p (memCallback ops res) r).1 := by
  unfold ViewPeer memCallback
  exact ((sameShape_runMemOps ops _ _).trans (sameShape_DecRef _ _)).wf (getPeerScope_spec h p).1

/-- Every reachable state is well formed. -/
theorem Reachable.wellFormed {limits : Limiter} {r : resourceManager} (h : Reachable limits r) :
    WF r := by
  induction h with
  | init => exact wf_NewResourceManager limits
  | openConnection dir usefd _ ih => exact wf_OpenConnection ih dir usefd
  | openStream p dir _ ih => exact wf_OpenStream ih p dir
  | setPeer s p _ hs hk ih => exact wf_SetPeer ih hs hk p
  | setProtocol s proto _ hs hk ih => exact wf_SetProtocol ih hs hk proto
  | setService s svc _ hs hk ih => exact wf_SetService ih hs hk svc
  | done s _ _ hk ih => exact wf_Done ih s hk
  | reserveMemory s n _ _ _ ih => exact wf_ReserveMemory ih s n
  | releaseMemory s n _ _ _ ih => exact wf_ReleaseMemory ih s n
  | viewSystem ops res _ ih => exact (sameShape_runMemOps ops _ _).wf ih
  | viewTransient ops res _ ih => exact (sameShape_runMemOps ops _ _).wf ih
  | viewService srv ops res _ ih => exact wf_ViewService ih srv ops res
  | viewProtocol proto ops res _ ih => exact wf_ViewProtocol ih proto ops res
  | viewPeer p ops res _ ih => exact wf_ViewPeer ih p ops res
  | gc _ ih => exact wf_gc ih

/-! ## Effects of the edge migrations -/

/-- In a well-formed state a connection or stream scope, the system scope, the
transient scope and the registered scopes are distinct objects. -/
theorem WF.conn_facts {r : resourceManager} (h : WF r) {c : Nat}
    (hk : (r.kind c).isConn = true ∨ (r.kind c).isStream = true) :
    c ≠ r.transient ∧ c ≠ r.system ∧ r.transient ≠ r.system ∧
      (∀ k q, (k, q) ∈ r.peer → q ≠ c ∧ q ≠ r.transient ∧ q ≠ r.system ∧ q < r.next) ∧
      (∀ k q, (k, q) ∈ r.proto → q ≠ c ∧ q ≠ r.transient ∧ q ≠ r.system ∧ q < r.next) ∧
      (∀ k q, (k, q) ∈ r.svc → q ≠ c ∧ q ≠ r.transient ∧ q ≠ r.system ∧ q < r.next) := by
  have hT := h.transient_kind
  have hS := h.system_kind
  refine ⟨?_, ?_, ?_, ?_, ?_, ?_⟩
  · rintro rfl
    rw [hT] at hk
    simp [ScopeKind.isConn, ScopeKind.isStream] at hk
  · rintro rfl
    rw [hS] at hk
    simp [ScopeKind.isConn, ScopeKind.isStream] at hk
  · intro h2
    rw [h2, hS] at hT
    cases hT
  · intro k q hq
    obtain ⟨a, b, -⟩ := h.peer_ok k q hq
    refine ⟨?_, ?_, ?_, a⟩
    · rintro rfl
      rw [b] at hk
      simp [ScopeKind.isConn, ScopeKind.isStream] at hk
    · rintro rfl
      rw [b] at hT
      cases hT
    · rintro rfl
      rw [b] at hS
      cases hS
  · intro k q hq
    obtain ⟨a, b, -⟩ := h.proto_ok k q hq
    refine ⟨?_, ?_, ?_, a⟩
    · rintro rfl
      rw [b] at hk
      simp [ScopeKind.isConn, ScopeKind.isStream] at hk
    · rintro rfl
      rw [b] at hT
      cases hT
    · rintro rfl
      rw [b] at hS
      cases hS
  · intro k q hq
    obtain ⟨a, b, -⟩ := h.svc_ok k q hq
    refine ⟨?_, ?_, ?_, a⟩
    · rintro rfl
      rw [b] at hk
      simp [ScopeKind.isConn, ScopeKind.isStream] at hk
    · rintro rfl
      rw [b] at hT
      cases hT
    · rintro rfl
      rw [b] at hS
      cases hS

theorem WF.stream_facts {r : resourceManager} (h : WF r) {x : Nat} (hx : x < r.next)
    (hk : (r.kind x).isStream = true) :
    ∃ pr, r.s_peer x = some pr ∧ pr < r.next ∧ pr ≠ x ∧ pr ≠ r.transient ∧ pr ≠ r.system ∧
      (∀ k q, (k, q) ∈ r.proto → q ≠ pr) ∧ (∀ k q, (k, q) ∈ r.svc → q ≠ pr) := by
  obtain ⟨pr, a, b, c, -⟩ := h.stream_ok x hx hk
  refine ⟨pr, a, b, ?_, ?_, ?_, ?_, ?_⟩
  · rintro rfl
    cases hkx : r.kind pr <;> simp [hkx, ScopeKind.isPeer, ScopeKind.isStream] at c hk
  · rintro rfl
    rw [h.transient_kind] at c
    simp [ScopeKind.isPeer] at c
  · rintro rfl
    rw [h.system_kind] at c
    simp [ScopeKind.isPeer] at c
  · rintro k q hq rfl
    rw [(h.proto_ok k q hq).2.1] at c
    simp [ScopeKind.isPeer] at c
  · rintro k q hq rfl
    rw [(h.svc_ok k q hq).2.1] at c
    simp [ScopeKind.isPeer] at c

/-- The effect of a successful `SetProtocol`. -/
theorem SetProtocol_ok_spec {r : resourceManager} (hwf : WF r) {x : Nat} (hx : x < r.next)
    (hk : (r.kind x).isStream = true) (id : String) (hnp : r.s_proto x = none)
    (hok : (SetProtocol x id r).2 = none) :
    ∃ pr q, r.s_peer x = some pr ∧ mapGet (SetProtocol x id r).1.proto id = some q ∧
      (SetProtocol x id r).1.s_peer x = some pr ∧
      (SetProtocol x id r).1.s_proto x = some q ∧
      (SetProtocol x id r).1.s_svc x = none ∧
      (SetProtocol x id r).1.constraints x = [pr, q, r.system] ∧
      (SetProtocol x id r).1.system = r.system ∧
      (SetProtocol x id r).1.transient = r.transient ∧
      (SetProtocol x id r).1.used r.transient = r.used r.transient - r.used x ∧
      (SetProtocol x id r).1.used q = regUsed r.proto id r + r.used x ∧
      (∀ y, y ≠ r.transient → y ≠ q → (SetProtocol x id r).1.used y = r.used y) ∧
      (SetProtocol x id r).1.peer = r.peer ∧ (SetProtocol x id r).1.svc = r.svc ∧
      q ≠ pr ∧ q ≠ r.transient ∧ q ≠ r.system ∧ q ≠ x ∧
      r.next ≤ (SetProtocol x id r).1.next ∧
      (∀ y, y < r.next → (SetProtocol x id r).1.done y = r.done y ∧
        (SetProtocol x id r).1.kind y = r.kind y) := by
  obtain ⟨hxT, hxS, hTS, -, hproto, -⟩ := hwf.conn_facts (Or.inr hk)
  obtain ⟨pr, hpr, hprlt, hprx, hprT, hprS, hprq, -⟩ := hwf.stream_facts hx hk
  have hTd := hwf.transient_live
  have hTlt := hwf.transient_lt
  have hSlt := hwf.system_lt
  have hsv : r.s_svc x = none := by
    obtain ⟨pr', a, -, -, d⟩ := hwf.stream_ok x hx hk
    cases hv : r.s_svc x with
    | none => rfl
    | some v => simp [hnp, hv] at d
  cases hq : mapGet r.proto id with
  | some q =>
    obtain ⟨hqx, hqT, hqS, -⟩ := hproto id q (mapGet_mem hq)
    have hqpr := hprq id q (mapGet_mem hq)
    refine ⟨pr, q, hpr, ?_⟩
    simp only [SetProtocol, hnp, getProtocolScope, hq, stat, IncRef, ReserveForChild,
      regUsed] at hok ⊢
    simp only [ne_eq, not_true_eq_false, if_false] at hok ⊢
    split_ifs at hok ⊢ with h1 h2
    simp only [ReleaseForChild, DecRef, hTd, hpr] at hok ⊢
    simp [Function.update_apply, hq, hqT, hqS, hqx, hxT, hxS, hsv, hpr,
      hTS, Ne.symm hqT, Ne.symm hqS, Ne.symm hqx, Ne.symm hTS, hqpr]
    intro y hy1 hy2
    simp [hy1, hy2]
  | none =>
    have hnT : r.next ≠ r.transient := Nat.ne_of_gt hTlt
    have hnS : r.next ≠ r.system := Nat.ne_of_gt hSlt
    have hnx : r.next ≠ x := Nat.ne_of_gt hx
    have hnpr : r.next ≠ pr := Nat.ne_of_gt hprlt
    refine ⟨pr, r.next, hpr, ?_⟩
    simp only [SetProtocol, hnp, getProtocolScope, hq, stat, IncRef, ReserveForChild,
      regUsed, newProtocolScope, newResourceScope, incRefAll, resourceManager.logCall] at hok ⊢
    simp only [ne_eq, not_true_eq_false, if_false] at hok ⊢
    split_ifs at hok ⊢ with h1 h2
    have hpr' : Function.update r.s_peer r.next none x = some pr := by
      rw [Function.update_noteq (Ne.symm hnx)]; exact hpr
    simp only [ReleaseForChild, DecRef, hTd, hpr', Function.update_noteq (Ne.symm hnT)] at hok ⊢
    simp [Function.update_apply, hnT, hnS, hnx, hxT, hxS, hsv, hpr, hnpr,
      hTS, Ne.symm hnT, Ne.symm hnS, Ne.symm hnx, Ne.symm hTS, mapGet_mapSet _ _ hq]
    refine ⟨?_, ?_⟩
    · intro y hy1 hy2
      simp [hy1, hy2]
    · intro y hy
      have : y ≠ r.next := Nat.ne_of_lt hy
      simp [this]

theorem WF.stream_proto_facts {r : resourceManager} (h : WF r) {x q : Nat} (hx : x < r.next)
    (hk : (r.kind x).isStream = true) (hq : r.s_proto x = some q) :
    q < r.next ∧ q ≠ x ∧ q ≠ r.transient ∧ q ≠ r.system ∧
      (∀ k v, (k, v) ∈ r.svc → v ≠ q) ∧ (∀ k v, (k, v) ∈ r.peer → v ≠ q) := by
  obtain ⟨pr, a, b, c, d⟩ := h.stream_ok x hx hk
  have hq' : q < r.next ∧ (r.kind q).isProtocol = true := by
    cases hv : r.s_svc x with
    | none => simp only [hq, hv] at d; exact ⟨d.2.1, d.2.2⟩
    | some v => simp only [hq, hv] at d; exact ⟨d.2.1, d.2.2.1⟩
  obtain ⟨hlt, hkq⟩ := hq'
  refine ⟨hlt, ?_, ?_, ?_, ?_, ?_⟩
  · rintro rfl
    cases hkx : r.kind q <;> simp [hkx, ScopeKind.isProtocol, ScopeKind.isStream] at hkq hk
  · rintro rfl
    rw [h.transient_kind] at hkq
    simp [ScopeKind.isProtocol] at hkq
  · rintro rfl
    rw [h.system_kind] at hkq
    simp [ScopeKind.isProtocol] at hkq
  · rintro k v hv rfl
    rw [(h.svc_ok k v hv).2.1] at hkq
    simp [ScopeKind.isProtocol] at hkq
  · rintro k v hv rfl
    rw [(h.peer_ok k v hv).2.1] at hkq
    simp [ScopeKind.isProtocol] at hkq

/-- The effect of a successful `SetService`. -/
theorem SetService_ok_spec {r : resourceManager} (hwf : WF r) {x : Nat} (hx : x < r.next)
    (hk : (r.kind x).isStream = true) (name : String) (hp : r.s_proto x ≠ none)
    (hns : r.s_svc x = none) (hok : (SetService x name r).2 = none) :
    ∃ pr q v, r.s_peer x = some pr ∧ r.s_proto x = some q ∧
      mapGet (SetService x name r).1.svc name = some v ∧
      (SetService x name r).1.s_peer x = some pr ∧
      (SetService x name r).1.s_proto x = some q ∧
      (SetService x name r).1.s_svc x = some v ∧
      (SetService x name r).1.constraints x = [pr, q, v, r.system] ∧
      (SetService x name r).1.system = r.system ∧
      (SetService x name r).1.transient = r.transient ∧
      (SetService x name r).1.used v = regUsed r.svc name r + r.used x ∧
      (∀ y, y ≠ v → (SetService x name r).1.used y = r.used y) ∧
      (SetService x name r).1.peer = r.peer ∧ (SetService x name r).1.proto = r.proto ∧
      v ≠ pr ∧ v ≠ q ∧ v ≠ r.transient ∧ v ≠ r.system ∧ v ≠ x ∧
      r.next ≤ (SetService x name r).1.next ∧
      (∀ y, y < r.next → (SetService x name r).1.done y = r.done y ∧
        (SetService x name r).1.kind y = r.kind y) := by
  obtain ⟨hxT, hxS, hTS, -, -, hsvc⟩ := hwf.conn_facts (Or.inr hk)
  obtain ⟨pr, hpr, hprlt, hprx, hprT, hprS, -, hprv⟩ := hwf.stream_facts hx hk
  obtain ⟨q, hq⟩ := Option.ne_none_iff_exists'.mp hp
  obtain ⟨hqlt, hqx, hqT, hqS, hqv, -⟩ := hwf.stream_proto_facts hx hk hq
  have hTlt := hwf.transient_lt
  have hSlt := hwf.system_lt
  cases hg : mapGet r.svc name with
  | some v =>
    obtain ⟨hvx, hvT, hvS, -⟩ := hsvc name v (mapGet_mem hg)
    have hvpr := hprv name v (mapGet_mem hg)
    have hvq := hqv name v (mapGet_mem hg)
    refine ⟨pr, q, v, hpr, hq, ?_⟩
    simp only [SetService, hq, hns, getServiceScope, hg, stat, IncRef, ReserveForChild,
      regUsed] at hok ⊢
    simp only [ne_eq, not_true_eq_false, if_false, reduceCtorEq] at hok ⊢
    split_ifs at hok ⊢ with h1 h2
    simp only [hpr, hq] at hok ⊢
    simp [Function.update_apply, hg, hvT, hvS, hvx, hxT, hxS, hpr, hq,
      hTS, Ne.symm hvT, Ne.symm hvS, Ne.symm hvx, Ne.symm hTS, hvpr, hvq]
    intro y hy1
    simp [hy1]
  | none =>
    have hnT : r.next ≠ r.transient := Nat.ne_of_gt hTlt
    have hnS : r.next ≠ r.system := Nat.ne_of_gt hSlt
    have hnx : r.next ≠ x := Nat.ne_of_gt hx
    have hnpr : r.next ≠ pr := Nat.ne_of_gt hprlt
    have hnq : r.next ≠ q := Nat.ne_of_gt hqlt
    refine ⟨pr, q, r.next, hpr, hq, ?_⟩
    simp only [SetService, hq, hns, getServiceScope, hg, stat, IncRef, ReserveForChild,
      regUsed, newServiceScope, newResourceScope, incRefAll, resourceManager.logCall] at hok ⊢
    simp only [ne_eq, not_true_eq_false, if_false, reduceCtorEq] at hok ⊢
    split_ifs at hok ⊢ with h1 h2
    have hpr' : Function.update r.s_peer r.next none x = some pr := by
      rw [Function.update_noteq (Ne.symm hnx)]; exact hpr
    have hq' : Function.update r.s_proto r.next none x = some q := by
      rw [Function.update_noteq (Ne.symm hnx)]; exact hq
    simp only [hpr', hq'] at hok ⊢
    simp [Function.update_apply, hnT, hnS, hnx, hxT, hxS, hpr, hq, hnpr, hnq,
      hTS, Ne.symm hnT, Ne.symm hnS, Ne.symm hnx, Ne.symm hTS, mapGet_mapSet _ _ hg]
    refine ⟨?_, ?_⟩
    · intro y hy1
      simp [hy1]
    · intro y hy
      have : y ≠ r.next := Nat.ne_of_lt hy
      simp [this]

/-- The effect of a `SetProtocol` that the protocol scope rejects. -/
theorem SetProtocol_fail_spec {r : resourceManager} (hwf : WF r) {x : Nat} (hx : x < r.next)
    (hk : (r.kind x).isStream = true) (id : String) (hnp : r.s_proto x = none)
    (hfail : (SetProtocol x id r).2 ≠ none) :
    (SetProtocol x id r).1.s_proto x = none ∧
      (SetProtocol x id r).1.constraints x = r.constraints x ∧
      (∀ y, y < r.next → (SetProtocol x id r).1.used y = r.used y) ∧
      regUsed (SetProtocol x id r).1.proto id (SetProtocol x id r).1 = regUsed r.proto id r ∧
      regRefs (SetProtocol x id r).1.proto id (SetProtocol x id r).1 = regRefs r.proto id r ∧
      (SetProtocol x id r).1.system = r.system ∧
      (SetProtocol x id r).1.transient = r.transient := by
  obtain ⟨pr, hpr, hprlt, -⟩ := hwf.stream_facts hx hk
  have hTd := hwf.transient_live
  cases hq : mapGet r.proto id with
  | some q =>
    simp only [SetProtocol, hnp, getProtocolScope, hq, stat, IncRef, ReserveForChild,
      regUsed, regRefs] at hfail ⊢
    simp only [ne_eq, not_true_eq_false, if_false] at hfail ⊢
    split_ifs at hfail ⊢ with h1 h2
    · simp [DecRef, Function.update_apply, hq]
    · simp only [ReleaseForChild, DecRef, hTd, hpr] at hfail
      simp [hpr] at hfail
    · simp [DecRef, Function.update_apply, hq]
  | none =>
    have hnx : r.next ≠ x := Nat.ne_of_gt hx
    simp only [SetProtocol, hnp, getProtocolScope, hq, stat, IncRef, ReserveForChild,
      regUsed, regRefs, newProtocolScope, newResourceScope, incRefAll,
      resourceManager.logCall] at hfail ⊢
    simp only [ne_eq, not_true_eq_false, if_false] at hfail ⊢
    have hpr' : Function.update r.s_peer r.next none x = some pr := by
      rw [Function.update_noteq (Ne.symm hnx)]; exact hpr
    split_ifs at hfail ⊢ with h1 h2
    · simp at h1
    · have hnT : r.transient ≠ r.next := Nat.ne_of_lt hwf.transient_lt
      simp only [ReleaseForChild, DecRef, hTd, hpr', Function.update_noteq hnT] at hfail
      simp [hpr'] at hfail
    · simp [DecRef, Function.update_apply, hnx, Ne.symm hnx, mapGet_mapSet _ _ hq]
      intro y hy
      have : y ≠ r.next := Nat.ne_of_lt hy
      simp [this]

/-- The effect of a `SetService` that the service scope rejects. -/
theorem SetService_fail_spec {r : resourceManager} (hwf : WF r) {x : Nat} (hx : x < r.next)
    (hk : (r.kind x).isStream = true) (name : String) (hp : r.s_proto x ≠ none)
    (hns : r.s_svc x = none) (hfail : (SetService x name r).2 ≠ none) :
    (SetService x name r).1.s_svc x = none ∧
      (SetService x name r).1.constraints x = r.constraints x ∧
      (∀ y, y < r.next → (SetService x name r).1.used y = r.used y) ∧
      regUsed (SetService x name r).1.svc name (SetService x name r).1 = regUsed r.svc name r ∧
      regRefs (SetService x name r).1.svc name (SetService x name r).1 = regRefs r.svc name r ∧
      (SetService x name r).1.system = r.system ∧
      (SetService x name r).1.transient = r.transient := by
  obtain ⟨pr, hpr, hprlt, -⟩ := hwf.stream_facts hx hk
  obtain ⟨q, hq⟩ := Option.ne_none_iff_exists'.mp hp
  cases hg : mapGet r.svc name with
  | some v =>
    simp only [SetService, hq, hns, getServiceScope, hg, stat, IncRef, ReserveForChild,
      regUsed, regRefs] at hfail ⊢
    simp only [ne_eq, not_true_eq_false, if_false, reduceCtorEq] at hfail ⊢
    split_ifs at hfail ⊢ with h1 h2
    · simp [DecRef, Function.update_apply, hg]
    · simp [hpr, hq] at hfail
    · simp [DecRef, Function.update_apply, hg]
  | none =>
    have hnx : r.next ≠ x := Nat.ne_of_gt hx
    simp only [SetService, hq, hns, getServiceScope, hg, stat, IncRef, ReserveForChild,
      regUsed, regRefs, newServiceScope, newResourceScope, incRefAll,
      resourceManager.logCall] at hfail ⊢
    simp only [ne_eq, not_true_eq_false, if_false, reduceCtorEq] at hfail ⊢
    have hpr' : Function.update r.s_peer r.next none x = some pr := by
      rw [Function.update_noteq (Ne.symm hnx)]; exact hpr
    have hq' : Function.update r.s_proto r.next none x = some q := by
      rw [Function.update_noteq (Ne.symm hnx)]; exact hq
    split_ifs at hfail ⊢ with h1 h2
    · simp at h1
    · simp [hpr', hq'] at hfail
    · simp [DecRef, Function.update_apply, hnx, Ne.symm hnx, mapGet_mapSet _ _ hg]
      intro y hy
      have : y ≠ r.next := Nat.ne_of_lt hy
      simp [this]

/-! ## Effects of `Reserve` and `Done` -/

theorem used_ReserveForChild_ok {c : Nat} {d : ScopeStat} {st : resourceManager}
    (h : (ReserveForChild c d st).2 = none) :
    (ReserveForChild c d st).1.used = Function.update st.used c (st.used c + d) ∧
      st.done c = false := by
  unfold ReserveForChild at h ⊢
  split_ifs at h ⊢ with h1 h2
  exact ⟨rfl, by simpa using h1⟩

/-- A successful walk over a duplicate-free constraint list charges every
parent by exactly `delta` and nothing else. -/
theorem reserveForConstraints_ok (cs : List Nat) (d : ScopeStat) :
    ∀ st : resourceManager, cs.Nodup → (reserveForConstraints cs d st).2 = none →
      (∀ y, (reserveForConstraints cs d st).1.used y =
        if y ∈ cs then st.used y + d else st.used y) ∧ (∀ y ∈ cs, st.done y = false) := by
  induction cs with
  | nil =>
    intro st _ _
    simp [reserveForConstraints]
  | cons c rest ih =>
    intro st hnd hok
    simp only [List.nodup_cons] at hnd
    unfold reserveForConstraints at hok ⊢
    have hs1 := sameShape_ReserveForChild c d st
    rcases h1 : ReserveForChild c d st with ⟨st1, _ | e⟩
    · have h1' : (ReserveForChild c d st).2 = none := by rw [h1]
      obtain ⟨hu1, hd1⟩ := used_ReserveForChild_ok h1'
      rw [h1] at hu1 hs1
      simp only [h1] at hok ⊢
      rcases h2 : reserveForConstraints rest d st1 with ⟨st2, _ | e2⟩
      · have h2' : (reserveForConstraints rest d st1).2 = none := by rw [h2]
        obtain ⟨hu2, hd2⟩ := ih st1 hnd.2 h2'
        rw [h2] at hu2
        simp only [h2]
        constructor
        · intro y
          rw [hu2 y]
          dsimp only at hu1
          rw [hu1]
          by_cases hyc : y = c
          · subst hyc
            simp [hnd.1]
          · simp [hyc]
        · intro y hy
          rcases List.mem_cons.mp hy with rfl | hy
          · exact hd1
          · have := hd2 y hy
            rw [hs1.done] at this
            exact this
      · simp [h2] at hok
    · simp [h1] at hok

/-- A successful `Reserve` charges the scope and every parent of its
(duplicate-free) constraint list by exactly `delta`, and no other scope. -/
theorem Reserve_ok_spec {x : Nat} {d : ScopeStat} {st : resourceManager}
    (hnd : (st.constraints x).Nodup) (hx : x ∉ st.constraints x)
    (hok : (Reserve x d st).2 = none) :
    (∀ y, (Reserve x d st).1.used y =
      if y = x ∨ y ∈ st.constraints x then st.used y + d else st.used y) ∧
      st.done x = false ∧ ∀ y ∈ st.constraints x, st.done y = false := by
  unfold Reserve at hok ⊢
  split_ifs at hok ⊢ with hd
  simp only [Bool.not_eq_true] at hd
  rcases h1 : reserveForConstraints (st.constraints x) d st with ⟨st1, _ | e⟩
  · have h1' : (reserveForConstraints (st.constraints x) d st).2 = none := by rw [h1]
    obtain ⟨hu, hdn⟩ := reserveForConstraints_ok _ d st hnd h1'
    rw [h1] at hu
    simp only [h1] at hok ⊢
    split_ifs at hok ⊢ with hl
    refine ⟨?_, hd, hdn⟩
    intro y
    dsimp only at hu ⊢
    by_cases hyx : y = x
    · subst hyx
      simp [hu, hx]
    · simp [hu, hyx, Function.update_noteq hyx]
  · simp [h1] at hok

/-- What `doneConstraints` does to a duplicate-free constraint list: every
parent that is not done loses `u`, and every parent loses one reference. -/
theorem doneConstraints_spec (cs : List Nat) (u : ScopeStat) :
    ∀ st : resourceManager, cs.Nodup →
      (∀ y, (doneConstraints cs u st).used y =
        if y ∈ cs ∧ st.done y = false then st.used y - u else st.used y) ∧
      (∀ y, (doneConstraints cs u st).refCnt y =
        if y ∈ cs then st.refCnt y - 1 else st.refCnt y) := by
  induction cs with
  | nil =>
    intro st _
    simp [doneConstraints]
  | cons c rest ih =>
    intro st hnd
    simp only [List.nodup_cons] at hnd
    unfold doneConstraints
    obtain ⟨hu, hr⟩ := ih (DecRef c (ReleaseForChild c u st)) hnd.2
    have hdone : (DecRef c (ReleaseForChild c u st)).done = st.done :=
      ((sameShape_ReleaseForChild c u st).trans (sameShape_DecRef c _)).done
    constructor
    · intro y
      rw [hu y, hdone]
      by_cases hyc : y = c
      · subst hyc
        by_cases hd : st.done y = true
        · simp [hnd.1, hd, DecRef, ReleaseForChild]
        · simp [hnd.1, hd, DecRef, ReleaseForChild]
      · by_cases hd : st.done c = true
        · simp [hyc, hd, DecRef, ReleaseForChild]
        · simp [hyc, hd, DecRef, ReleaseForChild, Function.update_noteq hyc]
    · intro y
      rw [hr y]
      have : (ReleaseForChild c u st).refCnt = st.refCnt := refCnt_ReleaseForChild c u st
      by_cases hyc : y = c
      · subst hyc
        simp [hnd.1, DecRef, this]
      · simp [hyc, DecRef, this, Function.update_noteq hyc]

/-- The effect of `Done` on a scope that is not done yet. -/
theorem Done_spec {x : Nat} {st : resourceManager} (hd : st.done x = false)
    (hnd : (st.constraints x).Nodup) (hx : x ∉ st.constraints x) :
    (∀ y, (Done x st).used y =
      if y = x then 0
      else if y ∈ st.constraints x ∧ st.done y = false then st.used y - st.used x
      else st.used y) ∧
    (∀ y, (Done x st).refCnt y =
      if y ∈ st.constraints x then st.refCnt y - 1 else st.refCnt y) ∧
    (Done x st).done = Function.update st.done x true := by
  obtain ⟨hu, hr⟩ := doneConstraints_spec (st.constraints x) (st.used x) st hnd
  have hs := sameShape_doneConstraints (st.constraints x) (st.used x) st
  simp only [Done, hd, Bool.false_eq_true, if_false]
  refine ⟨?_, ?_, ?_⟩
  · intro y
    by_cases hyx : y = x
    · subst hyx
      simp
    · simp [hyx, Function.update_noteq hyx, hu]
  · intro y
    exact hr y
  · show Function.update (doneConstraints _ _ st).done x true = _
    rw [hs.done]

/-! ## Effects of `OpenStream` -/

/-- The counters after `getPeerScope`: the returned scope carries the used
vector the registry had for `p` (zero for a new scope), no other used vector
moves, and the other two registries are untouched. -/
theorem getPeerScope_used (p : String) (r : resourceManager) :
    (getPeerScope p r).2.used (getPeerScope p r).1 = regUsed r.peer p r ∧
      (∀ y, y ≠ (getPeerScope p r).1 → (getPeerScope p r).2.used y = r.used y) ∧
      (getPeerScope p r).2.proto = r.proto ∧ (getPeerScope p r).2.svc = r.svc := by
  unfold getPeerScope regUsed
  cases hq : mapGet r.peer p with
  | some q => simp [IncRef]
  | none =>
    simp only [newPeerScope, newResourceScope, incRefAll, IncRef, resourceManager.logCall]
    refine ⟨by simp, ?_, by simp⟩
    intro y hy
    exact Function.update_noteq hy _ _

/-- The effect of a successful `OpenStream`. -/
theorem OpenStream_ok_spec {r : resourceManager} (hwf : WF r) (p : String) (dir : Direction)
    {x : Nat} (hok : (OpenStream p dir r).2 = Except.ok x) :
    ∃ q, mapGet (OpenStream p dir r).1.peer p = some q ∧
      r.next ≤ x ∧ x < (OpenStream p dir r).1.next ∧
      (OpenStream p dir r).1.kind x = ScopeKind.streamScope dir ∧
      (OpenStream p dir r).1.done x = false ∧
      (OpenStream p dir r).1.s_peer x = some q ∧
      (OpenStream p dir r).1.s_proto x = none ∧
      (OpenStream p dir r).1.s_svc x = none ∧
      (OpenStream p dir r).1.constraints x = [q, r.transient, r.system] ∧
      (OpenStream p dir r).1.system = r.system ∧
      (OpenStream p dir r).1.transient = r.transient ∧
      (OpenStream p dir r).1.used x = streamDelta dir ∧
      (OpenStream p dir r).1.used q = regUsed r.peer p r + streamDelta dir ∧
      (OpenStream p dir r).1.used r.transient = r.used r.transient + streamDelta dir ∧
      (OpenStream p dir r).1.used r.system = r.used r.system + streamDelta dir ∧
      (∀ y, y ≠ x → y ≠ q → y ≠ r.transient → y ≠ r.system →
        (OpenStream p dir r).1.used y = r.used y) ∧
      (OpenStream p dir r).1.proto = r.proto ∧ (OpenStream p dir r).1.svc = r.svc := by
  obtain ⟨h1, hg, hsys, htr, hnext, -⟩ := getPeerScope_spec hwf p
  obtain ⟨hu1, hu2, hproto, hsvc⟩ := getPeerScope_used p r
  unfold OpenStream at hok ⊢
  generalize getPeerScope p r = res at h1 hg hsys htr hnext hu1 hu2 hproto hsvc hok ⊢
  obtain ⟨q, r1⟩ := res
  dsimp only at h1 hg hsys htr hnext hu1 hu2 hproto hsvc hok ⊢
  obtain ⟨hqlt, hqk, hqd⟩ := h1.peer_ok p q (mapGet_mem hg)
  have hTS : r1.transient ≠ r1.system := by
    intro h2
    have := h1.transient_kind
    rw [h2, h1.system_kind] at this
    cases this
  have hqT : q ≠ r1.transient := by
    rintro rfl
    rw [h1.transient_kind] at hqk
    cases hqk
  have hqS : q ≠ r1.system := by
    rintro rfl
    rw [h1.system_kind] at hqk
    cases hqk
  have hTlt := h1.transient_lt
  have hSlt := h1.system_lt
  have hxq : r1.next ≠ q := Nat.ne_of_gt hqlt
  have hxT : r1.next ≠ r1.transient := Nat.ne_of_gt hTlt
  have hxS : r1.next ≠ r1.system := Nat.ne_of_gt hSlt
  -- the state in which `AddStream` runs
  have hs3 : ∀ r3, r3 = DecRef q (newStreamScope dir (r1.limits.GetStreamLimits p) q
      (r1.logCall (LimiterCall.GetStreamLimits p))).2 →
      r3.constraints r1.next = [q, r1.transient, r1.system] ∧
      r3.used = Function.update r1.used r1.next 0 ∧ r3.next = r1.next + 1 ∧
      r3.kind r1.next = ScopeKind.streamScope dir ∧ r3.done r1.next = false ∧
      r3.s_peer r1.next = some q ∧ r3.s_proto r1.next = none ∧ r3.s_svc r1.next = none ∧
      r3.system = r1.system ∧ r3.transient = r1.transient ∧ r3.peer = r1.peer ∧
      r3.proto = r1.proto ∧ r3.svc = r1.svc := by
    rintro r3 rfl
    simp [newStreamScope, newResourceScope, incRefAll, IncRef, DecRef, resourceManager.logCall]
  have hfst : (newStreamScope dir (r1.limits.GetStreamLimits p) q
      (r1.logCall (LimiterCall.GetStreamLimits p))).1 = r1.next := by
    simp [newStreamScope, newResourceScope, incRefAll, IncRef, resourceManager.logCall]
  generalize newStreamScope dir (r1.limits.GetStreamLimits p) q
      (r1.logCall (LimiterCall.GetStreamLimits p)) = res2 at hs3 hfst hok ⊢
  obtain ⟨x0, r2⟩ := res2
  dsimp only at hs3 hfst hok ⊢
  subst hfst
  obtain ⟨c1, c2, c3, c4, c5, c6, c7, c8, c9, c10, c11, c12, c13⟩ := hs3 _ rfl
  generalize DecRef q r2 = r3 at c1 c2 c3 c4 c5 c6 c7 c8 c9 c10 c11 c12 c13 hok ⊢
  unfold AddStream at hok ⊢
  have hs4 := sameShape_Reserve r1.next (streamDelta dir) r3
  have hnd : (r3.constraints r1.next).Nodup := by
    rw [c1]
    simp [hqT, hqS, hTS]
  have hxn : r1.next ∉ r3.constraints r1.next := by
    rw [c1]
    simp [hxq, hxT, hxS]
  have hspec := Reserve_ok_spec (d := streamDelta dir) hnd hxn
  generalize Reserve r1.next (streamDelta dir) r3 = res at hs4 hspec hok ⊢
  obtain ⟨r4, e⟩ := res
  cases e with
  | some e => simp at hok
  | none =>
    obtain ⟨hu, -, -⟩ := hspec rfl
    dsimp only at hu hs4 hok ⊢
    have hx : r1.next = x := by simpa using hok
    subst hx
    rw [c1, c2] at hu
    refine ⟨q, ?_, hnext, ?_, ?_, ?_, ?_, ?_, ?_, ?_, ?_, ?_, ?_, ?_, ?_, ?_, ?_, ?_, ?_⟩
    · rw [hs4.peer, c11]; exact hg
    · rw [hs4.next, c3]; exact Nat.lt_succ_self _
    · rw [hs4.kind]; exact c4
    · rw [hs4.done]; exact c5
    · rw [hs4.s_peer]; exact c6
    · rw [hs4.s_proto]; exact c7
    · rw [hs4.s_svc]; exact c8
    · rw [hs4.constraints, c1, htr, hsys]
    · rw [hs4.system, c9, hsys]
    · rw [hs4.transient, c10, htr]
    · rw [hu]; simp
    · rw [hu]; simp [Ne.symm hxq, hu1]
    · rw [hu, ← htr]; simp [Ne.symm hxT, hTS, Ne.symm hqT]
      exact hu2 _ (Ne.symm hqT)
    · rw [hu, ← hsys]; simp [Ne.symm hxS, Ne.symm hTS, Ne.symm hqS]
      exact hu2 _ (Ne.symm hqS)
    · intro y hy1 hy2 hy3 hy4
      rw [← htr] at hy3
      rw [← hsys] at hy4
      rw [hu]
      simp [hy1, hy2, hy3, hy4]
      exact hu2 y hy2
    · rw [hs4.proto, c12, hproto]
    · rw [hs4.svc, c13, hsvc]

/-! ## Further frame lemmas -/

/-- `Done` changes nothing but `done`, `used` and `refCnt`. -/
theorem Done_frame (x : Nat) (st : resourceManager) :
    (Done x st).peer = st.peer ∧ (Done x st).proto = st.proto ∧ (Done x st).svc = st.svc ∧
      (Done x st).system = st.system ∧ (Done x st).transient = st.transient ∧
      (Done x st).next = st.next ∧ (Done x st).kind = st.kind ∧
      (Done x st).constraints = st.constraints ∧ (Done x st).s_peer = st.s_peer ∧
      (Done x st).s_proto = st.s_proto ∧ (Done x st).s_svc = st.s_svc ∧
      (Done x st).limit = st.limit ∧ (Done x st).limits = st.limits ∧
      (Done x st).limiterLog = st.limiterLog := by
  unfold Done
  split_ifs
  · simp
  · have h := sameShape_doneConstraints (st.constraints x) (st.used x) st
    exact ⟨h.peer, h.proto, h.svc, h.system, h.transient, h.next, h.kind, h.constraints,
      h.s_peer, h.s_proto, h.s_svc, h.limit, h.limits, h.limiterLog⟩

/-- The used vector a registry reports for `k` does not change when neither
the registry nor the used vector of its scope for `k` changes. -/
theorem regUsed_congr {m : List (String × Nat)} {k : String} {r r' : resourceManager}
    (h : ∀ q, mapGet m k = some q → r'.used q = r.used q) : regUsed m k r' = regUsed m k r := by
  unfold regUsed
  cases hq : mapGet m k with
  | none => rfl
  | some q => exact h q hq

/-! ## The example states are well formed -/

theorem wf_connReserved (limits : Limiter) : WF (connReserved limits) :=
  wf_ReserveMemory (wf_OpenConnection (wf_NewResourceManager limits) _ _) 2 150

theorem wf_streamOpened (limits : Limiter) : WF (streamOpened limits) :=
  wf_OpenStream (wf_NewResourceManager limits) _ _

/-! ## The reference invariant -/

theorem countP_range_congr {P Q : Nat → Bool} (n : Nat) (h : ∀ x, x < n → Q x = P x) :
    (List.range n).countP Q = (List.range n).countP P := by
  apply List.countP_congr
  intro x hx
  rw [h x (List.mem_range.mp hx)]

theorem countP_range_succ (P : Nat → Bool) (n : Nat) :
    (List.range (n + 1)).countP P = (List.range n).countP P + (if P n then 1 else 0) := by
  rw [List.range_succ, List.countP_append]
  simp [List.countP_cons]

/-- Changing a predicate at one point changes its count over a range by that
point. -/
theorem countP_range_point {P Q : Nat → Bool} (n x0 : Nat) (hx0 : x0 < n)
    (h : ∀ x, x < n → x ≠ x0 → Q x = P x) :
    (List.range n).countP Q + (if P x0 then 1 else 0) =
      (List.range n).countP P + (if Q x0 then 1 else 0) := by
  induction n with
  | zero => omega
  | succ n ih =>
    rw [countP_range_succ, countP_range_succ]
    by_cases hx : x0 = n
    · subst hx
      have := countP_range_congr (P := P) (Q := Q) x0
        (fun x hx => h x (Nat.lt_succ_of_lt hx) (Nat.ne_of_lt hx))
      rw [this]
      omega
    · have h1 := ih (by omega) (fun x hx hne => h x (Nat.lt_succ_of_lt hx) hne)
      have h2 := h n (Nat.lt_succ_self n) (Ne.symm hx)
      rw [h2]
      omega

theorem holders_congr {r r' : resourceManager} (q : Nat) (hn : r'.next = r.next)
    (h : ∀ x, x < r.next → holds r' q x = holds r q x) : holders r' q = holders r q := by
  unfold holders
  rw [hn]
  exact countP_range_congr _ h

/-- Transfer of the reference invariant to a state with the same holders. -/
theorem RefSlack.transfer {r r' : resourceManager} {q q' : Nat} {n n' : Int}
    (h : RefSlack r q n) (hn : r'.next = r.next)
    (hk : ∀ y, y < r.next → r'.kind y = r.kind y)
    (hh : ∀ y x, x < r.next → holds r' y x = holds r y x)
    (hr : ∀ y, y < r.next → (r.kind y).isRegistered = true →
      r.refCnt y + (if y = q' then n' else 0) ≤ r'.refCnt y + (if y = q then n else 0)) :
    RefSlack r' q' n' := by
  intro y hy hky
  rw [hn] at hy
  rw [hk y hy] at hky
  have h1 := h y hy hky
  have h2 := hr y hy hky
  rw [holders_congr y hn (hh y)]
  omega

theorem holds_of_shape {r r' : resourceManager} (hk : r'.kind = r.kind) (hd : r'.done = r.done)
    (hc : r'.constraints = r.constraints) (q x : Nat) : holds r' q x = holds r q x := by
  simp [holds, isLive, hk, hd, hc]

theorem RefSlack.of_sameShape {r r' : resourceManager} {q : Nat} {n : Int}
    (h : RefSlack r q n) (hs : SameShape r r') (hr : r'.refCnt = r.refCnt) :
    RefSlack r' q n :=
  h.transfer hs.next (fun y _ => by rw [hs.kind])
    (fun y x _ => holds_of_shape hs.kind hs.done hs.constraints y x)
    (fun y _ _ => by rw [hr])

theorem RefSlack.incRef {r : resourceManager} {q : Nat} {n : Int} (h : RefSlack r q n) :
    RefSlack (IncRef q r) q (n + 1) := by
  refine h.transfer rfl (fun _ _ => rfl) (fun _ _ _ => rfl) ?_
  intro y _ _
  by_cases hy : y = q
  · subst hy
    simp [IncRef]
    omega
  · simp [IncRef, hy, Function.update_noteq hy]

theorem RefSlack.decRef {r : resourceManager} {q : Nat} {n : Int} (h : RefSlack r q (n + 1)) :
    RefSlack (DecRef q r) q n := by
  refine h.transfer rfl (fun _ _ => rfl) (fun _ _ _ => rfl) ?_
  intro y _ _
  by_cases hy : y = q
  · subst hy
    simp [DecRef]
  · simp [DecRef, hy, Function.update_noteq hy]

/-- Dropping a reference of a scope that is not registered (the transient
scope) does not touch the invariant. -/
theorem RefSlack.decRef_other {r : resourceManager} {q t : Nat} {n : Int}
    (h : RefSlack r q n) (ht : (r.kind t).isRegistered = false) :
    RefSlack (DecRef t r) q n := by
  refine h.transfer rfl (fun _ _ => rfl) (fun _ _ _ => rfl) ?_
  intro y _ hky
  have hy : y ≠ t := by
    rintro rfl
    rw [ht] at hky
    cases hky
  simp [DecRef, Function.update_noteq hy]

theorem RefSlack.weaken {r : resourceManager} {q t : Nat} {n : Int} (h : RefSlack r q n)
    (hn : 0 ≤ n) : RefSlack r t 0 := by
  intro y hy hky
  have := h y hy hky
  split_ifs at this <;> simp <;> omega

/-- The constraint list of a connection or stream scope: its members are
allocated, distinct from each other and from the scope itself. -/
theorem WF.constraints_facts {r : resourceManager} (h : WF r) {x : Nat} (hx : x < r.next)
    (hk : (r.kind x).isConn = true ∨ (r.kind x).isStream = true) :
    (r.constraints x).Nodup ∧ x ∉ r.constraints x ∧ ∀ c ∈ r.constraints x, c < r.next := by
  obtain ⟨hxT, hxS, hTS, -, -, -⟩ := h.conn_facts hk
  have hT := h.transient_lt
  have hS := h.system_lt
  rcases hk with hk | hk
  · have hc := h.conn_ok x hx hk
    simp only [ConnOK] at hc
    cases hp : r.s_peer x with
    | none =>
      simp only [hp] at hc
      rw [hc]
      simp [hTS, hxT, hxS, hT, hS]
    | some p =>
      simp only [hp] at hc
      obtain ⟨hc, hlt, hpk⟩ := hc
      have hpS : p ≠ r.system := by
        rintro rfl
        rw [h.system_kind] at hpk
        simp [ScopeKind.isPeer] at hpk
      have hpx : x ≠ p := by
        rintro rfl
        cases hkx : r.kind x <;> simp [hkx, ScopeKind.isPeer, ScopeKind.isConn] at hpk hk
      rw [hc]
      simp [hpS, hpx, hxS, hlt, hS]
  · obtain ⟨p, hp, hplt, hpx, hpT, hpS, -, -⟩ := h.stream_facts hx hk
    obtain ⟨p', hp', -, -, d⟩ := h.stream_ok x hx hk
    have : p' = p := Option.some.inj (hp'.symm.trans hp)
    subst this
    cases hq : r.s_proto x with
    | none =>
      cases hv : r.s_svc x with
      | none =>
        simp only [hq, hv] at d
        rw [d]
        simp [hpT, hpS, hTS, Ne.symm hpx, hxT, hxS, hplt, hT, hS]
      | some v => simp [hq, hv] at d
    | some q =>
      obtain ⟨hqlt, hqx, hqT, hqS, -, -⟩ := h.stream_proto_facts hx hk hq
      have hqk : (r.kind q).isProtocol = true ∧ (r.kind p').isPeer = true := by
        obtain ⟨p2, hp2, -, c2, d2⟩ := h.stream_ok x hx hk
        have : p2 = p' := Option.some.inj (hp2.symm.trans hp)
        subst this
        refine ⟨?_, c2⟩
        cases hv : r.s_svc x with
        | none => simp only [hq, hv] at d2; exact d2.2.2
        | some v => simp only [hq, hv] at d2; exact d2.2.2.1
      have hpq : p' ≠ q := by
        rintro rfl
        cases hkx : r.kind p' <;> simp [hkx, ScopeKind.isPeer, ScopeKind.isProtocol] at hqk
      cases hv : r.s_svc x with
      | none =>
        simp only [hq, hv] at d
        rw [d.1]
        simp [hpq, hpS, hqS, Ne.symm hpx, Ne.symm hqx, hxS, hplt, hqlt, hS]
      | some v =>
        simp only [hq, hv] at d
        obtain ⟨d1, -, -, hvlt, hvk⟩ := d
        have hvp : p' ≠ v := by
          rintro rfl
          cases hkx : r.kind p' <;> simp [hkx, ScopeKind.isPeer, ScopeKind.isService] at hqk hvk
        have hvq : q ≠ v := by
          rintro rfl
          cases hkx : r.kind q <;> simp [hkx, ScopeKind.isProtocol, ScopeKind.isService] at hqk hvk
        have hvS : v ≠ r.system := by
          rintro rfl
          rw [h.system_kind] at hvk
          simp [ScopeKind.isService] at hvk
        have hvx : x ≠ v := by
          rintro rfl
          cases hkx : r.kind x <;> simp [hkx, ScopeKind.isStream, ScopeKind.isService] at hk hvk
        rw [d1]
        simp [hpq, hvp, hpS, hvq, hqS, hvS, Ne.symm hpx, Ne.symm hqx, hvx, hxS, hplt, hqlt,
          hvlt, hS]

theorem holds_lt {r : resourceManager} (h : WF r) {q x : Nat} (hx : x < r.next)
    (hh : holds r q x = true) : q < r.next := by
  simp only [holds, isLive, Bool.and_eq_true, Bool.or_eq_true, decide_eq_true_eq] at hh
  exact (h.constraints_facts hx hh.1.1).2.2 q hh.2

theorem holders_eq_zero {r : resourceManager} (h : WF r) {q : Nat} (hq : r.next ≤ q) :
    holders r q = 0 := by
  unfold holders
  rw [List.countP_eq_zero]
  intro x hx hh
  have := holds_lt h (List.mem_range.mp hx) hh
  omega

theorem refCnt_incRefAll (cs : List Nat) (st : resourceManager) (y : Nat) :
    (incRefAll cs st).refCnt y = st.refCnt y + cs.count y := by
  induction cs generalizing st with
  | nil => simp [incRefAll]
  | cons c rest ih =>
    unfold incRefAll
    rw [ih]
    by_cases hy : y = c
    · subst hy
      simp [IncRef]
      omega
    · simp [IncRef, Function.update_noteq hy, List.count_cons, Ne.symm hy]

theorem isRegistered_not_live {k : ScopeKind} (h : k.isRegistered = true) :
    (k.isConn || k.isStream) = false := by
  cases k <;> simp [ScopeKind.isRegistered, ScopeKind.isConn, ScopeKind.isStream] at h ⊢

/-- Allocation keeps the reference invariant (stated on the fields of the
new state): a new connection or stream hangs on exactly the scopes of its
constraint list, each of which received a reference; a new registered scope
has no holder. -/
theorem RefSlack.alloc_aux {st r' : resourceManager} (hwf : WF st) {q : Nat} {n : Int}
    (h : RefSlack st q n) (hq : q < st.next ∨ n = 0) (kind : ScopeKind) (cs : List Nat)
    (hnext : r'.next = st.next + 1)
    (hkind : r'.kind = Function.update st.kind st.next kind)
    (hdone : r'.done = Function.update st.done st.next false)
    (hcs : r'.constraints = Function.update st.constraints st.next cs)
    (hrefs : ∀ y, y ≠ st.next → r'.refCnt y = st.refCnt y + cs.count y)
    (hnew : r'.refCnt st.next = 0) : RefSlack r' q n := by
  intro y hy hky
  rw [hnext] at hy
  have hold : (List.range st.next).countP (holds r' y) =
      (List.range st.next).countP (holds st y) := by
    apply countP_range_congr
    intro x hx
    have hne : x ≠ st.next := Nat.ne_of_lt hx
    simp [holds, isLive, hkind, hdone, hcs, Function.update_noteq hne]
  have hcount : holders r' y = holders st y + (if holds r' y st.next = true then 1 else 0) := by
    unfold holders
    rw [hnext, countP_range_succ, hold]
  by_cases hyn : y = st.next
  · subst hyn
    have h0 : holders st st.next = 0 := holders_eq_zero hwf (Nat.le_refl _)
    have hq' : (if st.next = q then n else 0) = 0 := by
      rcases hq with hq | hq
      · have : st.next ≠ q := Nat.ne_of_gt hq
        simp [this]
      · simp [hq]
    have hkk : kind.isRegistered = true := by
      rw [hkind] at hky
      simpa using hky
    have hnl : holds r' st.next st.next = false := by
      simp [holds, isLive, hkind, isRegistered_not_live hkk]
    rw [hq', hnew, hcount, h0, hnl]
    simp
  · have hylt : y < st.next := by omega
    rw [hkind, Function.update_noteq hyn] at hky
    have h1 := h y hylt hky
    rw [hrefs y hyn, hcount]
    have h2 : (if holds r' y st.next = true then 1 else 0) ≤ cs.count y := by
      by_cases hh : holds r' y st.next = true
      · simp only [hh, if_true]
        have hm : y ∈ cs := by
          simp only [holds, hcs, Function.update_same, Bool.and_eq_true,
            decide_eq_true_eq] at hh
          exact hh.2
        exact List.count_pos_iff.mpr hm
      · simp [hh]
    omega

theorem RefSlack.alloc {st : resourceManager} (hwf : WF st) {q : Nat} {n : Int}
    (h : RefSlack st q n) (hq : q < st.next ∨ n = 0) (kind : ScopeKind) (limit : Limit)
    (cs : List Nat) (peer : Option Nat) :
    RefSlack (newResourceScope kind limit cs peer st).2 q n := by
  have hs := sameShape_incRefAll cs st
  have hr := refCnt_incRefAll cs st
  refine RefSlack.alloc_aux hwf h hq kind cs ?_ ?_ ?_ ?_ ?_ ?_
  · simp [newResourceScope, hs.next]
  · simp [newResourceScope, hs.next, hs.kind]
  · simp [newResourceScope, hs.next, hs.done]
  · simp [newResourceScope, hs.next, hs.constraints]
  · intro y hy
    simp [newResourceScope, hs.next, Function.update_noteq hy, hr]
  · simp [newResourceScope, hs.next]

/-- Replacing the constraint list of `c`: the only registered scope that may
gain a holder is `q`, which has a reference to spare. -/
theorem RefSlack.setConstraints {r : resourceManager} {q : Nat} {n : Int}
    (h : RefSlack r q (n + 1)) {c : Nat} (hc : c < r.next) (cs' : List Nat)
    (hnew : ∀ y, y ∈ cs' → (r.kind y).isRegistered = true → y = q ∨ y ∈ r.constraints c) :
    RefSlack { r with constraints := Function.update r.constraints c cs' } q n := by
  intro y hy hky
  have h1 := h y hy hky
  have hcount := countP_range_point (P := holds r y)
    (Q := holds { r with constraints := Function.update r.constraints c cs' } y) r.next c hc
    (by
      intro x _ hne
      simp [holds, isLive, Function.update_noteq hne])
  unfold holders at h1 ⊢
  show ((List.range r.next).countP
    (holds { r with constraints := Function.update r.constraints c cs' } y) : Int) + _ ≤ _
  generalize (List.range r.next).countP
    (holds { r with constraints := Function.update r.constraints c cs' } y) = A at hcount ⊢
  generalize (List.range r.next).countP (holds r y) = B at hcount h1
  have himp : y ≠ q →
      holds { r with constraints := Function.update r.constraints c cs' } y c = true →
      holds r y c = true := by
    intro hyq hh
    simp only [holds, isLive, Function.update_same, Bool.and_eq_true,
      decide_eq_true_eq] at hh ⊢
    refine ⟨hh.1, ?_⟩
    rcases hnew y hh.2 hky with h2 | h2
    · exact absurd h2 hyq
    · exact h2
  show (A : Int) + (if y = q then n else 0) ≤ r.refCnt y
  by_cases hyq : y = q
  · simp only [hyq, if_true] at h1 ⊢
    split_ifs at hcount <;> omega
  · simp only [hyq, if_false] at h1 ⊢
    by_cases hh : holds { r with constraints := Function.update r.constraints c cs' } y c = true
    · simp only [hh, himp hyq hh, if_true] at hcount
      omega
    · simp only [hh, Bool.false_eq_true, if_false, Nat.add_zero] at hcount
      by_cases h0 : holds r y c = true
      · simp only [h0, if_true] at hcount
        omega
      · simp only [h0, Bool.false_eq_true, if_false, Nat.add_zero] at hcount
        omega

/-- `Done` on a connection or stream drops the scope from the holders of each
of its parents together with the reference it held. -/
theorem RefSlack.afterDone {r : resourceManager} (hwf : WF r) {q : Nat} {n : Int}
    (h : RefSlack r q n) {x : Nat} (hx : x < r.next)
    (hk : (r.kind x).isConn = true ∨ (r.kind x).isStream = true) :
    RefSlack (Done x r) q n := by
  by_cases hd : r.done x = true
  · have : Done x r = r := by simp [Done, hd]
    rw [this]
    exact h
  · simp only [Bool.not_eq_true] at hd
    obtain ⟨hnd, hxn, -⟩ := hwf.constraints_facts hx hk
    obtain ⟨-, hr, hdone⟩ := Done_spec hd hnd hxn
    obtain ⟨-, -, -, -, -, fnext, fkind, fcs, -⟩ := Done_frame x r
    intro y hy hky
    rw [fnext] at hy
    rw [fkind] at hky
    have h1 := h y hy hky
    have hp := countP_range_point (P := holds r y) (Q := holds (Done x r) y) r.next x hx
      (by
        intro z _ hne
        simp [holds, isLive, fkind, fcs, hdone, Function.update_noteq hne])
    have hcount : holders (Done x r) y + (if holds r y x = true then 1 else 0) =
        holders r y + (if holds (Done x r) y x = true then 1 else 0) := by
      unfold holders
      rw [fnext]
      exact hp
    have hafter : holds (Done x r) y x = false := by
      simp [holds, isLive, hdone]
    have hbefore : holds r y x = decide (y ∈ r.constraints x) := by
      have : ((r.kind x).isConn || (r.kind x).isStream) = true := by
        rcases hk with hk | hk <;> simp [hk]
      simp [holds, isLive, hd, this]
    rw [hr y]
    rw [hafter, hbefore] at hcount
    by_cases hm : y ∈ r.constraints x
    · simp only [hm, decide_True, if_true, Bool.false_eq_true, if_false] at hcount ⊢
      omega
    · simp only [hm, decide_False, Bool.false_eq_true, if_false] at hcount ⊢
      omega

/-- A reclaimer pass keeps the reference invariant: it marks only registered
scopes done and changes the reference count of the system scope only. -/
theorem RefSlack.gcPass {r : resourceManager} (hwf : WF r) {q : Nat} {n : Int}
    (h : RefSlack r q n) : RefSlack (gc r) q n := by
  obtain ⟨-, -, -, -, -, hdone, hrefs, -, -, hnext, hkind, hcs, -⟩ := gc_spec hwf
  refine h.transfer hnext (fun y _ => by rw [hkind]) ?_ ?_
  · intro y x _
    have hdx : ((r.kind x).isConn || (r.kind x).isStream) = true → (gc r).done x = r.done x := by
      intro hk
      rw [hdone]
      have : (r.proto ++ r.peer).any (fun e => decide (e.2 = x) && IsUnused x r) = false := by
        rw [List.any_eq_false]
        intro e he
        have hne : e.2 ≠ x := by
          rintro rfl
          rcases List.mem_append.mp he with he | he
          · rw [(hwf.proto_ok e.1 e.2 he).2.1] at hk
            simp [ScopeKind.isConn, ScopeKind.isStream] at hk
          · rw [(hwf.peer_ok e.1 e.2 he).2.1] at hk
            simp [ScopeKind.isConn, ScopeKind.isStream] at hk
        simp [hne]
      rw [this, Bool.or_false]
    simp only [holds, isLive, hkind, hcs]
    by_cases hk : ((r.kind x).isConn || (r.kind x).isStream) = true
    · rw [hdx hk]
    · simp only [Bool.not_eq_true] at hk
      simp [hk]
  · intro y _ hky
    have : y ≠ r.system := by
      rintro rfl
      rw [hwf.system_kind] at hky
      cases hky
    rw [hrefs y this]

/-- Moving a cross-link of a scope does not touch the reference invariant. -/
theorem RefSlack.of_fields {r r' : resourceManager} {q : Nat} {n : Int} (h : RefSlack r q n)
    (hn : r'.next = r.next) (hk : r'.kind = r.kind) (hd : r'.done = r.done)
    (hc : r'.constraints = r.constraints) (hr : r'.refCnt = r.refCnt) : RefSlack r' q n :=
  h.transfer hn (fun y _ => by rw [hk]) (fun y x _ => holds_of_shape hk hd hc y x)
    (fun y _ _ => by rw [hr])

theorem refSlack_getPeerScope {r : resourceManager} (hwf : WF r) {q0 : Nat}
    (h : RefSlack r q0 0) (p : String) :
    RefSlack (getPeerScope p r).2 (getPeerScope p r).1 1 := by
  unfold getPeerScope
  cases hq : mapGet r.peer p with
  | some s => exact (h.weaken (t := s) (le_refl _)).incRef
  | none =>
    dsimp only
    have h0 : RefSlack (r.logCall (LimiterCall.GetPeerLimits p)) q0 0 :=
      h.of_fields rfl rfl rfl rfl rfl
    have h1 := RefSlack.alloc (wf_logCall hwf (LimiterCall.GetPeerLimits p)) h0 (Or.inr rfl)
      (ScopeKind.peerScope p) (r.limits.GetPeerLimits p)
      [(r.logCall (LimiterCall.GetPeerLimits p)).system] none
    simp only [newPeerScope]
    generalize newResourceScope (ScopeKind.peerScope p) (r.limits.GetPeerLimits p)
      [(r.logCall (LimiterCall.GetPeerLimits p)).system]
      none (r.logCall (LimiterCall.GetPeerLimits p)) = res at h1 ⊢
    obtain ⟨s, r1⟩ := res
    dsimp only at h1 ⊢
    have h2 : RefSlack { r1 with peer := mapSet r1.peer p s } s 0 :=
      (h1.weaken (t := s) (le_refl _)).of_fields rfl rfl rfl rfl rfl
    exact h2.incRef

theorem refSlack_getProtocolScope {r : resourceManager} (hwf : WF r) {q0 : Nat}
    (h : RefSlack r q0 0) (p : String) :
    RefSlack (getProtocolScope p r).2 (getProtocolScope p r).1 1 := by
  unfold getProtocolScope
  cases hq : mapGet r.proto p with
  | some s => exact (h.weaken (t := s) (le_refl _)).incRef
  | none =>
    dsimp only
    have h0 : RefSlack (r.logCall (LimiterCall.GetProtocolLimits p)) q0 0 :=
      h.of_fields rfl rfl rfl rfl rfl
    have h1 := RefSlack.alloc (wf_logCall hwf (LimiterCall.GetProtocolLimits p)) h0 (Or.inr rfl)
      (ScopeKind.protocolScope p) (r.limits.GetProtocolLimits p) [r.system] none
    simp only [newProtocolScope]
    generalize newResourceScope (ScopeKind.protocolScope p) (r.limits.GetProtocolLimits p)
      [r.system] none (r.logCall (LimiterCall.GetProtocolLimits p)) = res at h1 ⊢
    obtain ⟨s, r1⟩ := res
    dsimp only at h1 ⊢
    have h2 : RefSlack { r1 with proto := mapSet r1.proto p s } s 0 :=
      (h1.weaken (t := s) (le_refl _)).of_fields rfl rfl rfl rfl rfl
    exact h2.incRef

theorem refSlack_getServiceScope {r : resourceManager} (hwf : WF r) {q0 : Nat}
    (h : RefSlack r q0 0) (p : String) :
    RefSlack (getServiceScope p r).2 (getServiceScope p r).1 1 := by
  unfold getServiceScope
  cases hq : mapGet r.svc p with
  | some s => exact (h.weaken (t := s) (le_refl _)).incRef
  | none =>
    dsimp only
    have h0 : RefSlack (r.logCall (LimiterCall.GetServiceLimits p)) q0 0 :=
      h.of_fields rfl rfl rfl rfl rfl
    have h1 := RefSlack.alloc (wf_logCall hwf (LimiterCall.GetServiceLimits p)) h0 (Or.inr rfl)
      (ScopeKind.serviceScope p) (r.limits.GetServiceLimits p) [r.system] none
    simp only [newServiceScope]
    generalize newResourceScope (ScopeKind.serviceScope p) (r.limits.GetServiceLimits p)
      [r.system] none (r.logCall (LimiterCall.GetServiceLimits p)) = res at h1 ⊢
    obtain ⟨s, r1⟩ := res
    dsimp only at h1 ⊢
    have h2 : RefSlack { r1 with svc := mapSet r1.svc p s } s 0 :=
      (h1.weaken (t := s) (le_refl _)).of_fields rfl rfl rfl rfl rfl
    exact h2.incRef

theorem refSlack_NewResourceManager (limits : Limiter) (q : Nat) :
    RefSlack (NewResourceManager limits) q 0 := by
  intro y hy hky
  have hy' : y < 2 := by
    simpa [NewResourceManager, emptyManager, newSystemScope, newTransientScope,
      newResourceScope, incRefAll, IncRef, resourceManager.logCall] using hy
  have : y = 0 ∨ y = 1 := by omega
  rcases this with rfl | rfl <;>
    simp [NewResourceManager, emptyManager, newSystemScope, newTransientScope,
      newResourceScope, incRefAll, IncRef, resourceManager.logCall, Function.update_apply,
      ScopeKind.isRegistered] at hky

theorem refSlack_OpenConnection {r : resourceManager} (hwf : WF r) {q : Nat}
    (h : RefSlack r q 0) (dir : Direction) (usefd : Bool) :
    RefSlack (OpenConnection dir usefd r).1 q 0 := by
  unfold OpenConnection
  simp only [newConnectionScope]
  have h0 : RefSlack (r.logCall LimiterCall.GetConnLimits) q 0 := h.of_fields rfl rfl rfl rfl rfl
  have hw0 := wf_logCall hwf LimiterCall.GetConnLimits
  have h1 := RefSlack.alloc hw0 h0 (Or.inr rfl) (ScopeKind.connectionScope dir usefd)
    r.limits.GetConnLimits [r.transient, r.system] none
  have hw1 := wf_newResourceScope hw0 (ScopeKind.connectionScope dir usefd)
    r.limits.GetConnLimits [r.transient, r.system] none
    (by simp [ScopeKind.isShared]) (fun _ => ⟨rfl, rfl⟩) (by simp [ScopeKind.isStream])
  have hk := newResourceScope_kind (ScopeKind.connectionScope dir usefd) r.limits.GetConnLimits
    [r.transient, r.system] none (r.logCall LimiterCall.GetConnLimits)
  have hlt : (newResourceScope (ScopeKind.connectionScope dir usefd) r.limits.GetConnLimits
    [r.transient, r.system] none (r.logCall LimiterCall.GetConnLimits)).1 <
    (newResourceScope (ScopeKind.connectionScope dir usefd) r.limits.GetConnLimits
    [r.transient, r.system] none (r.logCall LimiterCall.GetConnLimits)).2.next := by
    simp [newResourceScope]
  simp only [resourceManager.logCall] at h1 hw1 hk hlt ⊢
  generalize newResourceScope (ScopeKind.connectionScope dir usefd) r.limits.GetConnLimits
    [r.transient, r.system] none _ = res at h1 hw1 hk hlt ⊢
  obtain ⟨conn, r1⟩ := res
  dsimp only at h1 hw1 hk hlt ⊢
  have hs2 := sameShape_Reserve conn (connDelta dir usefd) r1
  have hr2 := refCnt_Reserve conn (connDelta dir usefd) r1
  unfold AddConn
  generalize Reserve conn (connDelta dir usefd) r1 = res2 at hs2 hr2 ⊢
  obtain ⟨r2, e⟩ := res2
  dsimp only at hs2 hr2
  have h2 : RefSlack r2 q 0 := h1.of_sameShape hs2 hr2
  cases e with
  | none => exact h2
  | some e =>
    refine h2.afterDone (hs2.wf hw1) (by rw [hs2.next]; exact hlt) (Or.inl ?_)
    rw [hs2.kind, hk]
    rfl

theorem refSlack_OpenStream {r : resourceManager} (hwf : WF r) {q0 : Nat}
    (h : RefSlack r q0 0) (p : String) (dir : Direction) :
    RefSlack (OpenStream p dir r).1 q0 0 := by
  unfold OpenStream
  obtain ⟨hw1, hg, -⟩ := getPeerScope_spec hwf p
  have h1 := refSlack_getPeerScope hwf h p
  generalize getPeerScope p r = res at hw1 hg h1 ⊢
  obtain ⟨q, r1⟩ := res
  dsimp only at hw1 hg h1 ⊢
  obtain ⟨hqlt, hqk, -⟩ := hw1.peer_ok p q (mapGet_mem hg)
  simp only [newStreamScope]
  have hw0 := wf_logCall hw1 (LimiterCall.GetStreamLimits p)
  have h0 : RefSlack (r1.logCall (LimiterCall.GetStreamLimits p)) q 1 :=
    h1.of_fields rfl rfl rfl rfl rfl
  have h2 := RefSlack.alloc hw0 h0 (Or.inl hqlt) (ScopeKind.streamScope dir)
    (r1.limits.GetStreamLimits p) [q, r1.transient, r1.system] (some q)
  have hw2 := wf_newResourceScope hw0 (ScopeKind.streamScope dir)
    (r1.limits.GetStreamLimits p) [q, r1.transient, r1.system] (some q)
    (by simp [ScopeKind.isShared]) (by simp [ScopeKind.isConn])
    (fun _ => ⟨q, rfl, hqlt, by simp [resourceManager.logCall, hqk, ScopeKind.isPeer], rfl⟩)
  have hk := newResourceScope_kind (ScopeKind.streamScope dir) (r1.limits.GetStreamLimits p)
    [q, r1.transient, r1.system] (some q) (r1.logCall (LimiterCall.GetStreamLimits p))
  have hlt : (newResourceScope (ScopeKind.streamScope dir) (r1.limits.GetStreamLimits p)
    [q, r1.transient, r1.system] (some q) (r1.logCall (LimiterCall.GetStreamLimits p))).1 <
    (newResourceScope (ScopeKind.streamScope dir) (r1.limits.GetStreamLimits p)
    [q, r1.transient, r1.system] (some q) (r1.logCall (LimiterCall.GetStreamLimits p))).2.next := by
    simp [newResourceScope]
  simp only [resourceManager.logCall] at h2 hw2 hk hlt ⊢
  generalize newResourceScope (ScopeKind.streamScope dir) (r1.limits.GetStreamLimits p)
    [q, r1.transient, r1.system] (some q) _ = res at h2 hw2 hk hlt ⊢
  obtain ⟨stream, r2⟩ := res
  dsimp only at h2 hw2 hk hlt ⊢
  have h3 : RefSlack (DecRef q r2) q 0 := RefSlack.decRef (by simpa using h2)
  have hw3 : WF (DecRef q r2) := (sameShape_DecRef q r2).wf hw2
  have hk3 : (DecRef q r2).kind stream = ScopeKind.streamScope dir := hk
  have hlt3 : stream < (DecRef q r2).next := hlt
  generalize DecRef q r2 = r3 at h3 hw3 hk3 hlt3 ⊢
  have hs4 := sameShape_Reserve stream (streamDelta dir) r3
  have hr4 := refCnt_Reserve stream (streamDelta dir) r3
  unfold AddStream
  generalize Reserve stream (streamDelta dir) r3 = res2 at hs4 hr4 ⊢
  obtain ⟨r4, e⟩ := res2
  dsimp only at hs4 hr4
  have h4 : RefSlack r4 q 0 := h3.of_sameShape hs4 hr4
  cases e with
  | none => exact h4.weaken (le_refl _)
  | some e =>
    refine (h4.afterDone (hs4.wf hw3) (by rw [hs4.next]; exact hlt3) (Or.inr ?_)).weaken
      (le_refl _)
    rw [hs4.kind, hk3]
    rfl

theorem refSlack_SetPeer {r : resourceManager} (hwf : WF r) {q0 : Nat}
    (h : RefSlack r q0 0) {s : Nat} (hs : s < r.next) (p : String) :
    RefSlack (SetPeer s p r).1 q0 0 := by
  unfold SetPeer
  split_ifs with hnp
  · exact h
  · obtain ⟨hw1, hg, -⟩ := getPeerScope_spec hwf p
    have h1 := refSlack_getPeerScope hwf h p
    have he := extends_getPeerScope p r
    generalize getPeerScope p r = res at hw1 hg h1 he ⊢
    obtain ⟨q, r1⟩ := res
    dsimp only at hw1 hg h1 he ⊢
    have h2 : RefSlack { r1 with s_peer := Function.update r1.s_peer s (some q) } q 1 :=
      h1.of_fields rfl rfl rfl rfl rfl
    have hs3 := sameShape_ReserveForChild q
      (stat s { r1 with s_peer := Function.update r1.s_peer s (some q) })
      { r1 with s_peer := Function.update r1.s_peer s (some q) }
    have hr3 := refCnt_ReserveForChild q
      (stat s { r1 with s_peer := Function.update r1.s_peer s (some q) })
      { r1 with s_peer := Function.update r1.s_peer s (some q) }
    generalize ReserveForChild q
      (stat s { r1 with s_peer := Function.update r1.s_peer s (some q) })
      { r1 with s_peer := Function.update r1.s_peer s (some q) } = res3 at hs3 hr3 ⊢
    obtain ⟨r3, e⟩ := res3
    dsimp only at hs3 hr3
    have h3 : RefSlack r3 q 1 := h2.of_sameShape hs3 hr3
    cases e with
    | some e =>
      dsimp only
      have h4 : RefSlack (DecRef q r3) q 0 := RefSlack.decRef (by simpa using h3)
      exact (h4.weaken (le_refl _)).of_fields rfl rfl rfl rfl rfl
    | none =>
      dsimp only
      generalize stat s { r1 with s_peer := Function.update r1.s_peer s (some q) } = st
      have hs4 := sameShape_ReleaseForChild r3.transient st r3
      have hr4 := refCnt_ReleaseForChild r3.transient st r3
      have h4 : RefSlack (ReleaseForChild r3.transient st r3) q 1 := h3.of_sameShape hs4 hr4
      have hs34 := hs3.trans hs4
      generalize ReleaseForChild r3.transient st r3 = r4 at h4 hs34 ⊢
      have hkT : (r4.kind r4.transient).isRegistered = false := by
        rw [hs34.kind, hs34.transient]
        show (r1.kind r1.transient).isRegistered = false
        rw [hw1.transient_kind]
        rfl
      have h5 := h4.decRef_other hkT
      have hs5 := hs34.trans (sameShape_DecRef r4.transient r4)
      generalize DecRef r4.transient r4 = r5 at h5 hs5 ⊢
      have hs5lt : s < r5.next := by
        rw [hs5.next]
        exact Nat.lt_of_lt_of_le hs he.next
      refine (RefSlack.setConstraints (n := 0) (by simpa using h5) hs5lt [q, r5.system] ?_).weaken
        (le_refl _)
      intro y hy hky
      simp only [List.mem_cons, List.mem_singleton, List.not_mem_nil, or_false] at hy
      rcases hy with rfl | rfl
      · exact Or.inl rfl
      · rw [hs5.kind, hs5.system] at hky
        have : (r1.kind r1.system).isRegistered = true := hky
        rw [hw1.system_kind] at this
        cases this

theorem refSlack_SetProtocol {r : resourceManager} (hwf : WF r) {q0 : Nat}
    (h : RefSlack r q0 0) {s : Nat} (hs : s < r.next) (hk : (r.kind s).isStream = true)
    (proto : String) : RefSlack (SetProtocol s proto r).1 q0 0 := by
  unfold SetProtocol
  split_ifs with hnp
  · exact h
  · obtain ⟨hw1, hg, -⟩ := getProtocolScope_spec hwf proto
    have h1 := refSlack_getProtocolScope hwf h proto
    have he := extends_getProtocolScope proto r
    generalize getProtocolScope proto r = res at hw1 hg h1 he ⊢
    obtain ⟨q, r1⟩ := res
    dsimp only at hw1 hg h1 he ⊢
    have hk1 : (r1.kind s).isStream = true := by rw [he.kind s hs]; exact hk
    have hs1 : s < r1.next := Nat.lt_of_lt_of_le hs he.next
    obtain ⟨pr, hpr, -, -, hrest⟩ := hw1.stream_ok s hs1 hk1
    have hmem : pr ∈ r1.constraints s := by
      cases hq : r1.s_proto s with
      | none =>
        cases hv : r1.s_svc s with
        | none => simp only [hq, hv] at hrest; rw [hrest]; simp
        | some v => simp [hq, hv] at hrest
      | some q' =>
        cases hv : r1.s_svc s with
        | none => simp only [hq, hv] at hrest; rw [hrest.1]; simp
        | some v => simp only [hq, hv] at hrest; rw [hrest.1]; simp
    have h2 : RefSlack { r1 with s_proto := Function.update r1.s_proto s (some q) } q 1 :=
      h1.of_fields rfl rfl rfl rfl rfl
    have hs3 := sameShape_ReserveForChild q
      (stat s { r1 with s_proto := Function.update r1.s_proto s (some q) })
      { r1 with s_proto := Function.update r1.s_proto s (some q) }
    have hr3 := refCnt_ReserveForChild q
      (stat s { r1 with s_proto := Function.update r1.s_proto s (some q) })
      { r1 with s_proto := Function.update r1.s_proto s (some q) }
    generalize ReserveForChild q
      (stat s { r1 with s_proto := Function.update r1.s_proto s (some q) })
      { r1 with s_proto := Function.update r1.s_proto s (some q) } = res3 at hs3 hr3 ⊢
    obtain ⟨r3, e⟩ := res3
    dsimp only at hs3 hr3
    have h3 : RefSlack r3 q 1 := h2.of_sameShape hs3 hr3
    cases e with
    | some e =>
      dsimp only
      have h4 : RefSlack (DecRef q r3) q 0 := RefSlack.decRef (by simpa using h3)
      exact (h4.weaken (le_refl _)).of_fields rfl rfl rfl rfl rfl
    | none =>
      dsimp only
      generalize stat s { r1 with s_proto := Function.update r1.s_proto s (some q) } = st
      have hs4 := sameShape_ReleaseForChild r3.transient st r3
      have hr4 := refCnt_ReleaseForChild r3.transient st r3
      have h4 : RefSlack (ReleaseForChild r3.transient st r3) q 1 := h3.of_sameShape hs4 hr4
      have hs34 := hs3.trans hs4
      generalize ReleaseForChild r3.transient st r3 = r4 at h4 hs34 ⊢
      have hkT : (r4.kind r4.transient).isRegistered = false := by
        rw [hs34.kind, hs34.transient]
        show (r1.kind r1.transient).isRegistered = false
        rw [hw1.transient_kind]
        rfl
      have h5 := h4.decRef_other hkT
      have hs5 := hs34.trans (sameShape_DecRef r4.transient r4)
      generalize DecRef r4.transient r4 = r5 at h5 hs5 ⊢
      have hs5lt : s < r5.next := by rw [hs5.next]; exact hs1
      have hp5 : r5.s_peer s = some pr := by rw [hs5.s_peer]; exact hpr
      rw [hp5]
      dsimp only
      refine (RefSlack.setConstraints (n := 0) (by simpa using h5) hs5lt [pr, q, r5.system]
        ?_).weaken (le_refl _)
      intro y hy hky
      simp only [List.mem_cons, List.mem_singleton, List.not_mem_nil, or_false] at hy
      rcases hy with rfl | rfl | rfl
      · right
        rw [hs5.constraints]
        exact hmem
      · exact Or.inl rfl
      · rw [hs5.kind, hs5.system] at hky
        have : (r1.kind r1.system).isRegistered = true := hky
        rw [hw1.system_kind] at this
        cases this

theorem refSlack_SetService {r : resourceManager} (hwf : WF r) {q0 : Nat}
    (h : RefSlack r q0 0) {s : Nat} (hs : s < r.next) (hk : (r.kind s).isStream = true)
    (svc : String) : RefSlack (SetService s svc r).1 q0 0 := by
  unfold SetService
  split_ifs with hnq hnv
  · exact h
  · exact h
  · obtain ⟨hw1, hg, -⟩ := getServiceScope_spec hwf svc
    have h1 := refSlack_getServiceScope hwf h svc
    have he := extends_getServiceScope svc r
    generalize getServiceScope svc r = res at hw1 hg h1 he ⊢
    obtain ⟨q, r1⟩ := res
    dsimp only at hw1 hg h1 he ⊢
    have hk1 : (r1.kind s).isStream = true := by rw [he.kind s hs]; exact hk
    have hs1 : s < r1.next := Nat.lt_of_lt_of_le hs he.next
    obtain ⟨pr, hpr, -, -, hrest⟩ := hw1.stream_ok s hs1 hk1
    obtain ⟨qp, hqp⟩ : ∃ qp, r1.s_proto s = some qp := by
      rw [he.s_proto s hs]
      exact Option.ne_none_iff_exists'.mp hnq
    have hmem : pr ∈ r1.constraints s ∧ qp ∈ r1.constraints s := by
      cases hv : r1.s_svc s with
      | none => simp only [hqp, hv] at hrest; rw [hrest.1]; simp
      | some v => simp only [hqp, hv] at hrest; rw [hrest.1]; simp
    have h2 : RefSlack { r1 with s_svc := Function.update r1.s_svc s (some q) } q 1 :=
      h1.of_fields rfl rfl rfl rfl rfl
    have hs3 := sameShape_ReserveForChild q
      (stat s { r1 with s_svc := Function.update r1.s_svc s (some q) })
      { r1 with s_svc := Function.update r1.s_svc s (some q) }
    have hr3 := refCnt_ReserveForChild q
      (stat s { r1 with s_svc := Function.update r1.s_svc s (some q) })
      { r1 with s_svc := Function.update r1.s_svc s (some q) }
    generalize ReserveForChild q
      (stat s { r1 with s_svc := Function.update r1.s_svc s (some q) })
      { r1 with s_svc := Function.update r1.s_svc s (some q) } = res3 at hs3 hr3 ⊢
    obtain ⟨r3, e⟩ := res3
    dsimp only at hs3 hr3
    have h3 : RefSlack r3 q 1 := h2.of_sameShape hs3 hr3
    cases e with
    | some e =>
      dsimp only
      have h4 : RefSlack (DecRef q r3) q 0 := RefSlack.decRef (by simpa using h3)
      exact (h4.weaken (le_refl _)).of_fields rfl rfl rfl rfl rfl
    | none =>
      dsimp only
      have hs3lt : s < r3.next := by rw [hs3.next]; exact hs1
      have hp3 : r3.s_peer s = some pr := by rw [hs3.s_peer]; exact hpr
      have hq3 : r3.s_proto s = some qp := by rw [hs3.s_proto]; exact hqp
      rw [hp3, hq3]
      dsimp only
      refine (RefSlack.setConstraints (n := 0) (by simpa using h3) hs3lt
        [pr, qp, q, r3.system] ?_).weaken (le_refl _)
      intro y hy hky
      simp only [List.mem_cons, List.mem_singleton, List.not_mem_nil, or_false] at hy
      rcases hy with rfl | rfl | rfl | rfl
      · right
        rw [hs3.constraints]
        exact hmem.1
      · right
        rw [hs3.constraints]
        exact hmem.2
      · exact Or.inl rfl
      · rw [hs3.kind, hs3.system] at hky
        have : (r1.kind r1.system).isRegistered = true := hky
        rw [hw1.system_kind] at this
        cases this

theorem refSlack_ViewPeer {r : resourceManager} (hwf : WF r) {q0 : Nat} (h : RefSlack r q0 0)
    (p : String) (ops : List MemOp) (res : Option Error) :
    RefSlack (ViewPeer p (memCallback ops res) r).1 q0 0 := by
  unfold ViewPeer memCallback
  have h1 := refSlack_getPeerScope hwf h p
  have h2 := h1.of_sameShape (sameShape_runMemOps ops (getPeerScope p r).1 _)
    (refCnt_runMemOps ops _ _)
  exact (RefSlack.decRef (n := 0) (by simpa using h2)).weaken (le_refl _)

theorem refSlack_ViewProtocol {r : resourceManager} (hwf : WF r) {q0 : Nat}
    (h : RefSlack r q0 0) (p : String) (ops : List MemOp) (res : Option Error) :
    RefSlack (ViewProtocol p (memCallback ops res) r).1 q0 0 := by
  unfold ViewProtocol memCallback
  have h1 := refSlack_getProtocolScope hwf h p
  have h2 := h1.of_sameShape (sameShape_runMemOps ops (getProtocolScope p r).1 _)
    (refCnt_runMemOps ops _ _)
  exact (RefSlack.decRef (n := 0) (by simpa using h2)).weaken (le_refl _)

theorem refSlack_ViewService {r : resourceManager} (hwf : WF r) {q0 : Nat}
    (h : RefSlack r q0 0) (p : String) (ops : List MemOp) (res : Option Error) :
    RefSlack (ViewService p (memCallback ops res) r).1 q0 0 := by
  unfold ViewService memCallback
  have h1 := refSlack_getServiceScope hwf h p
  have h2 := h1.of_sameShape (sameShape_runMemOps ops (getServiceScope p r).1 _)
    (refCnt_runMemOps ops _ _)
  exact (RefSlack.decRef (n := 0) (by simpa using h2)).weaken (le_refl _)

/-- In every reachable state each registered scope has at least as many
references as live connections and streams hang on it. -/
theorem Reachable.refSlack {limits : Limiter} {r : resourceManager}
    (h : Reachable limits r) : RefSlack r 0 0 := by
  induction h with
  | init => exact refSlack_NewResourceManager limits 0
  | openConnection dir usefd hr ih => exact refSlack_OpenConnection hr.wellFormed ih dir usefd
  | openStream p dir hr ih => exact refSlack_OpenStream hr.wellFormed ih p dir
  | setPeer s p hr hs _ ih => exact refSlack_SetPeer hr.wellFormed ih hs p
  | setProtocol s proto hr hs hk ih => exact refSlack_SetProtocol hr.wellFormed ih hs hk proto
  | setService s svc hr hs hk ih => exact refSlack_SetService hr.wellFormed ih hs hk svc
  | done s hr hs hk ih => exact ih.afterDone hr.wellFormed hs hk
  | reserveMemory s n _ _ _ ih =>
    exact ih.of_sameShape (sameShape_Reserve s (memDelta n) _) (refCnt_Reserve s (memDelta n) _)
  | releaseMemory s n _ _ _ ih =>
    exact ih.of_sameShape (sameShape_Release s (memDelta n) _) (refCnt_Release s (memDelta n) _)
  | viewSystem ops res _ ih =>
    exact ih.of_sameShape (sameShape_runMemOps ops _ _) (refCnt_runMemOps ops _ _)
  | viewTransient ops res _ ih =>
    exact ih.of_sameShape (sameShape_runMemOps ops _ _) (refCnt_runMemOps ops _ _)
  | viewService srv ops res hr ih => exact refSlack_ViewService hr.wellFormed ih srv ops res
  | viewProtocol proto ops res hr ih => exact refSlack_ViewProtocol hr.wellFormed ih proto ops res
  | viewPeer p ops res hr ih => exact refSlack_ViewPeer hr.wellFormed ih p ops res
  | gc hr ih => exact ih.gcPass hr.wellFormed

/-- A registered scope in the constraint list of a live connection or stream
has a reference, hence is not unused. -/
theorem live_parent_not_unused {r : resourceManager} (hwf : WF r) (hinv : RefSlack r 0 0)
    {x q : Nat} (hx : x < r.next) (hl : isLive r x = true) (hq : q ∈ r.constraints x)
    (hk : (r.kind q).isRegistered = true) : 1 ≤ r.refCnt q ∧ IsUnused q r = false := by
  have hkx : (r.kind x).isConn = true ∨ (r.kind x).isStream = true := by
    simp only [isLive, Bool.and_eq_true, Bool.or_eq_true] at hl
    exact hl.1
  have hqlt : q < r.next := (hwf.constraints_facts hx hkx).2.2 q hq
  have hh : holds r q x = true := by
    simp [holds, hl, hq]
  have hpos : 0 < holders r q := by
    unfold holders
    exact List.countP_pos_iff.mpr ⟨x, List.mem_range.mpr hx, hh⟩
  have h1 := hinv q hqlt hk
  have h2 : 1 ≤ r.refCnt q := by
    split_ifs at h1 <;> omega
  refine ⟨h2, ?_⟩
  cases hu : IsUnused q r with
  | false => rfl
  | true =>
    have := ((IsUnused_iff q r).mp hu).1
    omega

/-! ## The scenarios are well formed -/

theorem wf_scenarioE1 : WF scenarioE1 := wf_connReserved _

theorem wf_scenarioE2 : WF scenarioE2 := wf_connReserved _

theorem wf_streamWithProtocolE3 : WF (streamWithProtocol limitsE3) :=
  wf_SetProtocol (wf_streamOpened _) (by decide) (by decide) _

theorem wf_streamWithServiceE3 : WF (streamWithService limitsE3) :=
  wf_SetService wf_streamWithProtocolE3 (by decide) (by decide) _

theorem wf_streamNoServiceRoom : WF streamNoServiceRoom :=
  wf_SetProtocol (wf_streamOpened _) (by decide) (by decide) _

theorem wf_streamClosed : WF streamClosed :=
  wf_Done wf_streamWithServiceE3 3 (Or.inr (by decide))

/-- `getPeerScope` for a key the registry has: the registered scope with one
more reference; nothing else changes. -/
theorem getPeerScope_present {r : resourceManager} {p : String} {s : Nat}
    (h : mapGet r.peer p = some s) : getPeerScope p r = (s, IncRef s r) := by
  simp [getPeerScope, h]

/-- `getPeerScope` for a key the registry lacks: the limiter is asked once, a
scope is allocated at `r.next` over `[system]` (which receives a reference),
registered, and handed out with one reference. -/
theorem getPeerScope_absent {r : resourceManager} {p : String}
    (h : mapGet r.peer p = none) :
    getPeerScope p r = (r.next,
      { r with
        peer := mapSet r.peer p r.next
        next := r.next + 1
        kind := Function.update r.kind r.next (ScopeKind.peerScope p)
        done := Function.update r.done r.next false
        refCnt := Function.update
          (Function.update r.refCnt r.system (r.refCnt r.system + 1)) r.next 1
        limit := Function.update r.limit r.next (r.limits.GetPeerLimits p)
        used := Function.update r.used r.next 0
        constraints := Function.update r.constraints r.next [r.system]
        s_peer := Function.update r.s_peer r.next none
        s_svc := Function.update r.s_svc r.next none
        s_proto := Function.update r.s_proto r.next none
        limiterLog := r.limiterLog ++ [LimiterCall.GetPeerLimits p] }) := by
  simp [getPeerScope, h, newPeerScope, newResourceScope, incRefAll, IncRef,
    resourceManager.logCall]

theorem getProtocolScope_present {r : resourceManager} {p : String} {s : Nat}
    (h : mapGet r.proto p = some s) : getProtocolScope p r = (s, IncRef s r) := by
  simp [getProtocolScope, h]

theorem getProtocolScope_absent {r : resourceManager} {p : String}
    (h : mapGet r.proto p = none) :
    getProtocolScope p r = (r.next,
      { r with
        proto := mapSet r.proto p r.next
        next := r.next + 1
        kind := Function.update r.kind r.next (ScopeKind.protocolScope p)
        done := Function.update r.done r.next false
        refCnt := Function.update
          (Function.update r.refCnt r.system (r.refCnt r.system + 1)) r.next 1
        limit := Function.update r.limit r.next (r.limits.GetProtocolLimits p)
        used := Function.update r.used r.next 0
        constraints := Function.update r.constraints r.next [r.system]
        s_peer := Function.update r.s_peer r.next none
        s_svc := Function.update r.s_svc r.next none
        s_proto := Function.update r.s_proto r.next none
        limiterLog := r.limiterLog ++ [LimiterCall.GetProtocolLimits p] }) := by
  simp [getProtocolScope, h, newProtocolScope, newResourceScope, incRefAll, IncRef,
    resourceManager.logCall]

theorem getServiceScope_present {r : resourceManager} {p : String} {s : Nat}
    (h : mapGet r.svc p = some s) : getServiceScope p r = (s, IncRef s r) := by
  simp [getServiceScope, h]

theorem getServiceScope_absent {r : resourceManager} {p : String}
    (h : mapGet r.svc p = none) :
    getServiceScope p r = (r.next,
      { r with
        svc := mapSet r.svc p r.next
        next := r.next + 1
        kind := Function.update r.kind r.next (ScopeKind.serviceScope p)
        done := Function.update r.done r.next false
        refCnt := Function.update
          (Function.update r.refCnt r.system (r.refCnt r.system + 1)) r.next 1
        limit := Function.update r.limit r.next (r.limits.GetServiceLimits p)
        used := Function.update r.used r.next 0
        constraints := Function.update r.constraints r.next [r.system]
        s_peer := Function.update r.s_peer r.next none
        s_svc := Function.update r.s_svc r.next none
        s_proto := Function.update r.s_proto r.next none
        limiterLog := r.limiterLog ++ [LimiterCall.GetServiceLimits p] }) := by
  simp [getServiceScope, h, newServiceScope, newResourceScope, incRefAll, IncRef,
    resourceManager.logCall]

/-! ## Failed reservations -/

/-- A failed walk over the constraint list leaves every counter as it was:
each parent charged before the failing one is released again. -/
theorem reserveForConstraints_fail (cs : List Nat) (d : ScopeStat) :
    ∀ st : resourceManager, (reserveForConstraints cs d st).2 ≠ none →
      (reserveForConstraints cs d st).1.used = st.used := by
  induction cs with
  | nil =>
    intro st h
    simp [reserveForConstraints] at h
  | cons c rest ih =>
    intro st h
    unfold reserveForConstraints at h ⊢
    have hs1 := sameShape_ReserveForChild c d st
    have hu1 := @used_ReserveForChild_ok c d st
    generalize ReserveForChild c d st = res1 at hs1 hu1 h ⊢
    obtain ⟨st1, e1⟩ := res1
    cases e1 with
    | some e => rfl
    | none =>
      obtain ⟨hu1, hd1⟩ := hu1 rfl
      dsimp only at hu1 hs1 h ⊢
      have ih1 := ih st1
      have hs2 := sameShape_reserveForConstraints rest d st1
      generalize reserveForConstraints rest d st1 = res2 at ih1 hs2 h ⊢
      obtain ⟨st2, e2⟩ := res2
      cases e2 with
      | none => simp at h
      | some e =>
        dsimp only at ih1 hs2 h ⊢
        have hu2 : st2.used = st1.used := ih1 (by simp)
        have hd2 : st2.done c = false := by rw [hs2.done, hs1.done]; exact hd1
        simp only [ReleaseForChild, hd2, Bool.false_eq_true, if_false, hu2, hu1]
        funext y
        by_cases hy : y = c
        · subst hy
          simp
        · simp [Function.update_noteq hy]

/-- Releasing `delta` from a duplicate-free list of parents, none of them
done, takes exactly `delta` off each. -/
theorem releaseForConstraints_spec (cs : List Nat) (d : ScopeStat) :
    ∀ st : resourceManager, cs.Nodup → (∀ y ∈ cs, st.done y = false) →
      ∀ y, (releaseForConstraints cs d st).used y =
        if y ∈ cs then st.used y - d else st.used y := by
  induction cs with
  | nil =>
    intro st _ _ y
    simp [releaseForConstraints]
  | cons c rest ih =>
    intro st hnd hdone y
    simp only [List.nodup_cons] at hnd
    unfold releaseForConstraints
    have hs := sameShape_ReleaseForChild c d st
    have hc : st.done c = false := hdone c (List.mem_cons_self _ _)
    rw [ih (ReleaseForChild c d st) hnd.2
      (fun z hz => by rw [hs.done]; exact hdone z (List.mem_cons_of_mem _ hz)) y]
    by_cases hy : y = c
    · subst hy
      simp [hnd.1, ReleaseForChild, hc]
    · simp [hy, ReleaseForChild, hc, Function.update_noteq hy]

/-- A failed `Reserve` leaves every counter as it was (all or nothing). -/
theorem Reserve_fail_spec {x : Nat} {d : ScopeStat} {st : resourceManager}
    (hnd : (st.constraints x).Nodup) (hfail : (Reserve x d st).2 ≠ none) :
    (Reserve x d st).1.used = st.used := by
  unfold Reserve at hfail ⊢
  split_ifs with hd
  · rfl
  · have hf := reserveForConstraints_fail (st.constraints x) d st
    have hok := reserveForConstraints_ok (st.constraints x) d st hnd
    have hs := sameShape_reserveForConstraints (st.constraints x) d st
    simp only [hd, if_false] at hfail
    generalize reserveForConstraints (st.constraints x) d st = res at hf hok hs hfail ⊢
    obtain ⟨st1, e1⟩ := res
    cases e1 with
    | some e => exact hf (by simp)
    | none =>
      obtain ⟨hu, hdn⟩ := hok rfl
      dsimp only at hu hs hfail ⊢
      by_cases hl : st1.used x + d ≤ st1.limit x
      · simp [hl] at hfail
      · simp only [hl, if_false]
        funext y
        rw [releaseForConstraints_spec _ d st1 hnd
          (fun z hz => by rw [hs.done]; exact hdn z hz) y, hu y]
        by_cases hy : y ∈ st.constraints x
        · simp [hy]
        · simp [hy]

/-- Closing a scope whose reservation has just been refused (the failure path
of `OpenConnection` and `OpenStream`): the scope held nothing, so no counter
moves; each parent gives back the reference the constructor took. -/
theorem Done_after_failed_Reserve {x : Nat} {d : ScopeStat} {st : resourceManager}
    (hd : st.done x = false) (hu : st.used x = 0)
    (hnd : (st.constraints x).Nodup) (hx : x ∉ st.constraints x)
    (hfail : (Reserve x d st).2 ≠ none) :
    (Done x (Reserve x d st).1).used = st.used ∧
      (∀ y, (Done x (Reserve x d st).1).refCnt y =
        if y ∈ st.constraints x then st.refCnt y - 1 else st.refCnt y) ∧
      (Done x (Reserve x d st).1).done = Function.update st.done x true ∧
      (Done x (Reserve x d st).1).peer = st.peer := by
  have hs := sameShape_Reserve x d st
  have hr := refCnt_Reserve x d st
  have hf := Reserve_fail_spec (d := d) hnd hfail
  generalize (Reserve x d st).1 = st1 at hs hr hf ⊢
  have hd1 : st1.done x = false := by rw [hs.done]; exact hd
  obtain ⟨h1, h2, h3⟩ := Done_spec hd1 (by rw [hs.constraints]; exact hnd)
    (by rw [hs.constraints]; exact hx)
  obtain ⟨hp, -⟩ := Done_frame x st1
  refine ⟨?_, ?_, ?_, ?_⟩
  · funext y
    rw [h1 y, hf, hu]
    by_cases hy : y = x
    · subst hy
      simp [hu]
    · simp [hy]
  · intro y
    rw [h2 y, hs.constraints, hr]
  · rw [h3, hs.done]
  · rw [hp, hs.peer]

/-! ## Effects of `OpenConnection` -/

/-- The effect of `OpenConnection`, on success and on failure.  The scope is
allocated at `r.next` over `[Transient, System]`; on success the connection,
Transient and System are charged `connDelta` and the two parents hold one more
reference; on failure no counter and no reference count of an object of `r`
has moved. -/
theorem OpenConnection_effect {r : resourceManager} (hwf : WF r) (dir : Direction)
    (usefd : Bool) :
    (OpenConnection dir usefd r).1.system = r.system ∧
      (OpenConnection dir usefd r).1.transient = r.transient ∧
      (OpenConnection dir usefd r).1.peer = r.peer ∧
      (OpenConnection dir usefd r).1.next = r.next + 1 ∧
      (OpenConnection dir usefd r).1.kind r.next = ScopeKind.connectionScope dir usefd ∧
      (OpenConnection dir usefd r).1.s_peer r.next = none ∧
      (OpenConnection dir usefd r).1.constraints r.next = [r.transient, r.system] ∧
      (∀ c, (OpenConnection dir usefd r).2 = Except.ok c →
        c = r.next ∧ (OpenConnection dir usefd r).1.done r.next = false ∧
        (∀ y, (OpenConnection dir usefd r).1.used y =
          if y = r.next then connDelta dir usefd
          else if y = r.transient ∨ y = r.system then r.used y + connDelta dir usefd
          else r.used y) ∧
        (∀ y, (OpenConnection dir usefd r).1.refCnt y =
          if y = r.next then 0
          else if y = r.transient ∨ y = r.system then r.refCnt y + 1
          else r.refCnt y)) ∧
      (∀ e, (OpenConnection dir usefd r).2 = Except.error e →
        ∀ y, y ≠ r.next → (OpenConnection dir usefd r).1.used y = r.used y ∧
          (OpenConnection dir usefd r).1.refCnt y = r.refCnt y) := by
  have hTlt := hwf.transient_lt
  have hSlt := hwf.system_lt
  have hTS : r.transient ≠ r.system := by
    intro h2
    have := hwf.transient_kind
    rw [h2, hwf.system_kind] at this
    cases this
  have hxT : r.next ≠ r.transient := Nat.ne_of_gt hTlt
  have hxS : r.next ≠ r.system := Nat.ne_of_gt hSlt
  -- the state in which `AddConn` runs
  have hs1 : ∀ res, res = newConnectionScope dir usefd r.limits.GetConnLimits
      (r.logCall LimiterCall.GetConnLimits) →
      res.1 = r.next ∧ res.2.constraints r.next = [r.transient, r.system] ∧
      res.2.used = Function.update r.used r.next 0 ∧ res.2.next = r.next + 1 ∧
      res.2.kind r.next = ScopeKind.connectionScope dir usefd ∧ res.2.done r.next = false ∧
      res.2.s_peer r.next = none ∧ res.2.system = r.system ∧ res.2.transient = r.transient ∧
      res.2.peer = r.peer ∧
      (∀ y, res.2.refCnt y = if y = r.next then 0
        else if y = r.transient ∨ y = r.system then r.refCnt y + 1 else r.refCnt y) := by
    rintro res rfl
    simp only [newConnectionScope, newResourceScope, incRefAll, IncRef,
      resourceManager.logCall]
    refine ⟨trivial, by simp, trivial, trivial, by simp, by simp, by simp, trivial, trivial,
      trivial, ?_⟩
    intro y
    by_cases h1 : y = r.next
    · subst h1
      simp
    · by_cases h2 : y = r.transient
      · subst h2
        simp [h1, hTS, Function.update_apply]
      · by_cases h3 : y = r.system
        · subst h3
          simp [h1, h2, Function.update_apply]
        · simp [h1, h2, h3, Function.update_apply]
  unfold OpenConnection
  generalize newConnectionScope dir usefd r.limits.GetConnLimits
      (r.logCall LimiterCall.GetConnLimits) = res at hs1 ⊢
  obtain ⟨x0, r1⟩ := res
  obtain ⟨hfst, c1, c2, c3, c4, c5, c6, c7, c8, c9, c10⟩ := hs1 _ rfl
  dsimp only at hfst c1 c2 c3 c4 c5 c6 c7 c8 c9 c10 ⊢
  subst hfst
  unfold AddConn
  have hnd : (r1.constraints r.next).Nodup := by
    rw [c1]
    simp [hTS]
  have hxn : r.next ∉ r1.constraints r.next := by
    rw [c1]
    simp [hxT, hxS]
  have hs := sameShape_Reserve r.next (connDelta dir usefd) r1
  have hrc := refCnt_Reserve r.next (connDelta dir usefd) r1
  have hok := Reserve_ok_spec (d := connDelta dir usefd) hnd hxn
  have hfl := Done_after_failed_Reserve (d := connDelta dir usefd) c5
    (by rw [c2]; simp) hnd hxn
  have hfr := Done_frame r.next (Reserve r.next (connDelta dir usefd) r1).1
  generalize Reserve r.next (connDelta dir usefd) r1 = res at hs hrc hok hfl hfr ⊢
  obtain ⟨r2, e⟩ := res
  dsimp only at hs hrc hok hfl hfr ⊢
  cases e with
  | none =>
    obtain ⟨hu, -, -⟩ := hok rfl
    dsimp only
    refine ⟨by rw [hs.system, c7], by rw [hs.transient, c8], by rw [hs.peer, c9],
      by rw [hs.next, c3], by rw [hs.kind, c4], by rw [hs.s_peer, c6],
      by rw [hs.constraints, c1], ?_, ?_⟩
    · intro c hc
      refine ⟨by simpa using hc.symm, by rw [hs.done, c5], ?_, ?_⟩
      · intro y
        rw [hu y, c1, c2]
        by_cases h1 : y = r.next
        · subst h1
          simp
        · simp [h1, Function.update_noteq h1]
      · intro y
        rw [hrc, c10 y]
    · intro e he
      simp at he
  | some err =>
    obtain ⟨f1, f2, f3, f4⟩ := hfl (by simp)
    obtain ⟨g1, g2, g3, g4, g5, g6, g7, g8, g9, g10⟩ := hfr
    dsimp only
    refine ⟨?_, ?_, ?_, ?_, ?_, ?_, ?_, ?_, ?_⟩
    · rw [g4, hs.system, c7]
    · rw [g5, hs.transient, c8]
    · rw [f4, c9]
    · rw [g6, hs.next, c3]
    · rw [g7, hs.kind, c4]
    · rw [g9, hs.s_peer, c6]
    · rw [g8, hs.constraints, c1]
    · intro c hc
      simp at hc
    · intro e _ y hy
      constructor
      · rw [f1, c2, Function.update_noteq hy]
      · rw [f2 y, c1, c10 y]
        by_cases h2 : y = r.transient
        · subst h2
          simp [Ne.symm hxT]
        · by_cases h3 : y = r.system
          · subst h3
            simp [Ne.symm hxS]
          · simp [hy, h2, h3]

/-- The reference counts after `getPeerScope`: the returned scope has one
reference more than the registry's scope for `p` had (one, for a new scope);
a new scope takes one reference on the system scope; no other count moves. -/
theorem getPeerScope_refs {r : resourceManager} (hwf : WF r) (p : String) :
    (getPeerScope p r).2.refCnt (getPeerScope p r).1 = regRefs r.peer p r + 1 ∧
      (∀ y, y ≠ (getPeerScope p r).1 → (getPeerScope p r).2.refCnt y =
        if y = r.system ∧ mapGet r.peer p = none then r.refCnt y + 1 else r.refCnt y) ∧
      (∀ q, mapGet r.peer p = some q → (getPeerScope p r).1 = q) ∧
      (mapGet r.peer p = none → (getPeerScope p r).1 = r.next) := by
  have hSlt := hwf.system_lt
  have hxS : r.next ≠ r.system := Nat.ne_of_gt hSlt
  cases hq : mapGet r.peer p with
  | some q =>
    rw [getPeerScope_present hq]
    simp only [regRefs, hq]
    refine ⟨by simp [IncRef], ?_, ?_, ?_⟩
    · intro y hy
      simp [IncRef, Function.update_noteq hy]
    · intro q0 h0
      simpa using h0
    · intro h0
      cases h0
  | none =>
    rw [getPeerScope_absent hq]
    simp only [regRefs, hq]
    refine ⟨by simp, ?_, ?_, ?_⟩
    · intro y hy
      rw [Function.update_noteq hy]
      by_cases h3 : y = r.system
      · subst h3
        simp
      · simp [h3, Function.update_noteq h3]
    · intro q0 h0
      cases h0
    · intro _
      trivial

/-- The effect of `OpenStream` on the reference counts, on success and on
failure, relative to the state `getPeerScope` leaves: on success Transient and
System hold one more reference and the peer scope keeps the one `getPeerScope`
took (the constructor's reference replaces it); on failure the peer scope
gives that reference back and no counter of an older object has moved. -/
theorem OpenStream_effect {r : resourceManager} (hwf : WF r) (p : String) (dir : Direction) :
    (OpenStream p dir r).1.peer = (getPeerScope p r).2.peer ∧
      (∀ x, (OpenStream p dir r).2 = Except.ok x →
        x = (getPeerScope p r).2.next ∧
        ∀ y, (OpenStream p dir r).1.refCnt y =
          if y = x then 0
          else if y = r.transient ∨ y = r.system then (getPeerScope p r).2.refCnt y + 1
          else (getPeerScope p r).2.refCnt y) ∧
      (∀ e, (OpenStream p dir r).2 = Except.error e →
        ∀ y, y ≠ (getPeerScope p r).2.next →
          (OpenStream p dir r).1.used y = (getPeerScope p r).2.used y ∧
          (OpenStream p dir r).1.refCnt y =
            if y = (getPeerScope p r).1 then (getPeerScope p r).2.refCnt y - 1
            else (getPeerScope p r).2.refCnt y) := by
  obtain ⟨h1, hg, hsys, htr, hnext, -⟩ := getPeerScope_spec hwf p
  unfold OpenStream
  generalize getPeerScope p r = res at h1 hg hsys htr hnext ⊢
  obtain ⟨q, r1⟩ := res
  dsimp only at h1 hg hsys htr hnext ⊢
  rw [← hsys, ← htr]
  obtain ⟨hqlt, hqk, hqd⟩ := h1.peer_ok p q (mapGet_mem hg)
  have hTS : r1.transient ≠ r1.system := by
    intro h2
    have := h1.transient_kind
    rw [h2, h1.system_kind] at this
    cases this
  have hqT : q ≠ r1.transient := by
    rintro rfl
    rw [h1.transient_kind] at hqk
    cases hqk
  have hqS : q ≠ r1.system := by
    rintro rfl
    rw [h1.system_kind] at hqk
    cases hqk
  have hTlt := h1.transient_lt
  have hSlt := h1.system_lt
  have hxq : r1.next ≠ q := Nat.ne_of_gt hqlt
  have hxT : r1.next ≠ r1.transient := Nat.ne_of_gt hTlt
  have hxS : r1.next ≠ r1.system := Nat.ne_of_gt hSlt
  -- the state in which `AddStream` runs
  have hs3 : ∀ r3, r3 = DecRef q (newStreamScope dir (r1.limits.GetStreamLimits p) q
      (r1.logCall (LimiterCall.GetStreamLimits p))).2 →
      r3.constraints r1.next = [q, r1.transient, r1.system] ∧
      r3.used = Function.update r1.used r1.next 0 ∧ r3.done r1.next = false ∧
      r3.peer = r1.peer ∧
      (∀ y, r3.refCnt y = if y = r1.next then 0
        else if y = r1.transient ∨ y = r1.system then r1.refCnt y + 1 else r1.refCnt y) := by
    rintro r3 rfl
    simp only [newStreamScope, newResourceScope, incRefAll, IncRef, DecRef,
      resourceManager.logCall]
    refine ⟨by simp, trivial, by simp, trivial, ?_⟩
    intro y
    by_cases y1 : y = r1.next
    · subst y1
      simp [hxq]
    · by_cases y2 : y = r1.transient
      · subst y2
        simp [y1, hTS, Ne.symm hqT, Function.update_apply]
      · by_cases y3 : y = r1.system
        · subst y3
          simp [y1, y2, Ne.symm hqS, Function.update_apply]
        · by_cases y4 : y = q
          · subst y4
            simp [y1, y2, y3, Function.update_apply]
          · simp [y1, y2, y3, y4, Function.update_apply]
  have hfst : (newStreamScope dir (r1.limits.GetStreamLimits p) q
      (r1.logCall (LimiterCall.GetStreamLimits p))).1 = r1.next := by
    simp [newStreamScope, newResourceScope, incRefAll, IncRef, resourceManager.logCall]
  generalize newStreamScope dir (r1.limits.GetStreamLimits p) q
      (r1.logCall (LimiterCall.GetStreamLimits p)) = res2 at hs3 hfst ⊢
  obtain ⟨x0, r2⟩ := res2
  dsimp only at hs3 hfst ⊢
  subst hfst
  obtain ⟨c1, c2, c3, c4, c5⟩ := hs3 _ rfl
  generalize DecRef q r2 = r3 at c1 c2 c3 c4 c5 ⊢
  unfold AddStream
  have hnd : (r3.constraints r1.next).Nodup := by
    rw [c1]
    simp [hqT, hqS, hTS]
  have hxn : r1.next ∉ r3.constraints r1.next := by
    rw [c1]
    simp [hxq, hxT, hxS]
  have hs := sameShape_Reserve r1.next (streamDelta dir) r3
  have hrc := refCnt_Reserve r1.next (streamDelta dir) r3
  have hfl := Done_after_failed_Reserve (d := streamDelta dir) c3
    (by rw [c2]; simp) hnd hxn
  generalize Reserve r1.next (streamDelta dir) r3 = res at hs hrc hfl ⊢
  obtain ⟨r4, e⟩ := res
  dsimp only at hs hrc hfl ⊢
  cases e with
  | none =>
    dsimp only
    refine ⟨by rw [hs.peer, c4], ?_, ?_⟩
    · intro x hx
      have hx1 : r1.next = x := by simpa using hx
      subst hx1
      refine ⟨rfl, ?_⟩
      intro y
      rw [hrc, c5 y]
    · intro e he
      simp at he
  | some err =>
    obtain ⟨f1, f2, f3, f4⟩ := hfl (by simp)
    dsimp only
    refine ⟨by rw [f4, c4], ?_, ?_⟩
    · intro x hx
      simp at hx
    · intro e _ y hy
      constructor
      · rw [f1, c2, Function.update_noteq hy]
      · rw [f2 y, c1, c5 y]
        by_cases y2 : y = r1.transient
        · subst y2
          simp [Ne.symm hxT, Ne.symm hqT]
        · by_cases y3 : y = r1.system
          · subst y3
            simp [Ne.symm hxS, Ne.symm hqS]
          · by_cases y4 : y = q
            · subst y4
              simp [hy, y2, y3]
            · simp [hy, y2, y3, y4]

/-- `OpenStream` never reassigns the system and transient scope. -/
theorem OpenStream_roots {r : resourceManager} (hwf : WF r) (p : String) (dir : Direction) :
    (OpenStream p dir r).1.system = r.system ∧
      (OpenStream p dir r).1.transient = r.transient := by
  obtain ⟨-, -, hsys, htr, -, -⟩ := getPeerScope_spec hwf p
  unfold OpenStream
  generalize getPeerScope p r = res at hsys htr ⊢
  obtain ⟨q, r1⟩ := res
  dsimp only at hsys htr ⊢
  have hs3 : ∀ r3, r3 = DecRef q (newStreamScope dir (r1.limits.GetStreamLimits p) q
      (r1.logCall (LimiterCall.GetStreamLimits p))).2 →
      r3.system = r1.system ∧ r3.transient = r1.transient := by
    rintro r3 rfl
    simp [newStreamScope, newResourceScope, incRefAll, IncRef, DecRef, resourceManager.logCall]
  generalize newStreamScope dir (r1.limits.GetStreamLimits p) q
      (r1.logCall (LimiterCall.GetStreamLimits p)) = res2 at hs3 ⊢
  obtain ⟨x0, r2⟩ := res2
  obtain ⟨c1, c2⟩ := hs3 _ rfl
  dsimp only at c1 c2 ⊢
  generalize DecRef q r2 = r3 at c1 c2 ⊢
  unfold AddStream
  have hs := sameShape_Reserve x0 (streamDelta dir) r3
  have hfr := Done_frame x0 (Reserve x0 (streamDelta dir) r3).1
  generalize Reserve x0 (streamDelta dir) r3 = res at hs hfr ⊢
  obtain ⟨r4, e⟩ := res
  dsimp only at hs hfr ⊢
  cases e with
  | none => exact ⟨by rw [hs.system, c1, hsys], by rw [hs.transient, c2, htr]⟩
  | some err =>
    obtain ⟨-, -, -, g4, g5, -⟩ := hfr
    exact ⟨by rw [g4, hs.system, c1, hsys], by rw [g5, hs.transient, c2, htr]⟩

/-- A failed `OpenStream` leaves every counter of an object of `r` and the
reference count of the peer scope as they were; the peer scope stays (or is
now) registered. -/
theorem OpenStream_fail_spec {r : resourceManager} (hwf : WF r) (p : String) (dir : Direction)
    {e : Error} (hfail : (OpenStream p dir r).2 = Except.error e) :
    (∀ y, y < r.next → (OpenStream p dir r).1.used y = r.used y) ∧
      regUsed (OpenStream p dir r).1.peer p (OpenStream p dir r).1 = regUsed r.peer p r ∧
      regRefs (OpenStream p dir r).1.peer p (OpenStream p dir r).1 = regRefs r.peer p r ∧
      mapGet (OpenStream p dir r).1.peer p = some (getPeerScope p r).1 := by
  obtain ⟨h1, hg, hsys, htr, hnext, -⟩ := getPeerScope_spec hwf p
  obtain ⟨hu1, hu2, -, -⟩ := getPeerScope_used p r
  obtain ⟨hr1, hr2, hr3, hr4⟩ := getPeerScope_refs hwf p
  obtain ⟨e1, -, e3⟩ := OpenStream_effect hwf p dir
  have e3 := e3 e hfail
  obtain ⟨hqlt, -, -⟩ := h1.peer_ok p _ (mapGet_mem hg)
  have hq := e3 _ (Nat.ne_of_lt hqlt)
  refine ⟨?_, ?_, ?_, ?_⟩
  · intro y hy
    rw [(e3 y (Nat.ne_of_lt (Nat.lt_of_lt_of_le hy hnext))).1]
    by_cases hyq : y = (getPeerScope p r).1
    · rw [hyq, hu1]
      cases hm : mapGet r.peer p with
      | some q0 =>
        rw [hr3 q0 hm]
        simp [regUsed, hm]
      | none =>
        have := hr4 hm
        omega
    · exact hu2 y hyq
  · simp only [regUsed, e1, hg]
    rw [hq.1, hu1]
    rfl
  · simp only [regRefs, e1, hg]
    rw [hq.2, hr1]
    simp [regRefs]
  · rw [e1, hg]

/-- The effect of a successful `SetPeer` on a connection without a peer,
reference counts included: the peer scope gains the connection's reference,
Transient loses the one the constructor took, and System gains one exactly
when the call created the peer scope (the new scope hangs on System). -/
theorem SetPeer_ok_spec {r : resourceManager} (hwf : WF r) {c : Nat} (hc : c < r.next)
    (hk : (r.kind c).isConn = true) (p : String) (hnp : r.s_peer c = none)
    (hok : (SetPeer c p r).2 = none) :
    ∃ q, mapGet (SetPeer c p r).1.peer p = some q ∧
      (SetPeer c p r).1.s_peer c = some q ∧
      (SetPeer c p r).1.constraints c = [q, r.system] ∧
      (SetPeer c p r).1.system = r.system ∧
      (SetPeer c p r).1.transient = r.transient ∧
      q ≠ c ∧ q ≠ r.transient ∧ q ≠ r.system ∧
      (SetPeer c p r).1.done q = false ∧
      (SetPeer c p r).1.done c = r.done c ∧
      (SetPeer c p r).1.kind c = r.kind c ∧
      c < (SetPeer c p r).1.next ∧
      (SetPeer c p r).1.used c = r.used c ∧
      (SetPeer c p r).1.used q = regUsed r.peer p r + r.used c ∧
      (SetPeer c p r).1.refCnt q = regRefs r.peer p r + 1 ∧
      (SetPeer c p r).1.refCnt r.transient = r.refCnt r.transient - 1 ∧
      (SetPeer c p r).1.refCnt r.system =
        r.refCnt r.system + (if mapGet r.peer p = none then 1 else 0) := by
  obtain ⟨hcT, hcS, hTS, hpeer, -, -⟩ := hwf.conn_facts (Or.inl hk)
  have hTd := hwf.transient_live
  have hTlt := hwf.transient_lt
  have hSlt := hwf.system_lt
  cases hq : mapGet r.peer p with
  | some q =>
    obtain ⟨hqc, hqT, hqS, -⟩ := hpeer p q (mapGet_mem hq)
    obtain ⟨-, -, hqd⟩ := hwf.peer_ok p q (mapGet_mem hq)
    refine ⟨q, ?_⟩
    have hif : (if (some q : Option Nat) = none then (1 : Int) else 0) = 0 := by simp
    simp only [SetPeer, hnp, getPeerScope, hq, stat, IncRef, ReserveForChild,
      regUsed, regRefs, hif] at hok ⊢
    simp only [ne_eq, not_true_eq_false, if_false] at hok ⊢
    split_ifs at hok ⊢ with h1 h2
    simp [ReleaseForChild, DecRef, Function.update_apply, hTd, hq, hqT, hqS, hqc, hcT, hcS,
      hTS, Ne.symm hqT, Ne.symm hqS, Ne.symm hqc, Ne.symm hTS, hqd, hc]
  | none =>
    have hnT : r.next ≠ r.transient := Nat.ne_of_gt hTlt
    have hnS : r.next ≠ r.system := Nat.ne_of_gt hSlt
    have hnc : r.next ≠ c := Nat.ne_of_gt hc
    refine ⟨r.next, ?_⟩
    have hif : (if (none : Option Nat) = none then (1 : Int) else 0) = 1 := by simp
    simp only [SetPeer, hnp, getPeerScope, hq, stat, IncRef, ReserveForChild,
      regUsed, regRefs, newPeerScope, newResourceScope, incRefAll,
      resourceManager.logCall, hif] at hok ⊢
    simp only [ne_eq, not_true_eq_false, if_false] at hok ⊢
    split_ifs at hok ⊢ with h1 h2
    simp [ReleaseForChild, DecRef, Function.update_apply, hTd, hnT, hnS, hnc, hcT, hcS,
      hTS, Ne.symm hnT, Ne.symm hnS, Ne.symm hnc, Ne.symm hTS, mapGet_mapSet _ _ hq]
    omega

/-- The reclaimer removes a registered peer scope that is unused and marks it
done. -/
theorem gc_removes_unused_peer {r : resourceManager} (hwf : WF r) {k : String} {q : Nat}
    (hq : mapGet r.peer k = some q) (hu : IsUnused q r = true) :
    mapGet (gc r).peer k = none ∧ (gc r).done q = true := by
  obtain ⟨-, -, -, hp, -, hd, -⟩ := gc_spec hwf
  constructor
  · cases hm : mapGet (gc r).peer k with
    | none => rfl
    | some s =>
      exfalso
      have hmem := mapGet_mem hm
      rw [hp, List.mem_filter] at hmem
      have hs : mapGet r.peer k = some s := mapGet_of_mem hwf.peer_keys hmem.1
      rw [hq] at hs
      have hs : q = s := by simpa using hs
      subst hs
      simp [hu] at hmem
  · rw [hd q]
    simp only [Bool.or_eq_true, List.any_eq_true, Bool.and_eq_true, decide_eq_true_eq]
    exact Or.inr ⟨(k, q), List.mem_append_right _ (mapGet_mem hq), rfl, hu⟩

/-! ## `SetPeer` and `SetProtocol` do not look at the done flag -/

/-- The result of `SetPeer` on a connection without a peer is the result of
the peer scope's `ReserveForChild` for the connection's usage.  The peer scope
is registered, hence not done, so the result is never `ScopeClosed`, whatever
the done flag of the connection.  The call leaves the connection's done flag
and used vector alone. -/
theorem SetPeer_result {r : resourceManager} (hwf : WF r) {c : Nat} (hc : c < r.next)
    (hk : (r.kind c).isConn = true) (p : String) (hnp : r.s_peer c = none) :
    (SetPeer c p r).2 =
        (ReserveForChild (getPeerScope p r).1 (stat c r) (getPeerScope p r).2).2 ∧
      (SetPeer c p r).2 ≠ some Error.ScopeClosed ∧
      (SetPeer c p r).1.done c = r.done c ∧
      (SetPeer c p r).1.used c = r.used c := by
  obtain ⟨hcT, hcS, hTS, hpeer, -, -⟩ := hwf.conn_facts (Or.inl hk)
  have hTd := hwf.transient_live
  cases hq : mapGet r.peer p with
  | some q =>
    obtain ⟨hqc, hqT, hqS, -⟩ := hpeer p q (mapGet_mem hq)
    obtain ⟨-, -, hqd⟩ := hwf.peer_ok p q (mapGet_mem hq)
    simp only [SetPeer, hnp, getPeerScope, hq, stat, IncRef, ReserveForChild, hqd]
    simp only [ne_eq, not_true_eq_false, if_false, Bool.false_eq_true]
    split_ifs with h2
    · simp [ReleaseForChild, DecRef, Function.update_apply, hTd, hqT, hqc, hcT,
        Ne.symm hqT, Ne.symm hqc]
    · simp [DecRef]
  | none =>
    have hnT : r.next ≠ r.transient := Nat.ne_of_gt hwf.transient_lt
    have hnc : r.next ≠ c := Nat.ne_of_gt hc
    have hu : Function.update r.used r.next 0 c = r.used c :=
      Function.update_noteq (Ne.symm hnc) _ _
    simp only [SetPeer, hnp, getPeerScope, hq, stat, IncRef, ReserveForChild,
      newPeerScope, newResourceScope, incRefAll, resourceManager.logCall]
    simp only [ne_eq, not_true_eq_false, if_false, hu]
    split_ifs with h1 h2
    · simp at h1
    · simp [ReleaseForChild, DecRef, Function.update_apply, hTd, hnT, hnc, hcT,
        Ne.symm hnT, Ne.symm hnc]
    · simp [DecRef, Function.update_apply, Ne.symm hnc]

/-- The effect of a `SetPeer` that the peer scope rejects. -/
theorem SetPeer_fail_spec {r : resourceManager} {c : Nat} (hc : c < r.next)
    (p : String) (hnp : r.s_peer c = none)
    (hfail : (SetPeer c p r).2 ≠ none) :
    (SetPeer c p r).1.s_peer c = none ∧
      (SetPeer c p r).1.constraints c = r.constraints c ∧
      (∀ y, y < r.next → (SetPeer c p r).1.used y = r.used y) ∧
      regUsed (SetPeer c p r).1.peer p (SetPeer c p r).1 = regUsed r.peer p r ∧
      (SetPeer c p r).1.system = r.system ∧
      (SetPeer c p r).1.transient = r.transient := by
  cases hq : mapGet r.peer p with
  | some q =>
    simp only [SetPeer, hnp, getPeerScope, hq, stat, IncRef, ReserveForChild,
      regUsed] at hfail ⊢
    simp only [ne_eq, not_true_eq_false, if_false] at hfail ⊢
    split_ifs at hfail ⊢ with h1 h2
    · simp [DecRef, Function.update_apply, hq]
    · simp at hfail
    · simp [DecRef, Function.update_apply, hq]
  | none =>
    have hnc : r.next ≠ c := Nat.ne_of_gt hc
    simp only [SetPeer, hnp, getPeerScope, hq, stat, IncRef, ReserveForChild,
      regUsed, newPeerScope, newResourceScope, incRefAll,
      resourceManager.logCall] at hfail ⊢
    simp only [ne_eq, not_true_eq_false, if_false] at hfail ⊢
    split_ifs at hfail ⊢ with h1 h2
    · simp at h1
    · simp at hfail
    · simp [DecRef, Function.update_apply, hnc, Ne.symm hnc, mapGet_mapSet _ _ hq]
      intro y hy
      have : y ≠ r.next := Nat.ne_of_lt hy
      simp [this]

/-- The result of `SetProtocol` on a stream without a protocol is the result
of the protocol scope's `ReserveForChild` for the stream's usage; it is never
`ScopeClosed`, whatever the done flag of the stream.  The call leaves the
stream's done flag and used vector alone. -/
theorem SetProtocol_result {r : resourceManager} (hwf : WF r) {x : Nat} (hx : x < r.next)
    (hk : (r.kind x).isStream = true) (id : String) (hnp : r.s_proto x = none) :
    (SetProtocol x id r).2 =
        (ReserveForChild (getProtocolScope id r).1 (stat x r) (getProtocolScope id r).2).2 ∧
      (SetProtocol x id r).2 ≠ some Error.ScopeClosed ∧
      (SetProtocol x id r).1.done x = r.done x ∧
      (SetProtocol x id r).1.used x = r.used x := by
  obtain ⟨pr, hpr, hprlt, -⟩ := hwf.stream_facts hx hk
  obtain ⟨hxT, hxS, hTS, -, hproto, -⟩ := hwf.conn_facts (Or.inr hk)
  have hTd := hwf.transient_live
  cases hq : mapGet r.proto id with
  | some q =>
    obtain ⟨hqx, hqT, hqS, -⟩ := hproto id q (mapGet_mem hq)
    obtain ⟨-, -, hqd⟩ := hwf.proto_ok id q (mapGet_mem hq)
    simp only [SetProtocol, hnp, getProtocolScope, hq, stat, IncRef, ReserveForChild, hqd]
    simp only [ne_eq, not_true_eq_false, if_false, Bool.false_eq_true]
    split_ifs with h2
    · simp [ReleaseForChild, DecRef, Function.update_apply, hTd, hqT, hqx, hxT,
        Ne.symm hqT, Ne.symm hqx, hpr]
    · simp [DecRef]
  | none =>
    have hnT : r.next ≠ r.transient := Nat.ne_of_gt hwf.transient_lt
    have hnx : r.next ≠ x := Nat.ne_of_gt hx
    have hu : Function.update r.used r.next 0 x = r.used x :=
      Function.update_noteq (Ne.symm hnx) _ _
    simp only [SetProtocol, hnp, getProtocolScope, hq, stat, IncRef, ReserveForChild,
      newProtocolScope, newResourceScope, incRefAll, resourceManager.logCall]
    simp only [ne_eq, not_true_eq_false, if_false, hu]
    split_ifs with h1 h2
    · simp at h1
    · simp [ReleaseForChild, DecRef, Function.update_apply, hTd, hnT, hnx, hxT,
        Ne.symm hnT, Ne.symm hnx, hpr]
    · simp [DecRef, Function.update_apply, Ne.symm hnx]

/-- The counters of Transient and System after a successful `SetPeer` on a
connection without a peer: Transient gives up the connection's usage, System
is untouched. -/
theorem SetPeer_ok_used {r : resourceManager} (hwf : WF r) {c : Nat} (hc : c < r.next)
    (hk : (r.kind c).isConn = true) (p : String) (hnp : r.s_peer c = none)
    (hok : (SetPeer c p r).2 = none) :
    (SetPeer c p r).1.used r.transient = r.used r.transient - r.used c ∧
      (SetPeer c p r).1.used r.system = r.used r.system := by
  obtain ⟨hcT, hcS, hTS, hpeer, -, -⟩ := hwf.conn_facts (Or.inl hk)
  have hTd := hwf.transient_live
  have hTlt := hwf.transient_lt
  have hSlt := hwf.system_lt
  cases hq : mapGet r.peer p with
  | some q =>
    obtain ⟨hqc, hqT, hqS, -⟩ := hpeer p q (mapGet_mem hq)
    simp only [SetPeer, hnp, getPeerScope, hq, stat, IncRef, ReserveForChild] at hok ⊢
    simp only [ne_eq, not_true_eq_false, if_false] at hok ⊢
    split_ifs at hok ⊢ with h1 h2
    simp [ReleaseForChild, DecRef, Function.update_apply, hTd, hq, hqT, hqS, hqc, hcT, hcS,
      hTS, Ne.symm hqT, Ne.symm hqS, Ne.symm hqc, Ne.symm hTS]
  | none =>
    have hnT : r.next ≠ r.transient := Nat.ne_of_gt hTlt
    have hnS : r.next ≠ r.system := Nat.ne_of_gt hSlt
    have hnc : r.next ≠ c := Nat.ne_of_gt hc
    simp only [SetPeer, hnp, getPeerScope, hq, stat, IncRef, ReserveForChild,
      newPeerScope, newResourceScope, incRefAll, resourceManager.logCall] at hok ⊢
    simp only [ne_eq, not_true_eq_false, if_false] at hok ⊢
    split_ifs at hok ⊢ with h1 h2
    simp [ReleaseForChild, DecRef, Function.update_apply, hTd, hnT, hnS, hnc, hcT, hcS,
      hTS, Ne.symm hnT, Ne.symm hnS, Ne.symm hnc, Ne.symm hTS]

/-! ## A stream that comes and goes -/

/-- The peer scope after a stream's whole life: when the registry's scope for
`p` had no reference and no usage before `OpenStream(p, d)` (or `p` was not
registered), then after the successful `OpenStream` and the stream's `Done`
the scope registered for `p` has `refs = 0` and `used = 0` and is unused. -/
theorem stream_life_leaves_peer_unused {r : resourceManager} (hwf : WF r) (p : String)
    (dir : Direction) {x : Nat} (hu : regUsed r.peer p r = 0) (hrf : regRefs r.peer p r = 0)
    (hok : (OpenStream p dir r).2 = Except.ok x) :
    ∃ q, mapGet (Done x (OpenStream p dir r).1).peer p = some q ∧
      (Done x (OpenStream p dir r).1).refCnt q = 0 ∧
      (Done x (OpenStream p dir r).1).used q = 0 ∧
      IsUnused q (Done x (OpenStream p dir r).1) = true ∧
      q < (Done x (OpenStream p dir r).1).next ∧
      WF (Done x (OpenStream p dir r).1) := by
  have hwf1 := wf_OpenStream hwf p dir
  obtain ⟨q, hq, hx1, hx2, hxk, hxd, -, -, -, hcs, hsys, htr, hux, huq, -, -, -, -, -⟩ :=
    OpenStream_ok_spec hwf p dir hok
  obtain ⟨g1, hg, -, -, -, -⟩ := getPeerScope_spec hwf p
  obtain ⟨hr1, -, -, -⟩ := getPeerScope_refs hwf p
  obtain ⟨e1, e2, -⟩ := OpenStream_effect hwf p dir
  obtain ⟨-, hrc⟩ := e2 x hok
  have hqq : (getPeerScope p r).1 = q := by
    rw [e1, hg] at hq
    simpa using hq
  rw [hqq] at hr1
  have hks : ((OpenStream p dir r).1.kind x).isStream = true := by
    rw [hxk]
    rfl
  obtain ⟨hqlt, hqk, hqd⟩ := hwf1.peer_ok p q (mapGet_mem hq)
  obtain ⟨hnd, hxn, -⟩ := hwf1.constraints_facts hx2 (Or.inr hks)
  obtain ⟨hqx, hqT, hqS, -⟩ := (hwf1.conn_facts (Or.inr hks)).2.2.2.1 p q (mapGet_mem hq)
  rw [hsys] at hqS
  rw [htr] at hqT
  obtain ⟨d1, d2, d3⟩ := Done_spec hxd hnd hxn
  obtain ⟨f1, -, -, -, -, f6, -⟩ := Done_frame x (OpenStream p dir r).1
  have hrq : (Done x (OpenStream p dir r).1).refCnt q = 0 := by
    rw [d2 q, hcs, hrc q]
    simp [hqx, hqT, hqS, hr1, hrf]
  have huq2 : (Done x (OpenStream p dir r).1).used q = 0 := by
    rw [d1 q, hcs]
    simp [hqx, hqd, huq, hux, hu]
  have hdq : (Done x (OpenStream p dir r).1).done q = false := by
    rw [d3, Function.update_noteq hqx]
    exact hqd
  refine ⟨q, by rw [f1]; exact hq, hrq, huq2, ?_, by rw [f6]; exact hqlt,
    wf_Done hwf1 x (Or.inr hks)⟩
  rw [IsUnused_iff]
  exact ⟨hrq, huq2, hdq⟩

/-! ## Well-formedness of the further example states -/

theorem wf_connClosed : WF connClosed :=
  wf_Done wf_scenarioE1 2 (Or.inl (by decide))

theorem wf_streamDone : WF streamDone :=
  wf_Done (wf_streamOpened limitsE3) 3 (Or.inr (by decide))

/-! ## The accessors of connection and stream scopes -/

/-- The accessors convert the link field to an interface value: what they
return holds the link, and is never the nil interface, attached or not. -/
theorem accessors_never_nil (s : Nat) (r : resourceManager) :
    PeerScope s r ≠ ScopeIface.nil ∧ ProtocolScope s r ≠ ScopeIface.nil ∧
      ServiceScope s r ≠ ScopeIface.nil := by
  simp [PeerScope, ProtocolScope, ServiceScope]

/-! # The claims -/

/-! ## C1, C2: `SetPeer` -/

/-- C1: a successful `SetPeer(p)` on a connection without a peer moves the
connection's usage `s` from the transient scope to the peer scope of `p`:
Transient's used vector decreases by exactly `s`, Peer(p)'s increases by
exactly `s` (from zero when the call created the scope), the used vectors of
the system scope and of the connection are unchanged, and the connection is
attached to the scope registered for `p`. -/
theorem C1_SetPeer_moves_charge (r : resourceManager) (c : Nat) (p : String)
    (hwf : WF r) (hc : c < r.next) (hk : (r.kind c).isConn = true)
    (hnp : r.s_peer c = none) (hok : (SetPeer c p r).2 = none) :
    (SetPeer c p r).1.used (SetPeer c p r).1.transient = r.used r.transient - stat c r ∧
      regUsed (SetPeer c p r).1.peer p (SetPeer c p r).1 = regUsed r.peer p r + stat c r ∧
      (SetPeer c p r).1.used (SetPeer c p r).1.system = r.used r.system ∧
      stat c (SetPeer c p r).1 = stat c r ∧
      (SetPeer c p r).1.s_peer c = mapGet (SetPeer c p r).1.peer p ∧
      (SetPeer c p r).1.s_peer c ≠ none := by
  obtain ⟨hcT, hcS, hTS, hpeer, -, -⟩ := hwf.conn_facts (Or.inl hk)
  have hTd := hwf.transient_live
  have hTlt := hwf.transient_lt
  have hSlt := hwf.system_lt
  cases hq : mapGet r.peer p with
  | some q =>
    obtain ⟨hqc, hqT, hqS, -⟩ := hpeer p q (mapGet_mem hq)
    simp only [SetPeer, hnp, getPeerScope, hq, stat, IncRef, ReserveForChild, PeerScope,
      regUsed] at hok ⊢
    simp only [ne_eq, not_true_eq_false, if_false] at hok ⊢
    split_ifs at hok ⊢ with h1 h2
    simp [ReleaseForChild, DecRef, Function.update_apply, hTd, hq, hqT, hqS, hqc, hcT, hcS,
      hTS, Ne.symm hqT, Ne.symm hqS, Ne.symm hqc, Ne.symm hTS]
  | none =>
    have hnT : r.next ≠ r.transient := Nat.ne_of_gt hTlt
    have hnS : r.next ≠ r.system := Nat.ne_of_gt hSlt
    have hnc : r.next ≠ c := Nat.ne_of_gt hc
    simp only [SetPeer, hnp, getPeerScope, hq, stat, IncRef, ReserveForChild, PeerScope,
      regUsed, newPeerScope, newResourceScope, incRefAll, resourceManager.logCall] at hok ⊢
    simp only [ne_eq, not_true_eq_false, if_false] at hok ⊢
    split_ifs at hok ⊢ with h1 h2
    simp [ReleaseForChild, DecRef, Function.update_apply, hTd, hnT, hnS, hnc, hcT, hcS,
      hTS, Ne.symm hnT, Ne.symm hnS, Ne.symm hnc, Ne.symm hTS, mapGet_mapSet _ _ hq]

/-- C2, counterexample: in scenario E2 `SetPeer(P)` on the connection (object
2, no peer) is rejected and the peer link is unset afterwards, yet
`PeerScope()` is not nil: `return s.peer` hands out an interface value that
holds the nil pointer. -/
theorem C2_counterexample :
    (scenarioE2.kind 2).isConn = true ∧ scenarioE2.s_peer 2 = none ∧
      (SetPeer 2 "P" scenarioE2).2 = some Error.LimitExceeded ∧
      (SetPeer 2 "P" scenarioE2).1.s_peer 2 = none ∧
      PeerScope 2 (SetPeer 2 "P" scenarioE2).1 = ScopeIface.ofPtr none ∧
      PeerScope 2 (SetPeer 2 "P" scenarioE2).1 ≠ ScopeIface.nil :=
  ⟨by decide, by decide, by decide, by decide, by decide, by decide⟩

/-- C2, corrected statement: when `SetPeer(p)` on a connection without a peer
fails (the peer scope rejected `ReserveForChild`), the peer link of the
connection is unset (the field is nil), its constraint list is still
`[Transient, System]`, the used vectors of the connection, of Transient, of
System and of Peer(p) are the pre-call ones, and the reference count of
Peer(p) is the pre-call one (zero when the call created the scope). -/
theorem C2_SetPeer_failure_rolls_back (r : resourceManager) (c : Nat) (p : String)
    (hwf : WF r) (hc : c < r.next) (hk : (r.kind c).isConn = true)
    (hnp : r.s_peer c = none) (hfail : (SetPeer c p r).2 ≠ none) :
    (SetPeer c p r).1.s_peer c = none ∧
      (SetPeer c p r).1.constraints c =
        [(SetPeer c p r).1.transient, (SetPeer c p r).1.system] ∧
      stat c (SetPeer c p r).1 = stat c r ∧
      (SetPeer c p r).1.used (SetPeer c p r).1.transient = r.used r.transient ∧
      (SetPeer c p r).1.used (SetPeer c p r).1.system = r.used r.system ∧
      regUsed (SetPeer c p r).1.peer p (SetPeer c p r).1 = regUsed r.peer p r ∧
      regRefs (SetPeer c p r).1.peer p (SetPeer c p r).1 = regRefs r.peer p r := by
  obtain ⟨hcT, hcS, hTS, hpeer, -, -⟩ := hwf.conn_facts (Or.inl hk)
  have hTlt := hwf.transient_lt
  have hSlt := hwf.system_lt
  have hcs := hwf.conn_ok c hc hk
  simp only [ConnOK, hnp] at hcs
  cases hq : mapGet r.peer p with
  | some q =>
    obtain ⟨hqc, hqT, hqS, -⟩ := hpeer p q (mapGet_mem hq)
    simp only [SetPeer, hnp, getPeerScope, hq, stat, IncRef, ReserveForChild, PeerScope,
      regUsed, regRefs] at hfail ⊢
    simp only [ne_eq, not_true_eq_false, if_false] at hfail ⊢
    split_ifs at hfail ⊢ with h1 h2
    · simp [DecRef, Function.update_apply, hq, hcs]
    · simp at hfail
    · simp [DecRef, Function.update_apply, hq, hcs]
  | none =>
    have hnT : r.next ≠ r.transient := Nat.ne_of_gt hTlt
    have hnS : r.next ≠ r.system := Nat.ne_of_gt hSlt
    have hnc : r.next ≠ c := Nat.ne_of_gt hc
    simp only [SetPeer, hnp, getPeerScope, hq, stat, IncRef, ReserveForChild, PeerScope,
      regUsed, regRefs, newPeerScope, newResourceScope, incRefAll,
      resourceManager.logCall] at hfail ⊢
    simp only [ne_eq, not_true_eq_false, if_false] at hfail ⊢
    split_ifs at hfail ⊢ with h1 h2
    · simp at h1
    · simp at hfail
    · simp [DecRef, Function.update_apply, hnT, hnS, hnc, hcT, hcS,
        hTS, Ne.symm hnT, Ne.symm hnS, Ne.symm hnc, Ne.symm hTS, mapGet_mapSet _ _ hq, hcs]

/-! ## C3, C4, C5: `SetProtocol` and `SetService` -/

/-- C3: a successful `SetProtocol(id)` on a stream without a protocol moves
the stream's usage `s` from the transient scope to the protocol scope of `id`:
Transient's used vector decreases by exactly `s`, Protocol(id)'s increases by
exactly `s` (from zero when the call created the scope), the used vectors of
the stream's peer scope, of the system scope and of the stream are unchanged,
and the constraint list becomes `[Peer, Protocol(id), System]`. -/
theorem C3_SetProtocol_moves_charge (r : resourceManager) (x : Nat) (id : String)
    (hwf : WF r) (hx : x < r.next) (hk : (r.kind x).isStream = true)
    (hnp : r.s_proto x = none) (hok : (SetProtocol x id r).2 = none) :
    ∃ pr q, r.s_peer x = some pr ∧ mapGet (SetProtocol x id r).1.proto id = some q ∧
      (SetProtocol x id r).1.s_proto x = some q ∧
      (SetProtocol x id r).1.used (SetProtocol x id r).1.transient =
        r.used r.transient - stat x r ∧
      regUsed (SetProtocol x id r).1.proto id (SetProtocol x id r).1 =
        regUsed r.proto id r + stat x r ∧
      (SetProtocol x id r).1.used pr = r.used pr ∧
      (SetProtocol x id r).1.used (SetProtocol x id r).1.system = r.used r.system ∧
      stat x (SetProtocol x id r).1 = stat x r ∧
      (SetProtocol x id r).1.constraints x = [pr, q, (SetProtocol x id r).1.system] := by
  obtain ⟨hxT, hxS, hTS, -, -, -⟩ := hwf.conn_facts (Or.inr hk)
  obtain ⟨pr', hpr', -, -, hprT, -, -, -⟩ := hwf.stream_facts hx hk
  obtain ⟨pr, q, a1, a2, -, a4, -, a6, a7, a8, a9, a10, a11, -, -, b1, b2, b3, b4, -, -⟩ :=
    SetProtocol_ok_spec hwf hx hk id hnp hok
  have hprT' : pr ≠ r.transient := by
    have : pr = pr' := Option.some.inj (a1.symm.trans hpr')
    rw [this]; exact hprT
  refine ⟨pr, q, a1, a2, a4, ?_, ?_, ?_, ?_, ?_, ?_⟩
  · rw [a8]; exact a9
  · simp only [regUsed, a2]; exact a10
  · exact a11 pr hprT' (Ne.symm b1)
  · rw [a7]; exact a11 _ (Ne.symm hTS) (Ne.symm b3)
  · exact a11 x hxT (Ne.symm b4)
  · rw [a7]; exact a6

/-- C4: a successful `SetService(name)` on a stream with a protocol and no
service charges the stream's usage `s` to the service scope of `name` and to
nothing else: Service(name)'s used vector increases by exactly `s` (from zero
when the call created the scope), the used vector of every other scope (the
service scope is none of Peer, Protocol, Transient, System, or the stream) is
unchanged, and the constraint list becomes
`[Peer, Protocol, Service(name), System]`. -/
theorem C4_SetService_adds_charge (r : resourceManager) (x : Nat) (name : String)
    (hwf : WF r) (hx : x < r.next) (hk : (r.kind x).isStream = true)
    (hp : r.s_proto x ≠ none) (hns : r.s_svc x = none)
    (hok : (SetService x name r).2 = none) :
    ∃ pr q v, r.s_peer x = some pr ∧ r.s_proto x = some q ∧
      mapGet (SetService x name r).1.svc name = some v ∧
      (SetService x name r).1.s_svc x = some v ∧
      regUsed (SetService x name r).1.svc name (SetService x name r).1 =
        regUsed r.svc name r + stat x r ∧
      (∀ y, y ≠ v → (SetService x name r).1.used y = r.used y) ∧
      v ≠ pr ∧ v ≠ q ∧ v ≠ r.transient ∧ v ≠ r.system ∧ v ≠ x ∧
      (SetService x name r).1.constraints x = [pr, q, v, (SetService x name r).1.system] := by
  obtain ⟨pr, q, v, a1, a2, a3, -, -, a6, a7, a8, -, a10, a11, -, -, b1, b2, b3, b4, b5, -, -⟩ :=
    SetService_ok_spec hwf hx hk name hp hns hok
  refine ⟨pr, q, v, a1, a2, a3, a6, ?_, a11, b1, b2, b3, b4, b5, ?_⟩
  · simp only [regUsed, a3]; exact a10
  · rw [a8]; exact a7

/-- C5: when `SetProtocol(id)` (on a stream without a protocol) or
`SetService(name)` (on a stream with a protocol and no service) fails because
the fetched scope rejects `ReserveForChild`, the stream's cross-link is unset,
its constraint list is unchanged, the used vector of every scope that existed
before the call (the stream, Peer, Transient, System, the rejecting scope) is
the pre-call one, and the used vector and the reference count of the rejecting
scope are the pre-call ones (zero when the call created the scope). -/
theorem C5_attach_failure_rolls_back :
    (∀ (r : resourceManager) (x : Nat) (id : String), WF r → x < r.next →
      (r.kind x).isStream = true → r.s_proto x = none →
      (SetProtocol x id r).2 ≠ none →
      (SetProtocol x id r).1.s_proto x = none ∧
        (SetProtocol x id r).1.constraints x = r.constraints x ∧
        (∀ y, y < r.next → (SetProtocol x id r).1.used y = r.used y) ∧
        regUsed (SetProtocol x id r).1.proto id (SetProtocol x id r).1 =
          regUsed r.proto id r ∧
        regRefs (SetProtocol x id r).1.proto id (SetProtocol x id r).1 =
          regRefs r.proto id r) ∧
    (∀ (r : resourceManager) (x : Nat) (name : String), WF r → x < r.next →
      (r.kind x).isStream = true → r.s_proto x ≠ none → r.s_svc x = none →
      (SetService x name r).2 ≠ none →
      (SetService x name r).1.s_svc x = none ∧
        (SetService x name r).1.constraints x = r.constraints x ∧
        (∀ y, y < r.next → (SetService x name r).1.used y = r.used y) ∧
        regUsed (SetService x name r).1.svc name (SetService x name r).1 =
          regUsed r.svc name r ∧
        regRefs (SetService x name r).1.svc name (SetService x name r).1 =
          regRefs r.svc name r) := by
  constructor
  · intro r x id hwf hx hk hnp hfail
    obtain ⟨a1, a2, a3, a4, a5, -, -⟩ := SetProtocol_fail_spec hwf hx hk id hnp hfail
    exact ⟨a1, a2, a3, a4, a5⟩
  · intro r x name hwf hx hk hp hns hfail
    obtain ⟨a1, a2, a3, a4, a5, -, -⟩ := SetService_fail_spec hwf hx hk name hp hns hfail
    exact ⟨a1, a2, a3, a4, a5⟩

/-! ## C6: the stream lifecycle -/

/-- C6: stream lifecycle round trip.  When `OpenStream(P, d)`, `SetProtocol(Q)`
and `SetService(S)` all succeed and the stream's `Done()` is then called, the
used vectors of Peer(P), Protocol(Q), Service(S), Transient and System are
back at their values from before `OpenStream` (zero for a scope the sequence
created). -/
theorem C6_stream_round_trip (r r1 r2 r3 : resourceManager) (p id name : String)
    (dir : Direction) (x : Nat) (hwf : WF r)
    (h1 : OpenStream p dir r = (r1, Except.ok x))
    (h2 : SetProtocol x id r1 = (r2, none))
    (h3 : SetService x name r2 = (r3, none)) :
    regUsed (Done x r3).peer p (Done x r3) = regUsed r.peer p r ∧
      regUsed (Done x r3).proto id (Done x r3) = regUsed r.proto id r ∧
      regUsed (Done x r3).svc name (Done x r3) = regUsed r.svc name r ∧
      (Done x r3).used (Done x r3).transient = r.used r.transient ∧
      (Done x r3).used (Done x r3).system = r.used r.system := by
  -- after OpenStream
  have hw1 : WF r1 := by
    have := wf_OpenStream hwf p dir
    rw [h1] at this
    exact this
  have h1' : (OpenStream p dir r).2 = Except.ok x := by rw [h1]
  obtain ⟨q, a1, a2, a3, a4, a5, a6, a7, a8, a9, a10, a11, a12, a13, a14, a15, a16, a17, a18⟩ :=
    OpenStream_ok_spec hwf p dir h1'
  rw [h1] at a1 a3 a4 a5 a6 a7 a8 a9 a10 a11 a12 a13 a14 a15 a16 a17 a18
  dsimp only at a1 a3 a4 a5 a6 a7 a8 a9 a10 a11 a12 a13 a14 a15 a16 a17 a18
  have hk1 : (r1.kind x).isStream = true := by rw [a4]; rfl
  -- after SetProtocol
  have hw2 : WF r2 := by
    have := wf_SetProtocol hw1 a3 hk1 id
    rw [h2] at this
    exact this
  have h2' : (SetProtocol x id r1).2 = none := by rw [h2]
  obtain ⟨pr, qp, b1, b2, b3, b4, b5, b6, b7, b8, b9, b10, b11, b12, b13, c1, c2, c3, c4, c5,
    c6⟩ := SetProtocol_ok_spec hw1 a3 hk1 id a7 h2'
  rw [h2] at b2 b3 b4 b5 b6 b7 b8 b9 b10 b11 b12 b13 c5 c6
  dsimp only at b2 b3 b4 b5 b6 b7 b8 b9 b10 b11 b12 b13 c5 c6
  have hprq : q = pr := Option.some.inj (a6.symm.trans b1)
  subst hprq
  have hx2 : x < r2.next := Nat.lt_of_lt_of_le a3 c5
  have hk2 : (r2.kind x).isStream = true := by rw [(c6 x a3).2]; exact hk1
  have hd2 : r2.done x = false := by rw [(c6 x a3).1]; exact a5
  obtain ⟨hxT, hxS, hTS, hpeer1, -, -⟩ := hw1.conn_facts (Or.inr hk1)
  obtain ⟨hqx, hqT, hqS, hqlt⟩ := hpeer1 p q (mapGet_mem a1)
  rw [a10] at hxS hTS hqS
  rw [a11] at hxT hTS hqT
  rw [a10] at b6 b7
  rw [a11] at b8 b9 b11 c2
  rw [a10] at c3
  -- after SetService
  have hw3 : WF r3 := by
    have := wf_SetService hw2 hx2 hk2 name
    rw [h3] at this
    exact this
  have h3' : (SetService x name r2).2 = none := by rw [h3]
  have hp2 : r2.s_proto x ≠ none := by rw [b4]; simp
  obtain ⟨pr', q', v, d1, d2, d3, d4, d5, d6, d7, d8, d9, d10, d11, d12, d13, e1, e2, e3, e4,
    e5, e6, e7⟩ := SetService_ok_spec hw2 hx2 hk2 name hp2 b5 h3'
  rw [h3] at d3 d4 d5 d6 d7 d8 d9 d10 d11 d12 d13 e6 e7
  dsimp only at d3 d4 d5 d6 d7 d8 d9 d10 d11 d12 d13 e6 e7
  have hpr' : q = pr' := Option.some.inj (b3.symm.trans d1)
  have hq' : qp = q' := Option.some.inj (b4.symm.trans d2)
  subst hpr' hq'
  rw [b7] at d7 d8 e4
  rw [b8] at d9 e3
  have hd3 : r3.done x = false := by rw [(e7 x hx2).1]; exact hd2
  -- the parents of the stream are registered, hence not done
  have hpeer3 : mapGet r3.peer p = some q := by rw [d12, b12]; exact a1
  have hproto3 : mapGet r3.proto id = some qp := by rw [d13]; exact b2
  have hdq : r3.done q = false := (hw3.peer_ok p q (mapGet_mem hpeer3)).2.2
  have hdqp : r3.done qp = false := (hw3.proto_ok id qp (mapGet_mem hproto3)).2.2
  have hdv : r3.done v = false := (hw3.svc_ok name v (mapGet_mem d3)).2.2
  have hdS : r3.done r.system = false := by
    have := hw3.system_live
    rw [d8] at this
    exact this
  have hnd : (r3.constraints x).Nodup := by
    rw [d7]
    simp [Ne.symm c1, Ne.symm e1, hqS, Ne.symm e2, c3, e4]
  have hxn : x ∉ r3.constraints x := by
    rw [d7]
    simp [Ne.symm hqx, Ne.symm c4, Ne.symm e5, hxS]
  obtain ⟨hu, -, -⟩ := Done_spec hd3 hnd hxn
  obtain ⟨f1, f2, f3, f4, f5, -⟩ := Done_frame x r3
  -- the usage of the stream is the stream delta throughout
  have hux3 : r3.used x = streamDelta dir := by
    rw [d11 x (Ne.symm e5), b11 x hxT (Ne.symm c4), a12]
  -- scopes registered before the sequence are older than the stream
  have hold : ∀ y, y < r.next → y ≠ x := fun y hy => Nat.ne_of_lt (Nat.lt_of_lt_of_le hy a2)
  -- scopes registered before the sequence are neither the stream, nor
  -- Transient, nor System, nor a scope of another registry
  have hTr : r.transient < r.next := hwf.transient_lt
  have hSr : r.system < r.next := hwf.system_lt
  have hregP : ∀ y, mapGet r.proto id = some y → r1.used y = r.used y := by
    intro y hy
    have hy1 : mapGet r1.proto id = some y := by rw [a17]; exact hy
    obtain ⟨-, hk, -⟩ := hw1.proto_ok id y (mapGet_mem hy1)
    obtain ⟨hlt, -, -⟩ := hwf.proto_ok id y (mapGet_mem hy)
    have n1 : y ≠ q := by
      rintro rfl
      rw [(hw1.peer_ok p y (mapGet_mem a1)).2.1] at hk
      cases hk
    have n2 : y ≠ r.transient := by
      rintro rfl
      rw [← a11, hw1.transient_kind] at hk
      cases hk
    have n3 : y ≠ r.system := by
      rintro rfl
      rw [← a10, hw1.system_kind] at hk
      cases hk
    exact a16 y (hold y hlt) n1 n2 n3
  have hregS : ∀ y, mapGet r.svc name = some y → r2.used y = r.used y := by
    intro y hy
    have hy1 : mapGet r1.svc name = some y := by rw [a18]; exact hy
    obtain ⟨-, hk, -⟩ := hw1.svc_ok name y (mapGet_mem hy1)
    obtain ⟨hlt, -, -⟩ := hwf.svc_ok name y (mapGet_mem hy)
    have n1 : y ≠ q := by
      rintro rfl
      rw [(hw1.peer_ok p y (mapGet_mem a1)).2.1] at hk
      cases hk
    have n2 : y ≠ r.transient := by
      rintro rfl
      rw [← a11, hw1.transient_kind] at hk
      cases hk
    have n3 : y ≠ r.system := by
      rintro rfl
      rw [← a10, hw1.system_kind] at hk
      cases hk
    have n4 : y ≠ qp := by
      rintro rfl
      have hy2 : mapGet r2.svc name = some y := by rw [b13]; exact hy1
      have := (hw2.svc_ok name y (mapGet_mem hy2)).2.1
      rw [(hw2.proto_ok id y (mapGet_mem b2)).2.1] at this
      cases this
    rw [b11 y n2 n4]
    exact a16 y (hold y hlt) n1 n2 n3
  refine ⟨?_, ?_, ?_, ?_, ?_⟩
  · rw [f1]
    simp only [regUsed, hpeer3]
    rw [hu, d7]
    simp only [hqx, if_false, List.mem_cons, true_or, hdq, true_and, if_true, hux3]
    rw [d11 _ (Ne.symm e1), b11 _ hqT (Ne.symm c1), a13]
    simp [regUsed]
  · rw [f2]
    simp only [regUsed, hproto3]
    rw [hu, d7]
    simp only [c4, if_false, List.mem_cons, true_or, or_true, hdqp, true_and, if_true, hux3]
    rw [d11 _ (Ne.symm e2), b10, a12, a17, regUsed_congr hregP]
    simp [regUsed]
  · rw [f3]
    simp only [regUsed, d3]
    rw [hu, d7]
    simp only [e5, if_false, List.mem_cons, true_or, or_true, hdv, true_and, if_true, hux3]
    rw [d10, b13, a18, regUsed_congr hregS, b11 x hxT (Ne.symm c4), a12]
    simp [regUsed]
  · rw [f5, d9, hu, d7]
    simp only [Ne.symm hxT, if_false, List.mem_cons, Ne.symm hqT, Ne.symm c2, Ne.symm e3, hTS,
      List.mem_singleton, or_self, false_and, List.not_mem_nil]
    rw [d11 _ (Ne.symm e3), b9, a14, a12]
    simp
  · rw [f4, d8, hu, d7]
    simp only [Ne.symm hxS, if_false, List.mem_cons, List.mem_singleton, or_true, hdS, true_and,
      if_true, hux3]
    rw [d11 _ (Ne.symm e4), b11 _ (Ne.symm hTS) (Ne.symm c3), a15]
    simp

/-! ## C7, C8: the guards of the edge migrations -/

/-- C7: `SetPeer` on a connection that has a peer, `SetProtocol` on a stream
that has a protocol and `SetService` on a stream that has a service each
return the error `AlreadyAttached` and leave the whole state unchanged (links,
constraint lists, used vectors, reference counts and the three registries). -/
theorem C7_already_attached :
    (∀ (r : resourceManager) (c : Nat) (p : String), r.s_peer c ≠ none →
      SetPeer c p r = (r, some Error.AlreadyAttached)) ∧
    (∀ (r : resourceManager) (x : Nat) (id : String), r.s_proto x ≠ none →
      SetProtocol x id r = (r, some Error.AlreadyAttached)) ∧
    (∀ (r : resourceManager) (x : Nat) (name : String), WF r → x < r.next →
      (r.kind x).isStream = true → r.s_svc x ≠ none →
      SetService x name r = (r, some Error.AlreadyAttached)) := by
  refine ⟨?_, ?_, ?_⟩
  · intro r c p h
    simp [SetPeer, h]
  · intro r x id h
    simp [SetProtocol, h]
  · intro r x name hwf hx hk h
    obtain ⟨pr, -, -, -, d⟩ := hwf.stream_ok x hx hk
    have hq : r.s_proto x ≠ none := by
      intro hq
      obtain ⟨v, hv⟩ := Option.ne_none_iff_exists'.mp h
      simp [hq, hv] at d
    simp [SetService, h, hq]

/-- C8: on a stream without a protocol, `SetService(name)` returns the error
`NotAttachedToProtocol` for every name and leaves the whole state unchanged;
the stream has no service link, and the service registry has no new scope. -/
theorem C8_service_needs_protocol (r : resourceManager) (x : Nat) (name : String)
    (hwf : WF r) (hx : x < r.next) (hk : (r.kind x).isStream = true)
    (hnp : r.s_proto x = none) :
    SetService x name r = (r, some Error.NotAttachedToProtocol) ∧
      (SetService x name r).1.s_svc x = none ∧
      (SetService x name r).1.svc = r.svc := by
  have h1 : SetService x name r = (r, some Error.NotAttachedToProtocol) := by
    simp [SetService, hnp]
  refine ⟨h1, ?_, by rw [h1]⟩
  rw [h1]
  obtain ⟨pr, -, -, -, d⟩ := hwf.stream_ok x hx hk
  cases hv : r.s_svc x with
  | none => rfl
  | some v => simp [hnp, hv] at d

/-! ## C9: the reclaimer pass -/

/-- C9: one reclaimer pass removes from the protocol and peer registries
exactly the entries whose scope was unused before the pass and marks each
removed scope done; an entry whose scope has `refs ≥ 1` or a non-zero used
vector stays, mapped to the same scope, which is not marked done; the service
registry is unchanged. -/
theorem C9_gc_removes_exactly_unused (r : resourceManager) (hwf : WF r) :
    (gc r).proto = r.proto.filter (fun e => !IsUnused e.2 r) ∧
      (gc r).peer = r.peer.filter (fun e => !IsUnused e.2 r) ∧
      (∀ k s, ((k, s) ∈ r.proto ∨ (k, s) ∈ r.peer) → IsUnused s r = true →
        (gc r).done s = true) ∧
      (∀ k s, (k, s) ∈ r.proto → (1 ≤ r.refCnt s ∨ r.used s ≠ 0) →
        mapGet (gc r).proto k = some s ∧ (gc r).done s = false) ∧
      (∀ k s, (k, s) ∈ r.peer → (1 ≤ r.refCnt s ∨ r.used s ≠ 0) →
        mapGet (gc r).peer k = some s ∧ (gc r).done s = false) ∧
      (gc r).svc = r.svc := by
  obtain ⟨hw', hsvc, hproto, hpeer, -, hdone, -⟩ := gc_spec hwf
  have hnot : ∀ s, (1 ≤ r.refCnt s ∨ r.used s ≠ 0) → IsUnused s r = false := by
    intro s hs
    cases hu : IsUnused s r with
    | false => rfl
    | true =>
      obtain ⟨h1, h2, -⟩ := (IsUnused_iff s r).mp hu
      rcases hs with hs | hs
      · rw [h1] at hs
        exact absurd hs (by decide)
      · exact absurd h2 hs
  have hkeep : ∀ s, r.done s = false → IsUnused s r = false → (gc r).done s = false := by
    intro s hd hu
    rw [hdone, hd, hu]
    simp
  refine ⟨hproto, hpeer, ?_, ?_, ?_, hsvc⟩
  · intro k s hks hu
    rw [hdone]
    have : (r.proto ++ r.peer).any (fun e => decide (e.2 = s) && IsUnused s r) = true := by
      rw [List.any_eq_true]
      refine ⟨(k, s), ?_, by simp [hu]⟩
      rw [List.mem_append]
      exact hks
    rw [this, Bool.or_true]
  · intro k s hks hs
    have hu := hnot s hs
    refine ⟨?_, hkeep s (hwf.proto_ok k s hks).2.2 hu⟩
    apply mapGet_of_mem hw'.proto_keys
    rw [hproto, List.mem_filter]
    exact ⟨hks, by simp [hu]⟩
  · intro k s hks hs
    have hu := hnot s hs
    refine ⟨?_, hkeep s (hwf.peer_ok k s hks).2.2 hu⟩
    apply mapGet_of_mem hw'.peer_keys
    rw [hpeer, List.mem_filter]
    exact ⟨hks, by simp [hu]⟩

/-! ## C10: the reclaimer spares what a live scope hangs on -/

/-- C10: in every reachable state a reclaimer pass neither removes nor marks
done a peer or protocol scope in the constraint list of a live (opened, not
yet `Done`) connection or stream: such a scope holds a reference and so is not
unused.  In particular, when `OpenStream(p, d)` has succeeded (its extra
reference on Peer(p) already released), Peer(p) is not unused. -/
theorem C10_gc_spares_live_parents (limits : Limiter) (r : resourceManager)
    (hr : Reachable limits r) :
    (∀ x q, x < r.next → isLive r x = true → q ∈ r.constraints x →
      ((r.kind q).isPeer = true ∨ (r.kind q).isProtocol = true) →
      IsUnused q r = false ∧ (gc r).done q = r.done q ∧
        (∀ k, (k, q) ∈ r.peer → (k, q) ∈ (gc r).peer) ∧
        (∀ k, (k, q) ∈ r.proto → (k, q) ∈ (gc r).proto)) ∧
    (∀ p dir x, (OpenStream p dir r).2 = Except.ok x →
      ∃ q, mapGet (OpenStream p dir r).1.peer p = some q ∧
        IsUnused q (OpenStream p dir r).1 = false) := by
  constructor
  · intro x q hx hl hq hk
    have hwf := hr.wellFormed
    have hreg : (r.kind q).isRegistered = true := by
      cases hkq : r.kind q <;>
        simp [hkq, ScopeKind.isPeer, ScopeKind.isProtocol, ScopeKind.isRegistered] at hk ⊢
    obtain ⟨-, hu⟩ := live_parent_not_unused hwf hr.refSlack hx hl hq hreg
    obtain ⟨-, -, hproto, hpeer, -, hdone, -⟩ := gc_spec hwf
    refine ⟨hu, ?_, ?_, ?_⟩
    · rw [hdone, hu]
      simp
    · intro k hm
      rw [hpeer, List.mem_filter]
      exact ⟨hm, by simp [hu]⟩
    · intro k hm
      rw [hproto, List.mem_filter]
      exact ⟨hm, by simp [hu]⟩
  · intro p dir x hok
    have hr' : Reachable limits (OpenStream p dir r).1 := Reachable.openStream p dir hr
    obtain ⟨q, a1, -, a3, a4, a5, -, -, -, a9, -⟩ := OpenStream_ok_spec hr.wellFormed p dir hok
    refine ⟨q, a1, ?_⟩
    have hkq := (hr'.wellFormed.peer_ok p q (mapGet_mem a1)).2.1
    refine (live_parent_not_unused hr'.wellFormed hr'.refSlack a3 ?_ (q := q) ?_ ?_).2
    · simp [isLive, a4, a5, ScopeKind.isStream]
    · rw [a9]
      simp
    · rw [hkq]
      rfl

/-! ## Witnesses: the hypotheses of the claims hold in the scenarios -/

/-- Witness of C1 in scenario E1: `SetPeer(P)` succeeds and moves the charge. -/
theorem C1_witness :
    (SetPeer 2 "P" scenarioE1).1.used (SetPeer 2 "P" scenarioE1).1.transient =
        scenarioE1.used scenarioE1.transient - stat 2 scenarioE1 ∧
      regUsed (SetPeer 2 "P" scenarioE1).1.peer "P" (SetPeer 2 "P" scenarioE1).1 =
        regUsed scenarioE1.peer "P" scenarioE1 + stat 2 scenarioE1 ∧
      (SetPeer 2 "P" scenarioE1).1.used (SetPeer 2 "P" scenarioE1).1.system =
        scenarioE1.used scenarioE1.system ∧
      stat 2 (SetPeer 2 "P" scenarioE1).1 = stat 2 scenarioE1 ∧
      (SetPeer 2 "P" scenarioE1).1.s_peer 2 =
        mapGet (SetPeer 2 "P" scenarioE1).1.peer "P" ∧
      (SetPeer 2 "P" scenarioE1).1.s_peer 2 ≠ none :=
  C1_SetPeer_moves_charge scenarioE1 2 "P" wf_scenarioE1 (by decide) (by decide) (by decide)
    (by decide)

/-- Witness of the corrected C2 in scenario E2: `SetPeer(P)` is rejected and
the peer link stays unset. -/
theorem C2_witness :
    (SetPeer 2 "P" scenarioE2).1.s_peer 2 = none ∧
      regRefs (SetPeer 2 "P" scenarioE2).1.peer "P" (SetPeer 2 "P" scenarioE2).1 =
        regRefs scenarioE2.peer "P" scenarioE2 :=
  have h := C2_SetPeer_failure_rolls_back scenarioE2 2 "P" wf_scenarioE2 (by decide) (by decide)
    (by decide) (by decide)
  ⟨h.1, h.2.2.2.2.2.2⟩

/-- Witness of C3 in scenario E3: `SetProtocol(Q)` succeeds on the fresh
stream. -/
theorem C3_witness :
    ∃ pr q, (streamOpened limitsE3).s_peer 3 = some pr ∧
      mapGet (SetProtocol 3 "Q" (streamOpened limitsE3)).1.proto "Q" = some q ∧
      (SetProtocol 3 "Q" (streamOpened limitsE3)).1.constraints 3 =
        [pr, q, (SetProtocol 3 "Q" (streamOpened limitsE3)).1.system] :=
  have ⟨pr, q, h1, h2, _, _, _, _, _, _, h9⟩ :=
    C3_SetProtocol_moves_charge (streamOpened limitsE3) 3 "Q" (wf_streamOpened _) (by decide)
      (by decide) (by decide) (by decide)
  ⟨pr, q, h1, h2, h9⟩

/-- Witness of C4 in scenario E3: `SetService("bitswap")` succeeds on the
stream with a protocol. -/
theorem C4_witness :
    regUsed (SetService 3 "bitswap" (streamWithProtocol limitsE3)).1.svc "bitswap"
        (SetService 3 "bitswap" (streamWithProtocol limitsE3)).1 =
      regUsed (streamWithProtocol limitsE3).svc "bitswap" (streamWithProtocol limitsE3) +
        stat 3 (streamWithProtocol limitsE3) :=
  have ⟨_, _, _, _, _, _, _, h, _⟩ :=
    C4_SetService_adds_charge (streamWithProtocol limitsE3) 3 "bitswap" wf_streamWithProtocolE3
      (by decide) (by decide) (by decide) (by decide) (by decide)
  h

/-- Witness of C5: a rejected `SetProtocol` and a rejected `SetService`. -/
theorem C5_witness :
    (SetProtocol 3 "Q" streamNoProtocolRoom).1.s_proto 3 = none ∧
      (SetService 3 "bitswap" streamNoServiceRoom).1.s_svc 3 = none :=
  ⟨(C5_attach_failure_rolls_back.1 streamNoProtocolRoom 3 "Q" (wf_streamOpened _) (by decide)
      (by decide) (by decide) (by decide)).1,
    (C5_attach_failure_rolls_back.2 streamNoServiceRoom 3 "bitswap" wf_streamNoServiceRoom
      (by decide) (by decide) (by decide) (by decide) (by decide)).1⟩

/-- Witness of C6: scenario E3 run to the end. -/
theorem C6_witness :
    regUsed streamClosed.peer "P" streamClosed =
        regUsed (NewResourceManager limitsE3).peer "P" (NewResourceManager limitsE3) ∧
      regUsed streamClosed.proto "Q" streamClosed =
        regUsed (NewResourceManager limitsE3).proto "Q" (NewResourceManager limitsE3) ∧
      regUsed streamClosed.svc "bitswap" streamClosed =
        regUsed (NewResourceManager limitsE3).svc "bitswap" (NewResourceManager limitsE3) ∧
      streamClosed.used streamClosed.transient =
        (NewResourceManager limitsE3).used (NewResourceManager limitsE3).transient ∧
      streamClosed.used streamClosed.system =
        (NewResourceManager limitsE3).used (NewResourceManager limitsE3).system :=
  C6_stream_round_trip (NewResourceManager limitsE3) (streamOpened limitsE3)
    (streamWithProtocol limitsE3) (streamWithService limitsE3) "P" "Q" "bitswap"
    Direction.DirOutbound 3 (wf_NewResourceManager _) rfl rfl rfl

/-- Witness of C7: the three second attachments are refused. -/
theorem C7_witness :
    SetPeer 2 "P2" scenarioE1Attached = (scenarioE1Attached, some Error.AlreadyAttached) ∧
      SetProtocol 3 "Q2" (streamWithProtocol limitsE3) =
        (streamWithProtocol limitsE3, some Error.AlreadyAttached) ∧
      SetService 3 "other" (streamWithService limitsE3) =
        (streamWithService limitsE3, some Error.AlreadyAttached) :=
  ⟨C7_already_attached.1 scenarioE1Attached 2 "P2" (by decide),
    C7_already_attached.2.1 (streamWithProtocol limitsE3) 3 "Q2" (by decide),
    C7_already_attached.2.2 (streamWithService limitsE3) 3 "other" wf_streamWithServiceE3
      (by decide) (by decide) (by decide)⟩

/-- Witness of C8: `SetService` on the fresh stream of scenario E3. -/
theorem C8_witness :
    SetService 3 "bitswap" (streamOpened limitsE3) =
        (streamOpened limitsE3, some Error.NotAttachedToProtocol) ∧
      (SetService 3 "bitswap" (streamOpened limitsE3)).1.s_svc 3 = none ∧
      (SetService 3 "bitswap" (streamOpened limitsE3)).1.svc = (streamOpened limitsE3).svc :=
  C8_service_needs_protocol (streamOpened limitsE3) 3 "bitswap" (wf_streamOpened _) (by decide)
    (by decide) (by decide)

/-- Witness of C9: the reclaimer pass of scenario E4. -/
theorem C9_witness :
    (gc streamClosed).proto = streamClosed.proto.filter (fun e => !IsUnused e.2 streamClosed) ∧
      (gc streamClosed).peer = streamClosed.peer.filter (fun e => !IsUnused e.2 streamClosed) ∧
      (gc streamClosed).svc = streamClosed.svc :=
  have h := C9_gc_removes_exactly_unused streamClosed wf_streamClosed
  ⟨h.1, h.2.1, h.2.2.2.2.2⟩

/-- Witness of C10: the peer scope (object 2) of the open stream (object 3)
of scenario E3 is not unused. -/
theorem C10_witness :
    IsUnused 2 (streamOpened limitsE3) = false ∧
      (gc (streamOpened limitsE3)).done 2 = (streamOpened limitsE3).done 2 :=
  have h := (C10_gc_spares_live_parents limitsE3 (streamOpened limitsE3)
    (Reachable.openStream "P" Direction.DirOutbound Reachable.init)).1 3 2 (by decide)
    (by decide) (by decide) (Or.inl (by decide))
  ⟨h.1, h.2.1⟩

/-! ## C11: a reclaimed peer scope is created anew -/

/-- C11: let the registry's scope for `P` have no other users (no reference
and no usage, or `P` not registered).  After a successful `OpenStream(P, d)`
and the stream's `Done()` the scope registered for `P` is unused (`refs = 0`,
`used = 0`), and the next reclaimer pass marks it done and removes `P` from
the peer registry.  A get-or-create for `P` after that (`getPeerScope`, and so
`ViewPeer`, which hands its callback the scope `getPeerScope` returns) yields
a newly constructed scope: a new object, distinct from the reclaimed one,
registered for `P`, with `used = 0`, the constraint list `[System]` and the
limit the limiter returns for `P`, which is asked at that time. -/
theorem C11_reclaimed_peer_is_recreated (r r1 r2 r3 : resourceManager) (p : String)
    (dir : Direction) (x : Nat) (hwf : WF r)
    (hu : regUsed r.peer p r = 0) (hrf : regRefs r.peer p r = 0)
    (h1 : OpenStream p dir r = (r1, Except.ok x)) (h2 : Done x r1 = r2) (h3 : gc r2 = r3) :
    ∃ q, mapGet r2.peer p = some q ∧ r2.refCnt q = 0 ∧ r2.used q = 0 ∧
      IsUnused q r2 = true ∧
      mapGet r3.peer p = none ∧ r3.done q = true ∧
      (getPeerScope p r3).1 ≠ q ∧ (getPeerScope p r3).1 = r3.next ∧
      mapGet (getPeerScope p r3).2.peer p = some (getPeerScope p r3).1 ∧
      (getPeerScope p r3).2.done (getPeerScope p r3).1 = false ∧
      (getPeerScope p r3).2.used (getPeerScope p r3).1 = 0 ∧
      (getPeerScope p r3).2.constraints (getPeerScope p r3).1 =
        [(getPeerScope p r3).2.system] ∧
      (getPeerScope p r3).2.limit (getPeerScope p r3).1 = r3.limits.GetPeerLimits p ∧
      (getPeerScope p r3).2.limiterLog = r3.limiterLog ++ [LimiterCall.GetPeerLimits p] ∧
      (∀ f, (ViewPeer p f r3).2 = (f (getPeerScope p r3).1 (getPeerScope p r3).2).2) := by
  have hok : (OpenStream p dir r).2 = Except.ok x := by rw [h1]
  obtain ⟨q, a1, a2, a3, a4, a5, a6⟩ := stream_life_leaves_peer_unused hwf p dir hu hrf hok
  have hr1 : (OpenStream p dir r).1 = r1 := by rw [h1]
  rw [hr1, h2] at a1 a2 a3 a4 a5 a6
  obtain ⟨b1, b2⟩ := gc_removes_unused_peer a6 a1 a4
  have hnext : (gc r2).next = r2.next := (gc_spec a6).2.2.2.2.2.2.2.2.2.1
  rw [h3] at b1 b2 hnext
  refine ⟨q, a1, a2, a3, a4, b1, b2, ?_, ?_, ?_, ?_, ?_, ?_, ?_, ?_, fun f => rfl⟩ <;>
    rw [getPeerScope_absent b1]
  · show r3.next ≠ q
    omega
  · simp [mapGet_mapSet _ _ b1]
  · simp
  · simp
  · simp
  · simp

/-! ## C12: get-or-create -/

/-- C12: each of `getServiceScope`, `getProtocolScope` and `getPeerScope`
returns the scope its registry maps the key `k` to after the call, with a
reference count one higher than the registry's scope for `k` had before (one
for a scope the call created).  If `k` was present the same object is
returned, the limiter is not queried, and limit, used vector and registry are
unchanged; if `k` was absent the scope is a new object with `used = 0`, the
limit the limiter returns for `k` (asked exactly once) and the constraint list
`[System]`.  The entries of all other keys and the other two registries are
unchanged. -/
theorem C12_get_or_create (r : resourceManager) (k : String) :
    (mapGet (getServiceScope k r).2.svc k = some (getServiceScope k r).1 ∧
      (getServiceScope k r).2.refCnt (getServiceScope k r).1 = regRefs r.svc k r + 1 ∧
      (∀ s, mapGet r.svc k = some s →
        (getServiceScope k r).1 = s ∧
        (getServiceScope k r).2.limiterLog = r.limiterLog ∧
        (getServiceScope k r).2.limit s = r.limit s ∧
        (getServiceScope k r).2.used s = r.used s ∧
        (getServiceScope k r).2.svc = r.svc) ∧
      (mapGet r.svc k = none →
        (getServiceScope k r).1 = r.next ∧
        (getServiceScope k r).2.next = r.next + 1 ∧
        (getServiceScope k r).2.used (getServiceScope k r).1 = 0 ∧
        (getServiceScope k r).2.limit (getServiceScope k r).1 = r.limits.GetServiceLimits k ∧
        (getServiceScope k r).2.limiterLog =
          r.limiterLog ++ [LimiterCall.GetServiceLimits k] ∧
        (getServiceScope k r).2.constraints (getServiceScope k r).1 =
          [(getServiceScope k r).2.system]) ∧
      (∀ j, j ≠ k → mapGet (getServiceScope k r).2.svc j = mapGet r.svc j) ∧
      (getServiceScope k r).2.proto = r.proto ∧ (getServiceScope k r).2.peer = r.peer) ∧
    (mapGet (getProtocolScope k r).2.proto k = some (getProtocolScope k r).1 ∧
      (getProtocolScope k r).2.refCnt (getProtocolScope k r).1 = regRefs r.proto k r + 1 ∧
      (∀ s, mapGet r.proto k = some s →
        (getProtocolScope k r).1 = s ∧
        (getProtocolScope k r).2.limiterLog = r.limiterLog ∧
        (getProtocolScope k r).2.limit s = r.limit s ∧
        (getProtocolScope k r).2.used s = r.used s ∧
        (getProtocolScope k r).2.proto = r.proto) ∧
      (mapGet r.proto k = none →
        (getProtocolScope k r).1 = r.next ∧
        (getProtocolScope k r).2.next = r.next + 1 ∧
        (getProtocolScope k r).2.used (getProtocolScope k r).1 = 0 ∧
        (getProtocolScope k r).2.limit (getProtocolScope k r).1 =
          r.limits.GetProtocolLimits k ∧
        (getProtocolScope k r).2.limiterLog =
          r.limiterLog ++ [LimiterCall.GetProtocolLimits k] ∧
        (getProtocolScope k r).2.constraints (getProtocolScope k r).1 =
          [(getProtocolScope k r).2.system]) ∧
      (∀ j, j ≠ k → mapGet (getProtocolScope k r).2.proto j = mapGet r.proto j) ∧
      (getProtocolScope k r).2.svc = r.svc ∧ (getProtocolScope k r).2.peer = r.peer) ∧
    (mapGet (getPeerScope k r).2.peer k = some (getPeerScope k r).1 ∧
      (getPeerScope k r).2.refCnt (getPeerScope k r).1 = regRefs r.peer k r + 1 ∧
      (∀ s, mapGet r.peer k = some s →
        (getPeerScope k r).1 = s ∧
        (getPeerScope k r).2.limiterLog = r.limiterLog ∧
        (getPeerScope k r).2.limit s = r.limit s ∧
        (getPeerScope k r).2.used s = r.used s ∧
        (getPeerScope k r).2.peer = r.peer) ∧
      (mapGet r.peer k = none →
        (getPeerScope k r).1 = r.next ∧
        (getPeerScope k r).2.next = r.next + 1 ∧
        (getPeerScope k r).2.used (getPeerScope k r).1 = 0 ∧
        (getPeerScope k r).2.limit (getPeerScope k r).1 = r.limits.GetPeerLimits k ∧
        (getPeerScope k r).2.limiterLog = r.limiterLog ++ [LimiterCall.GetPeerLimits k] ∧
        (getPeerScope k r).2.constraints (getPeerScope k r).1 =
          [(getPeerScope k r).2.system]) ∧
      (∀ j, j ≠ k → mapGet (getPeerScope k r).2.peer j = mapGet r.peer j) ∧
      (getPeerScope k r).2.svc = r.svc ∧ (getPeerScope k r).2.proto = r.proto) := by
  refine ⟨?_, ?_, ?_⟩
  · cases hq : mapGet r.svc k with
    | some q =>
      rw [getServiceScope_present hq]
      simp [IncRef, regRefs, hq]
    | none =>
      rw [getServiceScope_absent hq]
      refine ⟨by simp [mapGet_mapSet _ _ hq], by simp [regRefs, hq], by simp, by simp, ?_,
        rfl, rfl⟩
      intro j hj
      simp [mapGet_mapSet _ _ hq, hj]
  · cases hq : mapGet r.proto k with
    | some q =>
      rw [getProtocolScope_present hq]
      simp [IncRef, regRefs, hq]
    | none =>
      rw [getProtocolScope_absent hq]
      refine ⟨by simp [mapGet_mapSet _ _ hq], by simp [regRefs, hq], by simp, by simp, ?_,
        rfl, rfl⟩
      intro j hj
      simp [mapGet_mapSet _ _ hq, hj]
  · cases hq : mapGet r.peer k with
    | some q =>
      rw [getPeerScope_present hq]
      simp [IncRef, regRefs, hq]
    | none =>
      rw [getPeerScope_absent hq]
      refine ⟨by simp [mapGet_mapSet _ _ hq], by simp [regRefs, hq], by simp, by simp, ?_,
        rfl, rfl⟩
      intro j hj
      simp [mapGet_mapSet _ _ hq, hj]

/-! ## C13: the `View` methods -/

/-- C13: for a callback `f` that does not itself change reference counts,
`ViewService`, `ViewProtocol` and `ViewPeer` return exactly the value `f`
returns; `f` runs once, on the scope the registry holds for `k` (the one
`getXxxScope` hands out) and in the state `getXxxScope` leaves; the state
after the call is the one `f` left with the reference dropped again, so that
the scope's reference count is the one the registry's scope for `k` had before
the call (zero for a scope the call created) whatever `f` returns.
`ViewSystem` and `ViewTransient` are `f` applied to the system and transient
scope: they return `f`'s result and change no reference count. -/
theorem C13_view_balances_references (r : resourceManager) (k : String) (f : Callback)
    (hf : ∀ s st, (f s st).1.refCnt = st.refCnt) :
    ((ViewService k f r).2 = (f (getServiceScope k r).1 (getServiceScope k r).2).2 ∧
      (ViewService k f r).1 =
        DecRef (getServiceScope k r).1 (f (getServiceScope k r).1 (getServiceScope k r).2).1 ∧
      mapGet (getServiceScope k r).2.svc k = some (getServiceScope k r).1 ∧
      (ViewService k f r).1.refCnt (getServiceScope k r).1 = regRefs r.svc k r) ∧
    ((ViewProtocol k f r).2 = (f (getProtocolScope k r).1 (getProtocolScope k r).2).2 ∧
      (ViewProtocol k f r).1 =
        DecRef (getProtocolScope k r).1
          (f (getProtocolScope k r).1 (getProtocolScope k r).2).1 ∧
      mapGet (getProtocolScope k r).2.proto k = some (getProtocolScope k r).1 ∧
      (ViewProtocol k f r).1.refCnt (getProtocolScope k r).1 = regRefs r.proto k r) ∧
    ((ViewPeer k f r).2 = (f (getPeerScope k r).1 (getPeerScope k r).2).2 ∧
      (ViewPeer k f r).1 =
        DecRef (getPeerScope k r).1 (f (getPeerScope k r).1 (getPeerScope k r).2).1 ∧
      mapGet (getPeerScope k r).2.peer k = some (getPeerScope k r).1 ∧
      (ViewPeer k f r).1.refCnt (getPeerScope k r).1 = regRefs r.peer k r) ∧
    (ViewSystem f r = f r.system r ∧ (ViewSystem f r).1.refCnt = r.refCnt) ∧
    (ViewTransient f r = f r.transient r ∧ (ViewTransient f r).1.refCnt = r.refCnt) := by
  have h : ∀ s st, (DecRef s (f s st).1).refCnt s = st.refCnt s - 1 := by
    intro s st
    simp [DecRef, hf]
  refine ⟨⟨rfl, rfl, ?_, ?_⟩, ⟨rfl, rfl, ?_, ?_⟩, ⟨rfl, rfl, ?_, ?_⟩, ⟨rfl, hf _ _⟩,
    ⟨rfl, hf _ _⟩⟩
  · cases hq : mapGet r.svc k with
    | some q => rw [getServiceScope_present hq]; exact hq
    | none => rw [getServiceScope_absent hq]; simp [mapGet_mapSet _ _ hq]
  · refine (h (getServiceScope k r).1 (getServiceScope k r).2).trans ?_
    cases hq : mapGet r.svc k with
    | some q => rw [getServiceScope_present hq]; simp [IncRef, regRefs, hq]
    | none => rw [getServiceScope_absent hq]; simp [regRefs, hq]
  · cases hq : mapGet r.proto k with
    | some q => rw [getProtocolScope_present hq]; exact hq
    | none => rw [getProtocolScope_absent hq]; simp [mapGet_mapSet _ _ hq]
  · refine (h (getProtocolScope k r).1 (getProtocolScope k r).2).trans ?_
    cases hq : mapGet r.proto k with
    | some q => rw [getProtocolScope_present hq]; simp [IncRef, regRefs, hq]
    | none => rw [getProtocolScope_absent hq]; simp [regRefs, hq]
  · cases hq : mapGet r.peer k with
    | some q => rw [getPeerScope_present hq]; exact hq
    | none => rw [getPeerScope_absent hq]; simp [mapGet_mapSet _ _ hq]
  · refine (h (getPeerScope k r).1 (getPeerScope k r).2).trans ?_
    cases hq : mapGet r.peer k with
    | some q => rw [getPeerScope_present hq]; simp [IncRef, regRefs, hq]
    | none => rw [getPeerScope_absent hq]; simp [regRefs, hq]

/-! ## C14: a successful `OpenConnection` -/

/-- C14: a successful `OpenConnection(dir, usefd)` returns a new connection
scope with no peer and the constraint list `[Transient, System]`; the used
vector of the connection (from zero), of Transient and of System has grown by
the same delta, and no other used vector has moved.  The delta is one
connection in direction `dir`, one file descriptor iff `usefd`, no memory and
no streams. -/
theorem C14_OpenConnection_success (r : resourceManager) (dir : Direction) (usefd : Bool)
    (c : Nat) (hwf : WF r) (hok : (OpenConnection dir usefd r).2 = Except.ok c) :
    c = r.next ∧ c < (OpenConnection dir usefd r).1.next ∧
      (OpenConnection dir usefd r).1.kind c = ScopeKind.connectionScope dir usefd ∧
      (OpenConnection dir usefd r).1.s_peer c = none ∧
      (OpenConnection dir usefd r).1.constraints c =
        [(OpenConnection dir usefd r).1.transient, (OpenConnection dir usefd r).1.system] ∧
      (OpenConnection dir usefd r).1.used c = connDelta dir usefd ∧
      (OpenConnection dir usefd r).1.used (OpenConnection dir usefd r).1.transient =
        r.used r.transient + connDelta dir usefd ∧
      (OpenConnection dir usefd r).1.used (OpenConnection dir usefd r).1.system =
        r.used r.system + connDelta dir usefd ∧
      (∀ y, y ≠ c → y ≠ r.transient → y ≠ r.system →
        (OpenConnection dir usefd r).1.used y = r.used y) ∧
      (connDelta dir usefd).memory = 0 ∧
      (connDelta dir usefd).conns_in = (if dir = Direction.DirInbound then 1 else 0) ∧
      (connDelta dir usefd).conns_out = (if dir = Direction.DirOutbound then 1 else 0) ∧
      (connDelta dir usefd).streams_in = 0 ∧ (connDelta dir usefd).streams_out = 0 ∧
      (connDelta dir usefd).fd = (if usefd = true then 1 else 0) := by
  obtain ⟨e1, e2, -, e4, e5, e6, e7, e8, -⟩ := OpenConnection_effect hwf dir usefd
  obtain ⟨hc, -, hu, -⟩ := e8 c hok
  have hxT : r.transient ≠ r.next := Nat.ne_of_lt hwf.transient_lt
  have hxS : r.system ≠ r.next := Nat.ne_of_lt hwf.system_lt
  subst hc
  refine ⟨rfl, by rw [e4]; exact Nat.lt_succ_self _, e5, e6, by rw [e7, e1, e2], ?_, ?_, ?_,
    ?_, rfl, rfl, ?_, rfl, rfl, rfl⟩
  · rw [hu]; simp
  · rw [e2, hu]; simp [hxT]
  · rw [e1, hu]; simp [hxS]
  · intro y h1 h2 h3
    rw [hu]; simp [h1, h2, h3]
  · cases dir <;> simp [connDelta]

/-! ## C15: failed `OpenStream` and `OpenConnection` -/

/-- C15: when `OpenStream(p, d)` fails the caller gets the error and no scope;
the used vectors of Peer(p), Transient and System (of every object that
existed before the call) are the pre-call ones, and the reference count of
Peer(p) is the pre-call one (zero for a peer scope the call created, which
stays registered).  When `OpenConnection` fails the used vectors of Transient
and System (of every object that existed before the call) are the pre-call
ones as well. -/
theorem C15_open_failure_rolls_back (r : resourceManager) (hwf : WF r) :
    (∀ p dir e, (OpenStream p dir r).2 = Except.error e →
      (∀ x, (OpenStream p dir r).2 ≠ Except.ok x) ∧
      regUsed (OpenStream p dir r).1.peer p (OpenStream p dir r).1 = regUsed r.peer p r ∧
      regRefs (OpenStream p dir r).1.peer p (OpenStream p dir r).1 = regRefs r.peer p r ∧
      mapGet (OpenStream p dir r).1.peer p ≠ none ∧
      (OpenStream p dir r).1.used (OpenStream p dir r).1.transient = r.used r.transient ∧
      (OpenStream p dir r).1.used (OpenStream p dir r).1.system = r.used r.system ∧
      (∀ y, y < r.next → (OpenStream p dir r).1.used y = r.used y)) ∧
    (∀ dir usefd e, (OpenConnection dir usefd r).2 = Except.error e →
      (∀ c, (OpenConnection dir usefd r).2 ≠ Except.ok c) ∧
      (OpenConnection dir usefd r).1.used (OpenConnection dir usefd r).1.transient =
        r.used r.transient ∧
      (OpenConnection dir usefd r).1.used (OpenConnection dir usefd r).1.system =
        r.used r.system ∧
      (∀ y, y < r.next → (OpenConnection dir usefd r).1.used y = r.used y)) := by
  constructor
  · intro p dir e he
    obtain ⟨h1, h2, h3, h4⟩ := OpenStream_fail_spec hwf p dir he
    obtain ⟨hS, hT⟩ := OpenStream_roots hwf p dir
    refine ⟨?_, h2, h3, ?_, ?_, ?_, h1⟩
    · intro x hx
      rw [he] at hx
      cases hx
    · rw [h4]
      simp
    · rw [hT]
      exact h1 _ hwf.transient_lt
    · rw [hS]
      exact h1 _ hwf.system_lt
  · intro dir usefd e he
    obtain ⟨e1, e2, -, -, -, -, -, -, e9⟩ := OpenConnection_effect hwf dir usefd
    have h1 : ∀ y, y < r.next → (OpenConnection dir usefd r).1.used y = r.used y :=
      fun y hy => (e9 e he y (Nat.ne_of_lt hy)).1
    refine ⟨?_, ?_, ?_, h1⟩
    · intro x hx
      rw [he] at hx
      cases hx
    · rw [e2]
      exact h1 _ hwf.transient_lt
    · rw [e1]
      exact h1 _ hwf.system_lt

/-! ## C16: `SetPeer` and `SetProtocol` on a scope that is done -/

/-- C16, counterexample: the connection of scenario E1 (object 2) is closed
without a peer; `SetPeer(P)` on it returns no error, attaches the connection
to the new peer scope (object 3), takes a reference off Transient and leaves
one on the peer scope.  Likewise the stream of scenario E3 (object 3) closed
without a protocol: `SetProtocol(Q)` returns no error and attaches the stream
to the new protocol scope (object 4). -/
theorem C16_counterexample :
    (connClosed.done 2 = true ∧ connClosed.s_peer 2 = none ∧
      (SetPeer 2 "P" connClosed).2 = none ∧
      (SetPeer 2 "P" connClosed).1.s_peer 2 = some 3 ∧
      (SetPeer 2 "P" connClosed).1.refCnt (SetPeer 2 "P" connClosed).1.transient =
        connClosed.refCnt connClosed.transient - 1 ∧
      regRefs (SetPeer 2 "P" connClosed).1.peer "P" (SetPeer 2 "P" connClosed).1 =
        regRefs connClosed.peer "P" connClosed + 1) ∧
    (streamDone.done 3 = true ∧ streamDone.s_proto 3 = none ∧
      (SetProtocol 3 "Q" streamDone).2 = none ∧
      (SetProtocol 3 "Q" streamDone).1.s_proto 3 = some 4 ∧
      (SetProtocol 3 "Q" streamDone).1.refCnt (SetProtocol 3 "Q" streamDone).1.transient =
        streamDone.refCnt streamDone.transient - 1 ∧
      regRefs (SetProtocol 3 "Q" streamDone).1.proto "Q" (SetProtocol 3 "Q" streamDone).1 =
        regRefs streamDone.proto "Q" streamDone + 1) :=
  ⟨⟨by decide, by decide, by decide, by decide, by decide, by decide⟩,
    ⟨by decide, by decide, by decide, by decide, by decide, by decide⟩⟩

/-- C16, corrected statement: `SetPeer` and `SetProtocol` do not consult the
done flag.
On a connection that is done (so that its usage is zero) and has no peer,
`SetPeer(p)` never returns `ScopeClosed`: it returns what the peer scope's
`ReserveForChild` returns for the zero vector.  When that is no error the
connection is attached to the scope registered for `p` and its constraint
list becomes `[Peer(p), System]`; when it is an error the connection stays
unattached with `[Transient, System]`.  Either way the connection stays done
with usage zero and the used vectors of Transient, System and Peer(p) are the
pre-call ones.  The same holds for `SetProtocol(id)` on a stream that is done
and has no protocol, with the protocol scope and `[Peer, Protocol(id),
System]`. -/
theorem C16_attach_ignores_done (r : resourceManager) (hwf : WF r) :
    (∀ c p, c < r.next → (r.kind c).isConn = true → r.done c = true → stat c r = 0 →
      r.s_peer c = none →
      (SetPeer c p r).2 ≠ some Error.ScopeClosed ∧
      (SetPeer c p r).2 = (ReserveForChild (getPeerScope p r).1 0 (getPeerScope p r).2).2 ∧
      ((SetPeer c p r).2 = none →
        ∃ q, mapGet (SetPeer c p r).1.peer p = some q ∧
          (SetPeer c p r).1.s_peer c = some q ∧
          (SetPeer c p r).1.constraints c = [q, (SetPeer c p r).1.system]) ∧
      ((SetPeer c p r).2 ≠ none →
        (SetPeer c p r).1.s_peer c = none ∧
        (SetPeer c p r).1.constraints c =
          [(SetPeer c p r).1.transient, (SetPeer c p r).1.system]) ∧
      (SetPeer c p r).1.done c = true ∧ stat c (SetPeer c p r).1 = 0 ∧
      (SetPeer c p r).1.used (SetPeer c p r).1.transient = r.used r.transient ∧
      (SetPeer c p r).1.used (SetPeer c p r).1.system = r.used r.system ∧
      regUsed (SetPeer c p r).1.peer p (SetPeer c p r).1 = regUsed r.peer p r) ∧
    (∀ x id, x < r.next → (r.kind x).isStream = true → r.done x = true → stat x r = 0 →
      r.s_proto x = none →
      (SetProtocol x id r).2 ≠ some Error.ScopeClosed ∧
      (SetProtocol x id r).2 =
        (ReserveForChild (getProtocolScope id r).1 0 (getProtocolScope id r).2).2 ∧
      ((SetProtocol x id r).2 = none →
        ∃ pr q, mapGet (SetProtocol x id r).1.proto id = some q ∧
          (SetProtocol x id r).1.s_peer x = some pr ∧
          (SetProtocol x id r).1.s_proto x = some q ∧
          (SetProtocol x id r).1.constraints x = [pr, q, (SetProtocol x id r).1.system]) ∧
      ((SetProtocol x id r).2 ≠ none →
        (SetProtocol x id r).1.s_proto x = none ∧
        ∃ pr, r.s_peer x = some pr ∧
          (SetProtocol x id r).1.constraints x =
            [pr, (SetProtocol x id r).1.transient, (SetProtocol x id r).1.system]) ∧
      (SetProtocol x id r).1.done x = true ∧ stat x (SetProtocol x id r).1 = 0 ∧
      (SetProtocol x id r).1.used (SetProtocol x id r).1.transient = r.used r.transient ∧
      (SetProtocol x id r).1.used (SetProtocol x id r).1.system = r.used r.system ∧
      regUsed (SetProtocol x id r).1.proto id (SetProtocol x id r).1 =
        regUsed r.proto id r) := by
  have hTlt := hwf.transient_lt
  have hSlt := hwf.system_lt
  constructor
  · intro c p hc hk hd hs hnp
    simp only [stat] at hs
    obtain ⟨a1, a2, a3, a4⟩ := SetPeer_result hwf hc hk p hnp
    simp only [stat, hs] at a1
    have hcs := hwf.conn_ok c hc hk
    simp only [ConnOK, hnp] at hcs
    have hroots : (SetPeer c p r).2 = none ∨ (SetPeer c p r).2 ≠ none := em _
    have key : (SetPeer c p r).1.system = r.system ∧
        (SetPeer c p r).1.transient = r.transient ∧
        (SetPeer c p r).1.used r.transient = r.used r.transient ∧
        (SetPeer c p r).1.used r.system = r.used r.system ∧
        regUsed (SetPeer c p r).1.peer p (SetPeer c p r).1 = regUsed r.peer p r := by
      rcases hroots with hok | hfail
      · obtain ⟨q, s1, -, -, s4, s5, -, -, -, -, -, -, -, -, s14, -⟩ :=
          SetPeer_ok_spec hwf hc hk p hnp hok
        obtain ⟨u1, u2⟩ := SetPeer_ok_used hwf hc hk p hnp hok
        refine ⟨s4, s5, ?_, u2, ?_⟩
        · rw [u1, hs]; simp
        · simp only [regUsed, s1]
          rw [s14, hs]; simp [regUsed]
      · obtain ⟨-, -, f3, f4, f5, f6⟩ := SetPeer_fail_spec hc p hnp hfail
        exact ⟨f5, f6, f3 _ hTlt, f3 _ hSlt, f4⟩
    obtain ⟨k1, k2, k3, k4, k5⟩ := key
    refine ⟨a2, a1, ?_, ?_, by rw [a3]; exact hd, by simp only [stat]; rw [a4]; exact hs,
      by rw [k2]; exact k3, by rw [k1]; exact k4, k5⟩
    · intro hok
      obtain ⟨q, s1, s2, s3, s4, -⟩ := SetPeer_ok_spec hwf hc hk p hnp hok
      exact ⟨q, s1, s2, by rw [s3, s4]⟩
    · intro hfail
      obtain ⟨f1, f2, -, -, f5, f6⟩ := SetPeer_fail_spec hc p hnp hfail
      exact ⟨f1, by rw [f2, hcs, f5, f6]⟩
  · intro x id hx hk hd hs hnp
    simp only [stat] at hs
    obtain ⟨a1, a2, a3, a4⟩ := SetProtocol_result hwf hx hk id hnp
    simp only [stat, hs] at a1
    obtain ⟨pr, hpr, -, -, hm⟩ := hwf.stream_ok x hx hk
    have hsv : r.s_svc x = none := by
      cases hv : r.s_svc x with
      | none => rfl
      | some v => simp only [hnp, hv] at hm
    simp only [hnp, hsv] at hm
    have hTS : r.transient ≠ r.system := (hwf.conn_facts (Or.inr hk)).2.2.1
    have hroots : (SetProtocol x id r).2 = none ∨ (SetProtocol x id r).2 ≠ none := em _
    have key : (SetProtocol x id r).1.system = r.system ∧
        (SetProtocol x id r).1.transient = r.transient ∧
        (SetProtocol x id r).1.used r.transient = r.used r.transient ∧
        (SetProtocol x id r).1.used r.system = r.used r.system ∧
        regUsed (SetProtocol x id r).1.proto id (SetProtocol x id r).1 =
          regUsed r.proto id r := by
      rcases hroots with hok | hfail
      · obtain ⟨pr0, q, -, s2, -, -, -, -, s7, s8, s9, s10, s11, -, -, -, s15, s16, -⟩ :=
          SetProtocol_ok_spec hwf hx hk id hnp hok
        refine ⟨s7, s8, ?_, ?_, ?_⟩
        · rw [s9, hs]; simp
        · exact s11 _ (Ne.symm hTS) (Ne.symm s16)
        · simp only [regUsed, s2]
          rw [s10, hs]; simp [regUsed]
      · obtain ⟨-, -, f3, f4, -, f6, f7⟩ := SetProtocol_fail_spec hwf hx hk id hnp hfail
        exact ⟨f6, f7, f3 _ hTlt, f3 _ hSlt, f4⟩
    obtain ⟨k1, k2, k3, k4, k5⟩ := key
    refine ⟨a2, a1, ?_, ?_, by rw [a3]; exact hd, by simp only [stat]; rw [a4]; exact hs,
      by rw [k2]; exact k3, by rw [k1]; exact k4, k5⟩
    · intro hok
      obtain ⟨pr0, q, -, s2, s3, s4, -, s6, s7, -⟩ :=
        SetProtocol_ok_spec hwf hx hk id hnp hok
      exact ⟨pr0, q, s2, s3, s4, by rw [s6, s7]⟩
    · intro hfail
      obtain ⟨f1, f2, -, -, -, f6, f7⟩ := SetProtocol_fail_spec hwf hx hk id hnp hfail
      exact ⟨f1, pr, hpr, by rw [f2, hm, f6, f7]⟩

/-! ## C17: the constraint list is determined by the attachments -/

/-- C17: in every reachable state the constraint list of a connection or
stream scope is determined by its attachments.  A connection has
`[Transient, System]` without a peer and `[Peer, System]` with one.  A stream
always has a peer and has `[Peer, Transient, System]` without a protocol,
`[Peer, Protocol, System]` with a protocol and no service, and
`[Peer, Protocol, Service, System]` with both; a stream with a service has a
protocol.  So Transient is in the list exactly while the peer (connection) or
the protocol (stream) is unset, System is the last element, the list has no
duplicates and at most four elements. -/
theorem C17_constraints_determined (limits : Limiter) (r : resourceManager) (x : Nat)
    (hr : Reachable limits r) (hx : x < r.next) :
    ((r.kind x).isConn = true →
      (r.s_peer x = none → r.constraints x = [r.transient, r.system]) ∧
      (∀ p, r.s_peer x = some p → r.constraints x = [p, r.system]) ∧
      (r.transient ∈ r.constraints x ↔ r.s_peer x = none)) ∧
    ((r.kind x).isStream = true →
      ∃ p, r.s_peer x = some p ∧
        (r.s_proto x = none →
          r.s_svc x = none ∧ r.constraints x = [p, r.transient, r.system]) ∧
        (∀ q, r.s_proto x = some q → r.s_svc x = none →
          r.constraints x = [p, q, r.system]) ∧
        (∀ q v, r.s_proto x = some q → r.s_svc x = some v →
          r.constraints x = [p, q, v, r.system]) ∧
        (r.s_svc x ≠ none → r.s_proto x ≠ none) ∧
        (r.transient ∈ r.constraints x ↔ r.s_proto x = none)) ∧
    ((r.kind x).isConn = true ∨ (r.kind x).isStream = true →
      (r.constraints x).getLast? = some r.system ∧ (r.constraints x).Nodup ∧
        (r.constraints x).length ≤ 4) := by
  have hwf := hr.wellFormed
  have hTk := hwf.transient_kind
  have hSk := hwf.system_kind
  have hTS : r.transient ≠ r.system := by
    intro h2
    rw [h2, hSk] at hTk
    cases hTk
  refine ⟨?_, ?_, ?_⟩
  · intro hk
    have hc := hwf.conn_ok x hx hk
    simp only [ConnOK] at hc
    cases hp : r.s_peer x with
    | none =>
      simp only [hp] at hc
      simp [hc]
    | some p =>
      simp only [hp] at hc
      obtain ⟨h1, -, h3⟩ := hc
      have hpT : r.transient ≠ p := by
        rintro rfl
        rw [hTk] at h3
        cases h3
      simp [h1, hpT, hTS]
  · intro hk
    obtain ⟨p, hp, -, hpk, hm⟩ := hwf.stream_ok x hx hk
    have hpT : r.transient ≠ p := by
      rintro rfl
      rw [hTk] at hpk
      cases hpk
    refine ⟨p, hp, ?_⟩
    cases hq : r.s_proto x with
    | none =>
      cases hv : r.s_svc x with
      | none =>
        simp only [hq, hv] at hm
        simp [hm]
      | some v =>
        simp only [hq, hv] at hm
    | some q =>
      cases hv : r.s_svc x with
      | none =>
        simp only [hq, hv] at hm
        obtain ⟨h1, -, h3⟩ := hm
        have hqT : r.transient ≠ q := by
          rintro rfl
          rw [hTk] at h3
          cases h3
        simp [h1, hpT, hqT, hTS]
      | some v =>
        simp only [hq, hv] at hm
        obtain ⟨h1, -, h3, -, h5⟩ := hm
        have hqT : r.transient ≠ q := by
          rintro rfl
          rw [hTk] at h3
          cases h3
        have hvT : r.transient ≠ v := by
          rintro rfl
          rw [hTk] at h5
          cases h5
        simp [h1, hpT, hqT, hvT, hTS]
  · intro hk
    obtain ⟨hnd, -, -⟩ := hwf.constraints_facts hx hk
    refine ⟨?_, hnd, ?_⟩
    · rcases hk with hk | hk
      · have hc := hwf.conn_ok x hx hk
        simp only [ConnOK] at hc
        cases hp : r.s_peer x with
        | none =>
          simp only [hp] at hc
          simp [hc]
        | some p =>
          simp only [hp] at hc
          simp [hc.1]
      · obtain ⟨p, hp, -, hpk, hm⟩ := hwf.stream_ok x hx hk
        cases hq : r.s_proto x with
        | none =>
          cases hv : r.s_svc x with
          | none =>
            simp only [hq, hv] at hm
            simp [hm]
          | some v =>
            simp only [hq, hv] at hm
        | some q =>
          cases hv : r.s_svc x with
          | none =>
            simp only [hq, hv] at hm
            simp [hm.1]
          | some v =>
            simp only [hq, hv] at hm
            simp [hm.1]
    · rcases hk with hk | hk
      · have hc := hwf.conn_ok x hx hk
        simp only [ConnOK] at hc
        cases hp : r.s_peer x with
        | none =>
          simp only [hp] at hc
          simp [hc]
        | some p =>
          simp only [hp] at hc
          simp [hc.1]
      · obtain ⟨p, hp, -, hpk, hm⟩ := hwf.stream_ok x hx hk
        cases hq : r.s_proto x with
        | none =>
          cases hv : r.s_svc x with
          | none =>
            simp only [hq, hv] at hm
            simp [hm]
          | some v =>
            simp only [hq, hv] at hm
        | some q =>
          cases hv : r.s_svc x with
          | none =>
            simp only [hq, hv] at hm
            simp [hm.1]
          | some v =>
            simp only [hq, hv] at hm
            simp [hm.1]

/-! ## C18: reference balance over a connection's life -/

/-- C18, counterexample: on a fresh manager the connection (object 2) is
opened, attached to the peer `P`, whose scope `SetPeer` creates, and closed.
The system scope then has three references, one more than the two it had
before `OpenConnection`: the new peer scope hangs on it. -/
theorem C18_counterexample :
    (OpenConnection Direction.DirInbound true managerE3).2 = Except.ok 2 ∧
      (SetPeer 2 "P" (OpenConnection Direction.DirInbound true managerE3).1).2 = none ∧
      managerE3.refCnt managerE3.system = 2 ∧
      connLifecycle.refCnt connLifecycle.system = 3 ∧
      connLifecycle.refCnt connLifecycle.system ≠ managerE3.refCnt managerE3.system :=
  ⟨rfl, by decide, by decide, by decide, by decide⟩

/-- C18, corrected statement: after a successful `OpenConnection`, a successful
`SetPeer(p)` and the connection's `Done()`, the reference counts of Transient
and of Peer(p) equal their values from before `OpenConnection` (zero for a
peer scope `SetPeer` created), and System's equals its value from before plus
one exactly when `SetPeer` created the peer scope, whose constraint list holds
that reference.  With no other users (no reference and no usage before)
Peer(p) is unused and the next reclaimer pass marks it done and removes it
from the registry. -/
theorem C18_connection_reference_balance (r r1 r2 r3 : resourceManager) (p : String)
    (dir : Direction) (usefd : Bool) (c : Nat) (hwf : WF r)
    (h1 : OpenConnection dir usefd r = (r1, Except.ok c))
    (h2 : SetPeer c p r1 = (r2, none)) (h3 : Done c r2 = r3) :
    r3.refCnt r3.transient = r.refCnt r.transient ∧
      regRefs r3.peer p r3 = regRefs r.peer p r ∧
      r3.refCnt r3.system = r.refCnt r.system + (if mapGet r.peer p = none then 1 else 0) ∧
      (regRefs r.peer p r = 0 → regUsed r.peer p r = 0 →
        ∃ q, mapGet r3.peer p = some q ∧ r3.refCnt q = 0 ∧ r3.used q = 0 ∧
          IsUnused q r3 = true ∧
          mapGet (gc r3).peer p = none ∧ (gc r3).done q = true) := by
  have hok1 : (OpenConnection dir usefd r).2 = Except.ok c := by rw [h1]
  have hwf1 := wf_OpenConnection hwf dir usefd
  obtain ⟨e1, e2, e3, e4, e5, e6, e7, e8, -⟩ := OpenConnection_effect hwf dir usefd
  obtain ⟨hc, e9, e10, e11⟩ := e8 c hok1
  rw [h1] at hwf1 e1 e2 e3 e4 e5 e6 e7 e9 e10 e11
  dsimp only at hwf1 e1 e2 e3 e4 e5 e6 e7 e9 e10 e11
  subst hc
  have hk1 : (r1.kind r.next).isConn = true := by
    rw [e5]
    rfl
  have hc1 : r.next < r1.next := by
    rw [e4]
    exact Nat.lt_succ_self _
  have hok2 : (SetPeer r.next p r1).2 = none := by rw [h2]
  have hwf2 := wf_SetPeer hwf1 hc1 hk1 p
  obtain ⟨q, s1, -, s3, s4, s5, s6, s7, s8, s9, s10, s11, s12, s13, s14, s15, s16, s17⟩ :=
    SetPeer_ok_spec hwf1 hc1 hk1 p e6 hok2
  rw [h2] at hwf2 s1 s3 s4 s5 s9 s10 s11 s12 s13 s14 s15 s16 s17
  dsimp only at hwf2 s1 s3 s4 s5 s9 s10 s11 s12 s13 s14 s15 s16 s17
  have hk2 : (r2.kind r.next).isConn = true := by
    rw [s11]
    exact hk1
  have hwf3 := wf_Done hwf2 r.next (Or.inl hk2)
  obtain ⟨hcT, hcS, hTS, -⟩ := hwf1.conn_facts (Or.inl hk1)
  -- the registry's scope for `p` is untouched by `OpenConnection`
  have hregR : regRefs r1.peer p r1 = regRefs r.peer p r := by
    simp only [regRefs, e3]
    cases hm : mapGet r.peer p with
    | none => rfl
    | some q0 =>
      obtain ⟨hlt, hkq, -⟩ := hwf.peer_ok p q0 (mapGet_mem hm)
      have a1 : q0 ≠ r.next := Nat.ne_of_lt hlt
      have a2 : q0 ≠ r.transient := by
        rintro rfl
        rw [hwf.transient_kind] at hkq
        cases hkq
      have a3 : q0 ≠ r.system := by
        rintro rfl
        rw [hwf.system_kind] at hkq
        cases hkq
      show r1.refCnt q0 = r.refCnt q0
      rw [e11 q0]
      simp [a1, a2, a3]
  have hregU : regUsed r1.peer p r1 = regUsed r.peer p r := by
    simp only [regUsed, e3]
    cases hm : mapGet r.peer p with
    | none => rfl
    | some q0 =>
      obtain ⟨hlt, hkq, -⟩ := hwf.peer_ok p q0 (mapGet_mem hm)
      have a1 : q0 ≠ r.next := Nat.ne_of_lt hlt
      have a2 : q0 ≠ r.transient := by
        rintro rfl
        rw [hwf.transient_kind] at hkq
        cases hkq
      have a3 : q0 ≠ r.system := by
        rintro rfl
        rw [hwf.system_kind] at hkq
        cases hkq
      show r1.used q0 = r.used q0
      rw [e10 q0]
      simp [a1, a2, a3]
  rw [e1] at s3 s4 s8 hcS hTS s17
  rw [e2] at s5 s7 hcT hTS s16
  have hd2 : r2.done r.next = false := by rw [s10]; exact e9
  have hnd : (r2.constraints r.next).Nodup := by
    rw [s3]
    simp [s8]
  have hxn : r.next ∉ r2.constraints r.next := by
    rw [s3]
    simp [Ne.symm s6, hcS]
  obtain ⟨d1, d2, d3⟩ := Done_spec hd2 hnd hxn
  obtain ⟨f1, -, -, f4, f5, -⟩ := Done_frame r.next r2
  rw [h3] at d1 d2 d3 f1 f4 f5 hwf3
  have hT : r3.refCnt r3.transient = r.refCnt r.transient := by
    rw [f5, s5, d2, s3, s16, e11]
    simp [Ne.symm s7, hTS, Ne.symm hcT]
  have hQ : r3.refCnt q = regRefs r.peer p r := by
    rw [d2, s3, s15, hregR]
    simp
  have hS : r3.refCnt r3.system =
      r.refCnt r.system + (if mapGet r.peer p = none then 1 else 0) := by
    rw [f4, s4, d2, s3, s17, e11, e3]
    simp [Ne.symm hTS, Ne.symm hcS]
    omega
  have hm3 : mapGet r3.peer p = some q := by rw [f1]; exact s1
  refine ⟨hT, ?_, hS, ?_⟩
  · simp only [regRefs, hm3]
    exact hQ
  · intro hr0 hu0
    have hU : r3.used q = 0 := by
      rw [d1, s3, s14, s13, hregU, hu0]
      simp [s6, s9]
    have hD : r3.done q = false := by
      rw [d3, Function.update_noteq s6]
      exact s9
    have hun : IsUnused q r3 = true := by
      rw [IsUnused_iff]
      exact ⟨by rw [hQ, hr0], hU, hD⟩
    obtain ⟨b1, b2⟩ := gc_removes_unused_peer hwf3 hm3 hun
    exact ⟨q, hm3, by rw [hQ, hr0], hU, hun, b1, b2⟩

/-! ## Witnesses of C11 to C18 -/

/-- Witness of C11 in scenario E4: the stream for `P` is opened on a fresh
manager and closed; the reclaimer removes `P`, and the scope created for `P`
afterwards starts with `used = 0`. -/
theorem C11_witness :
    mapGet (gc streamDone).peer "P" = none ∧
      (getPeerScope "P" (gc streamDone)).2.used (getPeerScope "P" (gc streamDone)).1 = 0 :=
  match C11_reclaimed_peer_is_recreated managerE3 (streamOpened limitsE3) streamDone
    (gc streamDone) "P" Direction.DirOutbound 3 (wf_NewResourceManager limitsE3) rfl rfl rfl
    rfl rfl with
  | ⟨_, h⟩ => ⟨h.2.2.2.2.1, h.2.2.2.2.2.2.2.2.2.2.1⟩

/-- Witness of C12 in scenario E1 after `SetPeer(P)`: the peer `P` is present
(object 3, limiter not asked), the protocol `Q` is absent (new scope with
`used = 0`). -/
theorem C12_witness :
    (getPeerScope "P" scenarioE1Attached).1 = 3 ∧
      (getPeerScope "P" scenarioE1Attached).2.limiterLog = scenarioE1Attached.limiterLog ∧
      (getProtocolScope "Q" scenarioE1Attached).2.used
        (getProtocolScope "Q" scenarioE1Attached).1 = 0 :=
  have hp := (C12_get_or_create scenarioE1Attached "P").2.2.2.2.1 3 (by decide)
  have hq := (C12_get_or_create scenarioE1Attached "Q").2.1.2.2.2.1 (by decide)
  ⟨hp.1, hp.2.1, hq.2.2.1⟩

/-- Witness of C13: a callback that reserves ten bytes and returns an error,
run by `ViewPeer(P)` in scenario E1 after `SetPeer(P)`. -/
theorem C13_witness :
    (ViewPeer "P" (memCallback [MemOp.reserve 10] (some Error.LimitExceeded))
        scenarioE1Attached).2 = some Error.LimitExceeded ∧
      (ViewPeer "P" (memCallback [MemOp.reserve 10] (some Error.LimitExceeded))
        scenarioE1Attached).1.refCnt (getPeerScope "P" scenarioE1Attached).1 =
        regRefs scenarioE1Attached.peer "P" scenarioE1Attached :=
  have h := (C13_view_balances_references scenarioE1Attached "P"
    (memCallback [MemOp.reserve 10] (some Error.LimitExceeded))
    (fun s st => refCnt_runMemOps _ s st)).2.2.1
  ⟨h.1, h.2.2.2⟩

/-- Witness of C14: the first connection of a fresh manager (object 2). -/
theorem C14_witness :
    (OpenConnection Direction.DirInbound true managerE3).1.s_peer 2 = none ∧
      (OpenConnection Direction.DirInbound true managerE3).1.used 2 =
        connDelta Direction.DirInbound true :=
  have h := C14_OpenConnection_success managerE3 Direction.DirInbound true 2
    (wf_NewResourceManager limitsE3) rfl
  ⟨h.2.2.2.1, h.2.2.2.2.2.1⟩

/-- Witness of C15: under a system limit that admits no stream and no
connection both calls fail. -/
theorem C15_witness :
    regRefs (OpenStream "P" Direction.DirOutbound managerFull).1.peer "P"
        (OpenStream "P" Direction.DirOutbound managerFull).1 =
        regRefs managerFull.peer "P" managerFull ∧
      (OpenConnection Direction.DirInbound true managerFull).1.used
        (OpenConnection Direction.DirInbound true managerFull).1.system =
        managerFull.used managerFull.system :=
  have h := C15_open_failure_rolls_back managerFull (wf_NewResourceManager _)
  ⟨(h.1 "P" Direction.DirOutbound Error.LimitExceeded rfl).2.2.1,
    (h.2 Direction.DirInbound true Error.LimitExceeded rfl).2.2.1⟩

/-- Witness of the corrected C16: the closed connection of scenario E1. -/
theorem C16_witness :
    (SetPeer 2 "P" connClosed).2 ≠ some Error.ScopeClosed ∧
      (SetPeer 2 "P" connClosed).1.used (SetPeer 2 "P" connClosed).1.transient =
        connClosed.used connClosed.transient :=
  have h := (C16_attach_ignores_done connClosed wf_connClosed).1 2 "P" (by decide) (by decide)
    (by decide) rfl (by decide)
  ⟨h.1, h.2.2.2.2.2.2.1⟩

/-- Witness of C17: the stream of scenario E3 with protocol and service. -/
theorem C17_witness :
    ((streamWithService limitsE3).constraints 3).getLast? =
        some (streamWithService limitsE3).system ∧
      ((streamWithService limitsE3).constraints 3).Nodup ∧
      ((streamWithService limitsE3).constraints 3).length ≤ 4 :=
  (C17_constraints_determined limitsE3 (streamWithService limitsE3) 3
    (Reachable.setService 3 "bitswap"
      (Reachable.setProtocol 3 "Q"
        (Reachable.openStream "P" Direction.DirOutbound Reachable.init) (by decide) (by decide))
      (by decide) (by decide))
    (by decide)).2.2 (Or.inr (by decide))

/-- Witness of the corrected C18: the connection life on a fresh manager, where
`SetPeer` creates the peer scope. -/
theorem C18_witness :
    connLifecycle.refCnt connLifecycle.transient = managerE3.refCnt managerE3.transient ∧
      regRefs connLifecycle.peer "P" connLifecycle = regRefs managerE3.peer "P" managerE3 ∧
      connLifecycle.refCnt connLifecycle.system =
        managerE3.refCnt managerE3.system + (if mapGet managerE3.peer "P" = none then 1 else 0) :=
  have h := C18_connection_reference_balance managerE3
    (OpenConnection Direction.DirInbound true managerE3).1
    (SetPeer 2 "P" (OpenConnection Direction.DirInbound true managerE3).1).1 connLifecycle "P"
    Direction.DirInbound true 2 (wf_NewResourceManager limitsE3) rfl rfl rfl
  ⟨h.1, h.2.1, h.2.2.1⟩

end Rcmgr
